import Mathlib

/-!
# Receive path of the mwlwifi PCIe driver (`hif/pcie/rx.c`)

A shallow embedding of the receive ring: descriptor array, software handles,
buffer refill, frame decoding, the drain loop and ring set-up / tear-down.

Pointers are modelled as optional indices (`none` is `NULL`), the two arrays as
lists, machine integers as `Nat`/`Int` with explicit truncation, and the
effects on the outside world (buffer allocation, DMA mapping, the receive sink)
as an event trace.  Outcomes of allocation and mapping are supplied by an
environment oracle.  Faulting executions (a `NULL` dereference, an access
outside an array, `skb_put` beyond the tailroom) are explicit results.
-/

namespace Mwlwifi

/-! ## Kernel constants and types -/

/-- Kernel errno value; functions return `-ENOMEM`. -/
def ENOMEM : Int := 12

/-- Kernel receive flag `RX_FLAG_MMIC_ERROR` (`BIT(0)`). -/
def RX_FLAG_MMIC_ERROR : Nat := 1
/-- Kernel receive flag `RX_FLAG_DECRYPTED` (`BIT(1)`). -/
def RX_FLAG_DECRYPTED : Nat := 2
/-- Kernel receive flag `RX_FLAG_MMIC_STRIPPED` (`BIT(3)`). -/
def RX_FLAG_MMIC_STRIPPED : Nat := 8
/-- Kernel receive flag `RX_FLAG_IV_STRIPPED` (`BIT(4)`). -/
def RX_FLAG_IV_STRIPPED : Nat := 16

def DECRYPT_ERR_MASK : Nat := 0x80
def GENERAL_DECRYPT_ERR : Nat := 0xFF
def TKIP_DECRYPT_MIC_ERR : Nat := 0x02
def WEP_DECRYPT_ICV_ERR : Nat := 0x04
def TKIP_DECRYPT_ICV_ERR : Nat := 0x08

def W836X_RSSI_OFFSET : Nat := 8

/-- The C conversion of an integer to `s8`. -/
def to_s8 (x : Int) : Int :=
  let r := x % 256
  if r < 128 then r else r - 256

/-- Ways an execution can stop without returning. -/
inductive Fault where
  | null_deref
  | out_of_bounds
  | skb_over
  | fuel
deriving DecidableEq, Repr

/-- The fields of the kernel's `struct ieee80211_rx_status` the driver fills. -/
structure ieee80211_rx_status where
  signal : Int := 0
  band : Nat := 0
  freq : Nat := 0
  flag : Nat := 0
  format : Nat := 0
  nss : Nat := 0
  bw : Nat := 0
  gi : Nat := 0
  rate_idx : Nat := 0
deriving DecidableEq, Repr

/-- A socket buffer.  `id` is the identity of the allocation, `data` holds the
bytes from the `data` pointer to the `end` pointer, `len` of which are in use;
`cb` is the control block carrying the receive status. -/
structure sk_buff where
  id : Nat
  headroom : Nat
  len : Nat
  data : List Nat
  cb : ieee80211_rx_status
deriving DecidableEq, Repr

/-- The fields of `struct pcie_rx_desc` used by `rx.c`. -/
structure pcie_rx_desc where
  rx_control : Nat := 0
  status : Nat := 0
  qos_ctrl : Nat := 0
  channel : Nat := 0
  rssi : Nat := 0
  rate : Nat := 0
  pkt_len : Nat := 0
  pphys_buff_data : Nat := 0
  pphys_next : Nat := 0
  noise_floor : Nat := 0
deriving DecidableEq, Repr

/-- The software handle `struct pcie_rx_hndl`; `pdesc` and `pnext` are pointers
into the descriptor array and the handle array. -/
structure pcie_rx_hndl where
  psk_buff : Option sk_buff := none
  pdesc : Option Nat := none
  pnext : Option Nat := none
deriving DecidableEq, Repr

/-- Effects on the world outside the ring. -/
inductive Event where
  | dev_alloc_skb (id : Option Nat)
  | pci_map_single (id : Nat) (dma : Option Nat)
  | pci_unmap_single (dma : Nat)
  | dev_kfree_skb_any (id : Nat)
  | skb_put (id : Nat) (len : Nat)
  | ieee80211_rx (skb : sk_buff)
  | dma_alloc_coherent (dma : Option Nat)
  | dma_free_coherent (dma : Nat)
  | kzalloc (ok : Bool)
  | kfree
deriving DecidableEq, Repr

/-- Constants, layouts and helpers that `rx.c` takes from headers outside the
source tree at hand (`sysadpt.h`, `hif/pcie/dev.h`, `hif/pcie/rx.h`, `utils.h`). -/
structure Config where
  PCIE_MAX_NUM_RX_DESC : Nat
  SYSADPT_MAX_AGGR_SIZE : Nat
  PCIE_MIN_BYTES_HEADROOM : Nat
  EAGLE_RXD_CTRL_DRIVER_OWN : Nat
  EAGLE_RXD_CTRL_DMA_OWN : Nat
  EAGLE_RXD_STATUS_OK : Nat
  MWL8997 : Nat
  /-- `sizeof(struct pcie_rx_desc)` -/
  sizeof_pcie_rx_desc : Nat
  /-- `offsetof(struct pcie_dma_data, data)`: first byte after the frame header -/
  dma_data_off : Nat
  /-- headroom a fresh buffer comes with (`NET_SKB_PAD`) -/
  NET_SKB_PAD : Nat
  MWL_RX_RATE_FORMAT_MASK : Nat
  MWL_RX_RATE_NSS_MASK : Nat
  MWL_RX_RATE_NSS_SHIFT : Nat
  MWL_RX_RATE_BW_MASK : Nat
  MWL_RX_RATE_BW_SHIFT : Nat
  MWL_RX_RATE_GI_MASK : Nat
  MWL_RX_RATE_GI_SHIFT : Nat
  MWL_RX_RATE_RT_MASK : Nat
  MWL_RX_RATE_RT_SHIFT : Nat
  /-- `mwl_is_crypted` applied to the frame header found in the buffer -/
  mwl_is_crypted : List Nat → Bool
  /-- `pcie_rx_remove_dma_header`: strips the device header from the frame -/
  pcie_rx_remove_dma_header : sk_buff → Nat → sk_buff
  /-- `ieee80211_channel_to_frequency` -/
  ieee80211_channel_to_frequency : Nat → Nat → Nat

/-- Outcomes the environment decides: the `k`-th buffer allocation
(`none` fails, `some slack` succeeds with `slack` spare bytes beyond the
requested size), the `k`-th mapping (`none` is a mapping error, `some dma` the
bus address), and the two ring-memory allocations. -/
structure Env where
  alloc : Nat → Option Nat
  map : Nat → Option Nat
  dma_alloc : Option Nat
  kzalloc : Bool

/-- The driver state reachable from `struct mwl_priv`: the receive part of
`desc_data[0]`, the scheduling flag, the interrupt mask bit, and the counters
and trace of the environment. -/
structure State where
  prx_ring : Option (List pcie_rx_desc) := none
  pphys_rx_ring : Nat := 0
  rx_hndl : Option (List pcie_rx_hndl) := none
  rx_buf_size : Nat := 0
  pnext_rx_hndl : Option Nat := none
  is_rx_schedule : Bool := false
  rx_rdy_enabled : Bool := false
  noise : Int := 0
  chip_type : Nat := 0
  hw_value : Nat := 0
  nalloc : Nat := 0
  nmap : Nat := 0
  trace : List Event := []
deriving DecidableEq, Repr

/-! ## Socket-buffer primitives -/

/-- `skb_tailroom`: bytes between `tail` and `end`. -/
def skb_tailroom (skb : sk_buff) : Int :=
  (skb.data.length : Int) - (skb.len : Int)

/-- `dev_alloc_skb(size)` on success: a fresh empty buffer with `NET_SKB_PAD`
headroom and at least `size` bytes of room.  The contents of a fresh buffer
are unspecified; zeros are used. -/
def dev_alloc_skb (cfg : Config) (id size slack : Nat) : sk_buff :=
  { id := id, headroom := cfg.NET_SKB_PAD, len := 0,
    data := List.replicate (size + slack) 0, cb := {} }

/-- `skb_reserve(skb, n)`: move `data` and `tail` forward by `n`. -/
def skb_reserve (skb : sk_buff) (n : Nat) : sk_buff :=
  { skb with headroom := skb.headroom + n, data := skb.data.drop n }

/-- `skb_put(skb, n)`: extend the used area by `n`; the kernel stops with
`skb_over_panic` when that passes the end of the buffer. -/
def skb_put (skb : sk_buff) (n : Nat) : Except Fault sk_buff :=
  if skb_tailroom skb < (n : Int) then .error .skb_over
  else .ok { skb with len := skb.len + n }

/-- `memset(p + off, 0, 4)` with `p` the `data` pointer.  The code checks no
range: each of the four bytes that lies in the data area is set to zero, and a
byte past `end` is written to memory behind the data area, which the model does
not hold (`List.set` leaves the list as it is for an index past its end).
Execution goes on in either case. -/
def memset4 (data : List Nat) (off : Nat) : List Nat :=
  (((data.set off 0).set (off + 1) 0).set (off + 2) 0).set (off + 3) 0

/-! ## Array and pointer access -/

/-- Read `desc->rx_hndl[i]`. -/
def rd_hndl (s : State) (i : Nat) : Except Fault pcie_rx_hndl :=
  match s.rx_hndl with
  | none => .error .null_deref
  | some hs =>
    match hs[i]? with
    | none => .error .out_of_bounds
    | some h => .ok h

/-- Read `*p` for a descriptor pointer `p`. -/
def rd_desc (s : State) (p : Option Nat) : Except Fault pcie_rx_desc :=
  match p, s.prx_ring with
  | some i, some ds =>
    match ds[i]? with
    | none => .error .out_of_bounds
    | some d => .ok d
  | _, _ => .error .null_deref

/-- Store a handle at `desc->rx_hndl[i]`. -/
def wr_hndl (s : State) (i : Nat) (h : pcie_rx_hndl) : State :=
  { s with rx_hndl := s.rx_hndl.map (fun hs => hs.set i h) }

/-- Store a descriptor at `desc->prx_ring[i]`. -/
def wr_desc (s : State) (i : Nat) (d : pcie_rx_desc) : State :=
  { s with prx_ring := s.prx_ring.map (fun ds => ds.set i d) }

/-- Append events to the trace. -/
def emit (s : State) (es : List Event) : State :=
  { s with trace := s.trace ++ es }

/-! ## Buffer binding: `pcie_rx_refill` -/

/-- `pcie_rx_refill(priv, rx_hndl)` with `rx_hndl = &desc->rx_hndl[hi]`.
Returns the new state and the C return value. -/
def pcie_rx_refill (cfg : Config) (env : Env) (s : State) (hi : Nat) :
    Except Fault (State × Int) :=
  match rd_hndl s hi with
  | .error f => .error f
  | .ok h =>
    match env.alloc s.nalloc with
    | none =>
      -- rx_hndl->psk_buff = NULL; return -ENOMEM
      .ok (emit { wr_hndl s hi { h with psk_buff := none } with nalloc := s.nalloc + 1 }
            [.dev_alloc_skb none], -ENOMEM)
    | some slack =>
      let skb := skb_reserve (dev_alloc_skb cfg s.nalloc s.rx_buf_size slack)
                   cfg.PCIE_MIN_BYTES_HEADROOM
      let s1 := emit { wr_hndl s hi { h with psk_buff := some skb } with nalloc := s.nalloc + 1 }
                  [.dev_alloc_skb (some skb.id)]
      match h.pdesc, rd_desc s1 h.pdesc with
      | some di, .ok d =>
        let d1 := { d with status := cfg.EAGLE_RXD_STATUS_OK, qos_ctrl := 0, channel := 0,
                           rssi := 0, pkt_len := s.rx_buf_size % 65536 }
        let s2 := wr_desc s1 di d1
        match env.map s.nmap with
        | none =>
          -- dev_kfree_skb_any(rx_hndl->psk_buff); return -ENOMEM
          .ok (emit { s2 with nmap := s.nmap + 1 }
                [.pci_map_single skb.id none, .dev_kfree_skb_any skb.id], -ENOMEM)
        | some dma =>
          .ok (emit { wr_desc s2 di { d1 with pphys_buff_data := dma % 4294967296 } with
                        nmap := s.nmap + 1 }
                [.pci_map_single skb.id (some dma)], 0)
      | _, .error f => .error f
      | none, .ok _ => .error .null_deref

/-! ## Ring memory: `pcie_rx_ring_alloc` -/

/-- `pcie_rx_ring_alloc(priv)`. -/
def pcie_rx_ring_alloc (cfg : Config) (env : Env) (s : State) : State × Int :=
  match env.dma_alloc with
  | none =>
    (emit { s with prx_ring := none } [.dma_alloc_coherent none], -ENOMEM)
  | some dma =>
    -- memset(desc->prx_ring, 0x00, MAX_NUM_RX_RING_BYTES)
    let s1 := emit { s with prx_ring := some (List.replicate cfg.PCIE_MAX_NUM_RX_DESC {}),
                            pphys_rx_ring := dma } [.dma_alloc_coherent (some dma)]
    if env.kzalloc then
      (emit { s1 with rx_hndl := some (List.replicate cfg.PCIE_MAX_NUM_RX_DESC {}) }
        [.kzalloc true], 0)
    else
      (emit { s1 with rx_hndl := none } [.kzalloc false, .dma_free_coherent dma], -ENOMEM)

/-! ## Slot initialisation: `pcie_rx_ring_init` -/

/-- One pass of the `for` body of `pcie_rx_ring_init` for slot `i`; the return
value is `0` when the body ran to its end. -/
def ring_init_slot (cfg : Config) (env : Env) (s : State) (i : Nat) :
    Except Fault (State × Int) :=
  match rd_hndl s i with
  | .error f => .error f
  | .ok h =>
    match env.alloc s.nalloc with
    | none =>
      .ok (emit { wr_hndl s i { h with psk_buff := none } with nalloc := s.nalloc + 1 }
            [.dev_alloc_skb none], -ENOMEM)
    | some slack =>
      let skb := skb_reserve (dev_alloc_skb cfg s.nalloc s.rx_buf_size slack)
                   cfg.PCIE_MIN_BYTES_HEADROOM
      let h1 := { h with psk_buff := some skb }
      let s1 := emit { wr_hndl s i h1 with nalloc := s.nalloc + 1 }
                  [.dev_alloc_skb (some skb.id)]
      match rd_desc s1 (some i) with
      | .error f => .error f
      | .ok d =>
        let d1 := { d with rx_control := cfg.EAGLE_RXD_CTRL_DRIVER_OWN,
                           status := cfg.EAGLE_RXD_STATUS_OK, qos_ctrl := 0, channel := 0,
                           rssi := 0, pkt_len := cfg.SYSADPT_MAX_AGGR_SIZE % 65536 }
        let s2 := wr_desc s1 i d1
        match env.map s.nmap with
        | none =>
          .ok (emit { s2 with nmap := s.nmap + 1 } [.pci_map_single skb.id none], -ENOMEM)
        | some dma =>
          let val := (s.pphys_rx_ring % 4294967296 + (i + 1) * cfg.sizeof_pcie_rx_desc)
                       % 4294967296
          let d2 := { d1 with pphys_buff_data := dma % 4294967296, pphys_next := val }
          let h2 := { h1 with pdesc := some i }
          let h3 := if i < cfg.PCIE_MAX_NUM_RX_DESC - 1 then { h2 with pnext := some (i + 1) }
                    else h2
          .ok (emit { wr_hndl (wr_desc s2 i d2) i h3 with nmap := s.nmap + 1 }
                [.pci_map_single skb.id (some dma)], 0)

/-- The `for (i = ...; i < PCIE_MAX_NUM_RX_DESC; i++)` loop of
`pcie_rx_ring_init` with `k` slots still to go, leaving early with the error
code of a failing slot. -/
def ring_init_loop (cfg : Config) (env : Env) : Nat → Nat → State → Except Fault (State × Int)
  | 0, _, s => .ok (s, 0)
  | k + 1, i, s =>
    match ring_init_slot cfg env s i with
    | .error f => .error f
    | .ok (s1, rc) => if rc = 0 then ring_init_loop cfg env k (i + 1) s1 else .ok (s1, rc)

/-- `pcie_rx_ring_init(priv)`. -/
def pcie_rx_ring_init (cfg : Config) (env : Env) (s : State) : Except Fault (State × Int) :=
  match s.prx_ring with
  | none => .ok (s, -ENOMEM)
  | some _ =>
    let s0 := { s with rx_buf_size := cfg.SYSADPT_MAX_AGGR_SIZE }
    match ring_init_loop cfg env cfg.PCIE_MAX_NUM_RX_DESC 0 s0 with
    | .error f => .error f
    | .ok (s1, rc) =>
      if rc = 0 then
        let last := cfg.PCIE_MAX_NUM_RX_DESC - 1
        match rd_desc s1 (some last) with
        | .error f => .error f
        | .ok d =>
          let s2 := wr_desc s1 last { d with pphys_next := s.pphys_rx_ring % 4294967296 }
          match rd_hndl s2 last with
          | .error f => .error f
          | .ok h =>
            .ok ({ wr_hndl s2 last { h with pnext := some 0 } with pnext_rx_hndl := some 0 }, 0)
      else .ok (s1, rc)

/-! ## Tear-down: `pcie_rx_ring_cleanup`, `pcie_rx_ring_free` -/

/-- One pass of the `for` body of `pcie_rx_ring_cleanup` for slot `i`. -/
def ring_cleanup_slot (s : State) (i : Nat) : Except Fault State :=
  match rd_hndl s i with
  | .error f => .error f
  | .ok h =>
    match h.psk_buff with
    | none => .ok s
    | some skb =>
      match rd_desc s h.pdesc with
      | .error f => .error f
      | .ok d =>
        .ok (emit (wr_hndl s i { h with psk_buff := none })
              [.pci_unmap_single d.pphys_buff_data, .dev_kfree_skb_any skb.id])

/-- The `for` loop of `pcie_rx_ring_cleanup` with `k` slots still to go. -/
def ring_cleanup_loop : Nat → Nat → State → Except Fault State
  | 0, _, s => .ok s
  | k + 1, i, s =>
    match ring_cleanup_slot s i with
    | .error f => .error f
    | .ok s1 => ring_cleanup_loop k (i + 1) s1

/-- `pcie_rx_ring_cleanup(priv)`. -/
def pcie_rx_ring_cleanup (cfg : Config) (s : State) : Except Fault State :=
  match s.prx_ring with
  | none => .ok s
  | some _ => ring_cleanup_loop cfg.PCIE_MAX_NUM_RX_DESC 0 s

/-- `pcie_rx_ring_free(priv)`. -/
def pcie_rx_ring_free (cfg : Config) (s : State) : Except Fault State :=
  match s.prx_ring with
  | none => .ok (emit { s with pnext_rx_hndl := none } [.kfree])
  | some _ =>
    match pcie_rx_ring_cleanup cfg s with
    | .error f => .error f
    | .ok s1 =>
      .ok (emit { s1 with prx_ring := none, pnext_rx_hndl := none }
            [.dma_free_coherent s1.pphys_rx_ring, .kfree])

/-- `pcie_rx_init(hw)`. -/
def pcie_rx_init (cfg : Config) (env : Env) (s : State) : Except Fault (State × Int) :=
  match pcie_rx_ring_alloc cfg env s with
  | (s1, rc) =>
    if rc ≠ 0 then .ok (s1, rc)
    else
      match pcie_rx_ring_init cfg env s1 with
      | .error f => .error f
      | .ok (s2, rc2) =>
        if rc2 ≠ 0 then
          match pcie_rx_ring_free cfg s2 with
          | .error f => .error f
          | .ok s3 => .ok (s3, rc2)
        else .ok (s2, 0)

/-- `pcie_rx_deinit(hw)`. -/
def pcie_rx_deinit (cfg : Config) (s : State) : Except Fault State :=
  match pcie_rx_ring_cleanup cfg s with
  | .error f => .error f
  | .ok s1 => pcie_rx_ring_free cfg s1

/-! ## Frame decoding: `pcie_rx_status` -/

/-- Modelled from the spec: `pcie_rx_prepare_status` (declared in
`hif/pcie/rx.h`, not part of the source at hand) forwards the format, stream
count, bandwidth, guard interval and rate extracted from the rate word as
discrete values of the receive status; it leaves the flag word alone. -/
def pcie_rx_prepare_status (format nss bw gi rate : Nat) (status : ieee80211_rx_status) :
    ieee80211_rx_status :=
  { status with format := format, nss := nss, bw := bw, gi := gi, rate_idx := rate }

/-- `pcie_rx_status(priv, pdesc, status)`: the receive status built from a
descriptor.  `signal` is an `s8` field of the kernel structure. -/
def pcie_rx_status (cfg : Config) (chip_type : Nat) (pdesc : pcie_rx_desc) :
    ieee80211_rx_status :=
  -- memset(status, 0, sizeof(*status))
  let st0 : ieee80211_rx_status := {}
  let st1 :=
    if chip_type = cfg.MWL8997 then { st0 with signal := to_s8 pdesc.rssi }
    else { st0 with signal := to_s8 (-((pdesc.rssi : Int) + W836X_RSSI_OFFSET)) }
  let rx_rate := pdesc.rate
  let st2 := pcie_rx_prepare_status
    (rx_rate &&& cfg.MWL_RX_RATE_FORMAT_MASK)
    ((rx_rate &&& cfg.MWL_RX_RATE_NSS_MASK) >>> cfg.MWL_RX_RATE_NSS_SHIFT)
    ((rx_rate &&& cfg.MWL_RX_RATE_BW_MASK) >>> cfg.MWL_RX_RATE_BW_SHIFT)
    ((rx_rate &&& cfg.MWL_RX_RATE_GI_MASK) >>> cfg.MWL_RX_RATE_GI_SHIFT)
    ((rx_rate &&& cfg.MWL_RX_RATE_RT_MASK) >>> cfg.MWL_RX_RATE_RT_SHIFT)
    st1
  let st3 := { st2 with freq := cfg.ieee80211_channel_to_frequency pdesc.channel st2.band }
  if pdesc.status = GENERAL_DECRYPT_ERR ∨ pdesc.status &&& DECRYPT_ERR_MASK ≠ 0 then
    if pdesc.status ≠ GENERAL_DECRYPT_ERR then
      if (pdesc.status &&& (0xFFFFFFFF - DECRYPT_ERR_MASK)) &&& TKIP_DECRYPT_MIC_ERR ≠ 0 ∧
          ¬ (pdesc.status &&& (WEP_DECRYPT_ICV_ERR ||| TKIP_DECRYPT_ICV_ERR) ≠ 0) then
        { st3 with flag := st3.flag ||| RX_FLAG_MMIC_ERROR }
      else st3
    else st3
  else st3

/-! ## The drain loop: `pcie_rx_recv` -/

/-- Lines of the loop body from the status decode to `skb_put`: the status is
written to the control block, an encrypted frame flagged with an MMIC error
gets four zero bytes at the start of the payload and four more bytes of
length, the decryption flags are set, and the final length is appended.
Returns the buffer and the length handed to `skb_put`. -/
def rx_fill (cfg : Config) (chip_type : Nat) (d : pcie_rx_desc) (skb : sk_buff) :
    Except Fault (sk_buff × Nat) :=
  let status := pcie_rx_status cfg chip_type d
  let pkt_len := d.pkt_len
  if cfg.mwl_is_crypted skb.data then
    let flags := if chip_type ≠ cfg.MWL8997 then
        RX_FLAG_IV_STRIPPED ||| RX_FLAG_DECRYPTED ||| RX_FLAG_MMIC_STRIPPED
      else RX_FLAG_DECRYPTED ||| RX_FLAG_MMIC_STRIPPED
    if status.flag &&& RX_FLAG_MMIC_ERROR ≠ 0 then
      match skb_put { skb with data := memset4 skb.data cfg.dma_data_off,
                               cb := { status with flag := status.flag ||| flags } }
              (pkt_len + 4) with
      | .error f => .error f
      | .ok skb1 => .ok (skb1, pkt_len + 4)
    else
      match skb_put { skb with cb := { status with flag := status.flag ||| flags } } pkt_len with
      | .error f => .error f
      | .ok skb1 => .ok (skb1, pkt_len)
  else
    match skb_put { skb with cb := status } pkt_len with
    | .error f => .error f
    | .ok skb1 => .ok (skb1, pkt_len)

/-- The buffer as `ieee80211_rx` receives it: the device header stripped by
`pcie_rx_remove_dma_header`, identity and control block kept. -/
def rx_strip (cfg : Config) (skb1 : sk_buff) (qos : Nat) : sk_buff :=
  { cfg.pcie_rx_remove_dma_header skb1 qos with id := skb1.id, cb := skb1.cb }

/-- The value stored to `priv->noise` (an `s8`). -/
def rx_noise (cfg : Config) (chip_type : Nat) (d : pcie_rx_desc) : Int :=
  if chip_type = cfg.MWL8997 then
    let n := to_s8 d.noise_floor
    if n > 0 then to_s8 (-n) else n
  else to_s8 (-(d.noise_floor : Int))

/-- The loop body of `pcie_rx_recv` up to the label `out`, for the handle
`cur`: the frame of the slot is delivered to the sink or dropped. -/
def rx_frame (cfg : Config) (s : State) (cur : Nat) : Except Fault State :=
  match rd_hndl s cur with
  | .error f => .error f
  | .ok h =>
    match h.psk_buff with
    | none => .ok s
    | some skb =>
      match rd_desc s h.pdesc with
      | .error f => .error f
      | .ok d =>
        let s1 := emit s [.pci_unmap_single d.pphys_buff_data]
        if skb_tailroom skb < (d.pkt_len : Int) then
          .ok (emit s1 [.dev_kfree_skb_any skb.id])
        else if d.channel ≠ s.hw_value then
          .ok (emit s1 [.dev_kfree_skb_any skb.id])
        else
          match rx_fill cfg s.chip_type d skb with
          | .error f => .error f
          | .ok (skb1, n) =>
            .ok (emit { s1 with noise := rx_noise cfg s.chip_type d }
                  [.skb_put skb.id n, .ieee80211_rx (rx_strip cfg skb1 d.qos_ctrl)])

/-- One pass of the loop body of `pcie_rx_recv` for the handle `cur`: the
frame, then from the label `out` the refill, the ownership hand-back and the
step to the next handle.  Returns the state and the new `curr_hndl`. -/
def rx_iter (cfg : Config) (env : Env) (s : State) (cur : Nat) :
    Except Fault (State × Option Nat) :=
  match rx_frame cfg s cur with
  | .error f => .error f
  | .ok s1 =>
    match pcie_rx_refill cfg env s1 cur with
    | .error f => .error f
    | .ok (s2, _) =>
      match rd_hndl s2 cur with
      | .error f => .error f
      | .ok h =>
        match h.pdesc, rd_desc s2 h.pdesc with
        | some di, .ok d =>
          .ok (wr_desc s2 di { d with rx_control := cfg.EAGLE_RXD_CTRL_DRIVER_OWN,
                                      qos_ctrl := 0 }, h.pnext)
        | _, .error f => .error f
        | none, .ok _ => .error .null_deref

/-- The loop condition `curr_hndl->pdesc->rx_control == EAGLE_RXD_CTRL_DMA_OWN`. -/
def rx_cond (cfg : Config) (s : State) (cur : Option Nat) : Except Fault Bool :=
  match cur with
  | none => .error .null_deref
  | some c =>
    match rd_hndl s c with
    | .error f => .error f
    | .ok h =>
      match rd_desc s h.pdesc with
      | .error f => .error f
      | .ok d => .ok (decide (d.rx_control = cfg.EAGLE_RXD_CTRL_DMA_OWN))

/-- The `while` loop of `pcie_rx_recv`, allowed at most `fuel` passes; the
device writes nothing while it runs. -/
def rx_loop (cfg : Config) (env : Env) : Nat → State → Option Nat →
    Except Fault (State × Option Nat)
  | 0, s, cur =>
    match rx_cond cfg s cur with
    | .error f => .error f
    | .ok false => .ok (s, cur)
    | .ok true => .error .fuel
  | fuel + 1, s, cur =>
    match rx_cond cfg s cur with
    | .error f => .error f
    | .ok false => .ok (s, cur)
    | .ok true =>
      match cur with
      | none => .error .null_deref
      | some c =>
        match rx_iter cfg env s c with
        | .error f => .error f
        | .ok (s1, nxt) => rx_loop cfg env fuel s1 nxt

/-- Modelled from the spec: `pcie_mask_int(pcie_priv, MACREG_A2HRIC_BIT_RX_RDY,
true)` (defined outside the source at hand) re-enables the receive-ready
interrupt source. -/
def pcie_mask_int_rx_rdy (s : State) : State :=
  { s with rx_rdy_enabled := true }

/-- Number of passes after which the drain loop must have met a slot it has
already handed back: the number of descriptors. -/
def rx_fuel (s : State) : Nat :=
  match s.prx_ring with
  | none => 0
  | some ds => ds.length

/-- `pcie_rx_recv(data)`. -/
def pcie_rx_recv (cfg : Config) (env : Env) (s : State) : Except Fault State :=
  match s.pnext_rx_hndl with
  | none => .ok { pcie_mask_int_rx_rdy s with is_rx_schedule := false }
  | some c =>
    match rx_loop cfg env (rx_fuel s) s (some c) with
    | .error f => .error f
    | .ok (s1, cur) =>
      .ok { pcie_mask_int_rx_rdy { s1 with pnext_rx_hndl := cur } with is_rx_schedule := false }

/-- Frames handed to the receive sink, in order. -/
def delivered : List Event → List sk_buff
  | [] => []
  | .ieee80211_rx skb :: es => skb :: delivered es
  | _ :: es => delivered es

/-- Identities of the buffers released, in order. -/
def released : List Event → List Nat
  | [] => []
  | .dev_kfree_skb_any id :: es => id :: released es
  | _ :: es => released es

/-! ## Specification vocabulary -/

/-- What slot initialisation has established for slot `j`, in terms of the
allocation count `a0`, mapping count `m0` and ring bus address `p0` at the
start of `pcie_rx_ring_init`. -/
def SlotInit (cfg : Config) (env : Env) (a0 m0 p0 j : Nat) (d : pcie_rx_desc)
    (h : pcie_rx_hndl) : Prop :=
  d.rx_control = cfg.EAGLE_RXD_CTRL_DRIVER_OWN ∧ d.status = cfg.EAGLE_RXD_STATUS_OK ∧
  d.qos_ctrl = 0 ∧ d.channel = 0 ∧ d.rssi = 0 ∧
  d.pkt_len = cfg.SYSADPT_MAX_AGGR_SIZE % 65536 ∧
  (∃ dma, env.map (m0 + j) = some dma ∧ d.pphys_buff_data = dma % 4294967296) ∧
  (j < cfg.PCIE_MAX_NUM_RX_DESC - 1 →
    d.pphys_next = (p0 % 4294967296 + (j + 1) * cfg.sizeof_pcie_rx_desc) % 4294967296) ∧
  (∃ slack, env.alloc (a0 + j) = some slack ∧
    h.psk_buff = some (skb_reserve (dev_alloc_skb cfg (a0 + j) cfg.SYSADPT_MAX_AGGR_SIZE slack)
                        cfg.PCIE_MIN_BYTES_HEADROOM)) ∧
  h.pdesc = some j ∧
  (j < cfg.PCIE_MAX_NUM_RX_DESC - 1 → h.pnext = some (j + 1))

/-- State of the ring after the first `i` slots have been initialised. -/
def RingInit (cfg : Config) (env : Env) (a0 m0 p0 i : Nat) (s : State) : Prop :=
  ∃ ds hs, s.prx_ring = some ds ∧ s.rx_hndl = some hs ∧
    ds.length = cfg.PCIE_MAX_NUM_RX_DESC ∧ hs.length = cfg.PCIE_MAX_NUM_RX_DESC ∧
    s.nalloc = a0 + i ∧ s.nmap = m0 + i ∧ s.rx_buf_size = cfg.SYSADPT_MAX_AGGR_SIZE ∧
    s.pphys_rx_ring = p0 ∧
    ∀ j, j < i → ∃ d h, ds[j]? = some d ∧ hs[j]? = some h ∧ SlotInit cfg env a0 m0 p0 j d h

/-- Follow the forward reference of the handle `p` points to. -/
def fwd (s : State) (p : Option Nat) : Option Nat :=
  match p with
  | none => none
  | some i =>
    match rd_hndl s i with
    | .ok h => h.pnext
    | .error _ => none

/-- Follow the forward reference `k` times. -/
def walk (s : State) : Nat → Option Nat → Option Nat
  | 0, p => p
  | k + 1, p => walk s k (fwd s p)

/-- Handle `cur` exists and points to descriptor `di`, which holds `d`. -/
def SlotAt (s : State) (cur : Nat) (h : pcie_rx_hndl) (di : Nat) (d : pcie_rx_desc) : Prop :=
  rd_hndl s cur = .ok h ∧ h.pdesc = some di ∧ rd_desc s (some di) = .ok d

/-- The frame takes the patch path of the loop body: its header is marked
encrypted and the decoded status carries the MMIC-error flag. -/
def mmic_patch (cfg : Config) (chip_type : Nat) (d : pcie_rx_desc) (skb : sk_buff) : Bool :=
  cfg.mwl_is_crypted skb.data &&
    decide ((pcie_rx_status cfg chip_type d).flag &&& RX_FLAG_MMIC_ERROR ≠ 0)

/-- What one call of `pcie_rx_refill` leaves behind for its slot: the buffer
reference in the handle, the descriptor, the mapping count, the events and the
return value. -/
structure Refilled where
  buf : Option sk_buff
  desc : pcie_rx_desc
  nmap : Nat
  events : List Event
  rc : Int

/-- The three outcomes of `pcie_rx_refill` for a slot whose descriptor holds
`d`, read off the environment: allocation failure, mapping failure, success. -/
def refill_outcome (cfg : Config) (env : Env) (s : State) (d : pcie_rx_desc) : Refilled :=
  match env.alloc s.nalloc with
  | none =>
    { buf := none, desc := d, nmap := s.nmap, events := [.dev_alloc_skb none], rc := -ENOMEM }
  | some slack =>
    let skb := skb_reserve (dev_alloc_skb cfg s.nalloc s.rx_buf_size slack)
                 cfg.PCIE_MIN_BYTES_HEADROOM
    let d1 := { d with status := cfg.EAGLE_RXD_STATUS_OK, qos_ctrl := 0, channel := 0, rssi := 0,
                       pkt_len := s.rx_buf_size % 65536 }
    match env.map s.nmap with
    | none =>
      { buf := some skb, desc := d1, nmap := s.nmap + 1,
        events := [.dev_alloc_skb (some s.nalloc), .pci_map_single s.nalloc none,
                   .dev_kfree_skb_any s.nalloc],
        rc := -ENOMEM }
    | some dma =>
      { buf := some skb, desc := { d1 with pphys_buff_data := dma % 4294967296 },
        nmap := s.nmap + 1,
        events := [.dev_alloc_skb (some s.nalloc), .pci_map_single s.nalloc (some dma)],
        rc := 0 }

/-- The frame of a slot can be handed on without overrunning its buffer: when
it passes the length and channel checks and takes the patch path, four more
bytes of room are left. -/
def frame_safe (cfg : Config) (s : State) (h : pcie_rx_hndl) (d : pcie_rx_desc) : Prop :=
  ∀ skb, h.psk_buff = some skb → (d.pkt_len : Int) ≤ skb_tailroom skb →
    d.channel = s.hw_value → mmic_patch cfg s.chip_type d skb = true →
    (d.pkt_len : Int) + 4 ≤ skb_tailroom skb

/-- The ring topology `pcie_rx_ring_init` sets up for `N` slots: both arrays
have `N` entries, handle `i` refers to descriptor `i` and forward to handle
`(i + 1) % N`. -/
def RingWF (s : State) (N : Nat) : Prop :=
  ∃ ds hs, s.prx_ring = some ds ∧ s.rx_hndl = some hs ∧ ds.length = N ∧ hs.length = N ∧
    ∀ i, i < N → ∃ h, hs[i]? = some h ∧ h.pdesc = some i ∧ h.pnext = some ((i + 1) % N)

/-- Slot `i` is filled: its descriptor carries `EAGLE_RXD_CTRL_DMA_OWN`. -/
def slot_filled (cfg : Config) (s : State) (i : Nat) : Prop :=
  ∃ d, rd_desc s (some i) = .ok d ∧ d.rx_control = cfg.EAGLE_RXD_CTRL_DMA_OWN

/-- The frame in slot `i` can be handed on without overrunning its buffer. -/
def slot_safe (cfg : Config) (s : State) (i : Nat) : Prop :=
  ∀ h d, rd_hndl s i = .ok h → rd_desc s (some i) = .ok d → frame_safe cfg s h d

/-! ## Concrete inputs -/

/-- A three-slot ring with 48-byte buffers and 8 bytes of reserved headroom;
the ownership and status codes, the descriptor size and the header length are
those of the driver's headers.  A frame counts as encrypted when the protected
bit of its frame control field is set. -/
def cfg3 : Config :=
  { PCIE_MAX_NUM_RX_DESC := 3, SYSADPT_MAX_AGGR_SIZE := 48, PCIE_MIN_BYTES_HEADROOM := 8,
    EAGLE_RXD_CTRL_DRIVER_OWN := 0, EAGLE_RXD_CTRL_DMA_OWN := 128, EAGLE_RXD_STATUS_OK := 1,
    MWL8997 := 2, sizeof_pcie_rx_desc := 32, dma_data_off := 32, NET_SKB_PAD := 64,
    MWL_RX_RATE_FORMAT_MASK := 7, MWL_RX_RATE_NSS_MASK := 0x18, MWL_RX_RATE_NSS_SHIFT := 3,
    MWL_RX_RATE_BW_MASK := 0x60, MWL_RX_RATE_BW_SHIFT := 5, MWL_RX_RATE_GI_MASK := 0x80,
    MWL_RX_RATE_GI_SHIFT := 7, MWL_RX_RATE_RT_MASK := 0xFF00, MWL_RX_RATE_RT_SHIFT := 8,
    mwl_is_crypted := fun data => decide (data.getD 3 0 &&& 0x40 ≠ 0),
    pcie_rx_remove_dma_header := fun skb _ => skb,
    ieee80211_channel_to_frequency := fun c _ => 2407 + 5 * c }

/-- Every allocation and mapping succeeds; buffers come without spare room. -/
def env_ok : Env :=
  { alloc := fun _ => some 0, map := fun k => some (4096 + 64 * k), dma_alloc := some 1024,
    kzalloc := true }

/-- Allocations succeed, every mapping fails. -/
def env_maperr : Env := { env_ok with map := fun _ => none }

/-- Every buffer allocation fails. -/
def env_nomem : Env := { env_ok with alloc := fun _ => none }

/-- The device deposits a frame in slot `i`: the bytes go to the start of the
slot's buffer, the descriptor gets the frame's length, status and channel and
is handed to the driver (`DMA_OWN`). -/
def device_fill (cfg : Config) (s : State) (i : Nat) (frame : List Nat) (status channel : Nat) :
    State :=
  match s.prx_ring, s.rx_hndl with
  | some ds, some hs =>
    match ds[i]?, hs[i]? with
    | some d, some h =>
      let buf := h.psk_buff.map
        (fun skb => { skb with data := frame ++ skb.data.drop frame.length })
      { s with
          prx_ring := some (ds.set i { d with rx_control := cfg.EAGLE_RXD_CTRL_DMA_OWN,
                                              status := status, channel := channel,
                                              pkt_len := frame.length }),
          rx_hndl := some (hs.set i { h with psk_buff := buf }) }
    | _, _ => s
  | _, _ => s

/-- The three-slot ring right after a successful `pcie_rx_init`, tuned to
channel 6. -/
def ring3 : State :=
  match pcie_rx_init cfg3 env_ok { hw_value := 6 } with
  | .ok (s, _) => s
  | .error _ => {}

/-- A 30-byte unencrypted frame. -/
def frame_plain : List Nat := List.replicate 30 0xAA

/-- A frame of `n` bytes whose frame control field has the protected bit set. -/
def frame_crypted (n : Nat) : List Nat := [0, 0, 0x08, 0x40] ++ List.replicate (n - 4) 0xAA

/-- The ring after the device deposited a plain frame on channel 6 in slot 0. -/
def ring3_plain : State := device_fill cfg3 ring3 0 frame_plain 0 6

/-- The ring after the device deposited, in slot 0, an encrypted frame that
fills the buffer's 40 bytes of room and is flagged with a MIC failure
(status 0x82). -/
def ring3_mmic_full : State := device_fill cfg3 ring3 0 (frame_crypted 40) 0x82 6

/-- The ring after the device deposited, in slot 0, a 30-byte encrypted frame
flagged with a MIC failure (status 0x82). -/
def ring3_mmic : State := device_fill cfg3 ring3 0 (frame_crypted 30) 0x82 6

/-- The ring after the device deposited, in slot 0, a 36-byte encrypted frame
flagged with a MIC failure (status 0x82): the 32-byte header and four bytes
0xAA at the key-index offset. -/
def ring3_mmic36 : State := device_fill cfg3 ring3 0 (frame_crypted 36) 0x82 6

/-- The three-slot configuration with 40-byte buffers: 32 bytes of room after
the reserved headroom, exactly the length of the frame header, so the
key-index offset lies at the end of the data area. -/
def cfg40 : Config := { cfg3 with SYSADPT_MAX_AGGR_SIZE := 40 }

/-- The ring of 40-byte buffers after a successful `pcie_rx_init`, with a
20-byte encrypted frame flagged with a MIC failure (status 0x82) in slot 0. -/
def ring40_mmic : State :=
  match pcie_rx_init cfg40 env_ok { hw_value := 6 } with
  | .ok (s, _) => device_fill cfg40 s 0 (frame_crypted 20) 0x82 6
  | .error _ => {}

/-- The decoder of `pcie_rx_status` with both comparisons against
`GENERAL_DECRYPT_ERR` (0xFF) removed: the outer test is the error bit alone and
the inner `!= 0xFF` test is gone.  Everything else is as in `pcie_rx_status`. -/
def pcie_rx_status_without_ff (cfg : Config) (chip_type : Nat) (pdesc : pcie_rx_desc) :
    ieee80211_rx_status :=
  let st0 : ieee80211_rx_status := {}
  let st1 :=
    if chip_type = cfg.MWL8997 then { st0 with signal := to_s8 pdesc.rssi }
    else { st0 with signal := to_s8 (-((pdesc.rssi : Int) + W836X_RSSI_OFFSET)) }
  let rx_rate := pdesc.rate
  let st2 := pcie_rx_prepare_status
    (rx_rate &&& cfg.MWL_RX_RATE_FORMAT_MASK)
    ((rx_rate &&& cfg.MWL_RX_RATE_NSS_MASK) >>> cfg.MWL_RX_RATE_NSS_SHIFT)
    ((rx_rate &&& cfg.MWL_RX_RATE_BW_MASK) >>> cfg.MWL_RX_RATE_BW_SHIFT)
    ((rx_rate &&& cfg.MWL_RX_RATE_GI_MASK) >>> cfg.MWL_RX_RATE_GI_SHIFT)
    ((rx_rate &&& cfg.MWL_RX_RATE_RT_MASK) >>> cfg.MWL_RX_RATE_RT_SHIFT)
    st1
  let st3 := { st2 with freq := cfg.ieee80211_channel_to_frequency pdesc.channel st2.band }
  if pdesc.status &&& DECRYPT_ERR_MASK ≠ 0 then
    if (pdesc.status &&& (0xFFFFFFFF - DECRYPT_ERR_MASK)) &&& TKIP_DECRYPT_MIC_ERR ≠ 0 ∧
        ¬ (pdesc.status &&& (WEP_DECRYPT_ICV_ERR ||| TKIP_DECRYPT_ICV_ERR) ≠ 0) then
      { st3 with flag := st3.flag ||| RX_FLAG_MMIC_ERROR }
    else st3
  else st3

/-- The single mask test the MMIC decision amounts to: error bit and MIC bit
set, both ICV bits clear. -/
def mmic_mask_test (status : Nat) : Bool :=
  status &&& 0x8E == 0x82

/-- The descriptor block is allocated, the handle array is not. -/
def env_nohndl : Env := { env_ok with kzalloc := false }

/-- Every allocation succeeds; the mapping of the second buffer (slot 1) fails. -/
def env_maperr_slot1 : Env :=
  { env_ok with map := fun k => if k = 1 then none else some (4096 + 64 * k) }

/-- Every mapping succeeds; the allocation of the second buffer (slot 1) fails. -/
def env_nomem_slot1 : Env :=
  { env_ok with alloc := fun k => if k = 1 then none else some 0 }

/-- Bus addresses unmapped, in order. -/
def unmapped : List Event → List Nat
  | [] => []
  | .pci_unmap_single dma :: es => dma :: unmapped es
  | _ :: es => unmapped es

/-- Between two states the driver has written nothing but "driver-owned" to an
ownership field: every descriptor present before is present after, and its
ownership is what it was or `EAGLE_RXD_CTRL_DRIVER_OWN`. -/
def OwnKept (cfg : Config) (s s1 : State) : Prop :=
  ∀ i d, rd_desc s (some i) = .ok d →
    ∃ d1, rd_desc s1 (some i) = .ok d1 ∧
      (d1.rx_control = d.rx_control ∨ d1.rx_control = cfg.EAGLE_RXD_CTRL_DRIVER_OWN)

/-- Every unmap in the trace is directly followed by the release of a buffer,
the buffer whose mapping it ended (tear-down unmaps a buffer and releases it
in one step). -/
def UnmapPaired (tr : List Event) : Prop :=
  ∀ pre a post, tr = pre ++ Event.pci_unmap_single a :: post →
    ∃ id post2, post = Event.dev_kfree_skb_any id :: post2

/-- The trace speaks only of buffers allocated so far (`n` allocations), and
its unmaps are paired with releases. -/
def TraceInv (n : Nat) (tr : List Event) : Prop :=
  (∀ id, Event.dev_kfree_skb_any id ∈ tr → id < n) ∧
  (∀ id r, Event.pci_map_single id r ∈ tr → id < n) ∧
  UnmapPaired tr

/-- What holds of the buffers the handles refer to: each was allocated, has
not been released, is held by one handle only, and when the handle refers to a
descriptor, that is the descriptor of its own slot, the buffer has been mapped
once, successfully, and the descriptor carries the address of that mapping
(truncated to the 32 bits of the field). -/
def HeldInv (ds : List pcie_rx_desc) (hs : List pcie_rx_hndl) (n : Nat) (tr : List Event) :
    Prop :=
  ∀ (i : Nat) (h : pcie_rx_hndl) (skb : sk_buff), hs[i]? = some h → h.psk_buff = some skb →
    skb.id < n ∧ Event.dev_kfree_skb_any skb.id ∉ tr ∧
    (∀ (j : Nat) (h2 : pcie_rx_hndl) (skb2 : sk_buff), hs[j]? = some h2 →
      h2.psk_buff = some skb2 → skb2.id = skb.id → j = i) ∧
    (∀ (di : Nat) (d : pcie_rx_desc), h.pdesc = some di → ds[di]? = some d →
      di = i ∧ ∃ dma, Event.pci_map_single skb.id (some dma) ∈ tr ∧
        (∀ r, Event.pci_map_single skb.id r ∈ tr → r = some dma) ∧
        d.pphys_buff_data = dma % 4294967296)

/-- The invariant of the ring under set-up and tear-down. -/
def CleanInv (s : State) : Prop :=
  TraceInv s.nalloc s.trace ∧
  ∀ ds hs, s.prx_ring = some ds → s.rx_hndl = some hs → HeldInv ds hs s.nalloc s.trace

/-- The handles from slot `i` on refer to no descriptor yet. -/
def FreshFrom (s : State) (i : Nat) : Prop :=
  ∀ (hs : List pcie_rx_hndl) (j : Nat) (h : pcie_rx_hndl),
    s.rx_hndl = some hs → i ≤ j → hs[j]? = some h → h.pdesc = none

/-- The states the ring is in when only `pcie_rx_init` and `pcie_rx_deinit`
run, from a start with no ring and nothing done yet: after either call has
returned; at the point where a failed slot initialisation hands over to the
roll-back inside `pcie_rx_init`; and part-way through a tear-down, after a
pass of its loop. -/
inductive Reach (cfg : Config) : State → Prop
  | boot (s : State) : s.prx_ring = none → s.trace = [] → Reach cfg s
  | init (env : Env) (s s1 : State) (rc : Int) :
      Reach cfg s → pcie_rx_init cfg env s = .ok (s1, rc) → Reach cfg s1
  | init_failed (env : Env) (s s1 : State) (rc : Int) :
      Reach cfg s → (pcie_rx_ring_alloc cfg env s).2 = 0 →
      pcie_rx_ring_init cfg env (pcie_rx_ring_alloc cfg env s).1 = .ok (s1, rc) → rc ≠ 0 →
      Reach cfg s1
  | deinit (s s1 : State) : Reach cfg s → pcie_rx_deinit cfg s = .ok s1 → Reach cfg s1
  | pass (s s1 : State) (i : Nat) : Reach cfg s → ring_cleanup_slot s i = .ok s1 → Reach cfg s1

/-- The three-slot ring as slot initialisation leaves it when the mapping of
the second buffer (slot 1) fails: the state in which `pcie_rx_init` starts its
roll-back. -/
def ring3_maperr : State :=
  match pcie_rx_ring_init cfg3 env_maperr_slot1 (pcie_rx_ring_alloc cfg3 env_maperr_slot1 {}).1 with
  | .ok (s, _) => s
  | .error _ => {}

/-! # Theorems -/

/-! ## Access lemmas -/

theorem rd_hndl_some {s : State} {hs : List pcie_rx_hndl} {i : Nat} {h : pcie_rx_hndl}
    (h1 : s.rx_hndl = some hs) (h2 : hs[i]? = some h) : rd_hndl s i = .ok h := by
  simp [rd_hndl, h1, h2]

theorem rd_desc_some {s : State} {ds : List pcie_rx_desc} {i : Nat} {d : pcie_rx_desc}
    (h1 : s.prx_ring = some ds) (h2 : ds[i]? = some d) : rd_desc s (some i) = .ok d := by
  simp [rd_desc, h1, h2]

/-! ## The status decoder -/

theorem land_mask_mic (s : Nat) :
    (s &&& (0xFFFFFFFF - DECRYPT_ERR_MASK)) &&& TKIP_DECRYPT_MIC_ERR = s &&& 2 := by
  rw [Nat.and_assoc]; rfl

theorem land_icv_eq_zero (s : Nat) :
    s &&& (WEP_DECRYPT_ICV_ERR ||| TKIP_DECRYPT_ICV_ERR) = 0 ↔ s &&& 4 = 0 ∧ s &&& 8 = 0 := by
  have h : WEP_DECRYPT_ICV_ERR ||| TKIP_DECRYPT_ICV_ERR = 4 ||| 8 := rfl
  rw [h, Nat.and_or_distrib_left]
  constructor
  · intro h
    constructor
    · apply Nat.eq_of_testBit_eq; intro i
      have := congrArg (fun x => x.testBit i) h
      simp at this; simp; exact this.1
    · apply Nat.eq_of_testBit_eq; intro i
      have := congrArg (fun x => x.testBit i) h
      simp at this; simp; exact this.2
  · rintro ⟨h1, h2⟩; rw [h1, h2]; rfl

/-- The MMIC decision of the status decoder as a predicate on the status byte. -/
theorem pcie_rx_status_flag (cfg : Config) (chip : Nat) (d : pcie_rx_desc) :
    (pcie_rx_status cfg chip d).flag =
      if d.status ≠ 0xFF ∧ d.status &&& 0x80 ≠ 0 ∧ d.status &&& 0x02 ≠ 0 ∧
          d.status &&& 0x04 = 0 ∧ d.status &&& 0x08 = 0
      then RX_FLAG_MMIC_ERROR else 0 := by
  have key : (pcie_rx_status cfg chip d).flag =
      if d.status = GENERAL_DECRYPT_ERR ∨ d.status &&& DECRYPT_ERR_MASK ≠ 0 then
        if d.status ≠ GENERAL_DECRYPT_ERR then
          if (d.status &&& (0xFFFFFFFF - DECRYPT_ERR_MASK)) &&& TKIP_DECRYPT_MIC_ERR ≠ 0 ∧
              ¬ (d.status &&& (WEP_DECRYPT_ICV_ERR ||| TKIP_DECRYPT_ICV_ERR) ≠ 0) then
            RX_FLAG_MMIC_ERROR
          else 0
        else 0
      else 0 := by
    unfold pcie_rx_status pcie_rx_prepare_status
    split_ifs <;> first | rfl | exact Nat.zero_or _
  rw [key, land_mask_mic]
  have hi := land_icv_eq_zero d.status
  have e1 : GENERAL_DECRYPT_ERR = 255 := rfl
  have e2 : DECRYPT_ERR_MASK = 128 := rfl
  rw [e1, e2]
  by_cases h1 : d.status = 255
  · simp [h1]
  · by_cases h2 : d.status &&& 128 = 0
    · simp [h1, h2]
    · by_cases h3 : d.status &&& (WEP_DECRYPT_ICV_ERR ||| TKIP_DECRYPT_ICV_ERR) = 0
      · have h4 := hi.mp h3
        simp [h1, h2, h3, h4.1, h4.2]
      · have h4 : ¬ (d.status &&& 4 = 0 ∧ d.status &&& 8 = 0) := fun h => h3 (hi.mpr h)
        have h5 : d.status &&& 4 = 0 → ¬ d.status &&& 8 = 0 := fun a b => h4 ⟨a, b⟩
        simp only [h1, h2, h3, ne_eq, not_false_eq_true, or_true, if_true, not_true_eq_false,
          and_false, if_false, true_and]
        rw [if_neg]
        rintro ⟨_, a, b⟩
        exact h4 ⟨a, b⟩

/-- C6: the status decoder sets the MMIC-error flag exactly when the status is
not 0xFF, has bit 7 and the MIC bit set and has neither ICV bit set; 0xFF gives
no flag, 0x82 gives the flag, and the decoder sets no other bit of the flag
word. -/
theorem pcie_rx_status_mmic_iff (cfg : Config) (chip : Nat) (d : pcie_rx_desc) :
    ((pcie_rx_status cfg chip d).flag &&& RX_FLAG_MMIC_ERROR ≠ 0 ↔
        (d.status ≠ 0xFF ∧ d.status &&& 0x80 ≠ 0 ∧ d.status &&& 0x02 ≠ 0 ∧
          d.status &&& 0x04 = 0 ∧ d.status &&& 0x08 = 0)) ∧
      ((pcie_rx_status cfg chip d).flag = 0 ∨
        (pcie_rx_status cfg chip d).flag = RX_FLAG_MMIC_ERROR) ∧
      (d.status = 0xFF → (pcie_rx_status cfg chip d).flag &&& RX_FLAG_MMIC_ERROR = 0) ∧
      (d.status = 0x82 → (pcie_rx_status cfg chip d).flag &&& RX_FLAG_MMIC_ERROR ≠ 0) := by
  rw [pcie_rx_status_flag]
  refine ⟨?_, ?_, ?_, ?_⟩
  · split_ifs with h
    · simp [RX_FLAG_MMIC_ERROR, h]
    · simp [h]
  · split_ifs
    · exact Or.inr rfl
    · exact Or.inl rfl
  · intro h
    simp [h]
  · intro h
    rw [h]
    decide

/-! ## Slot initialisation -/

theorem ring_init_slot_ok (cfg : Config) (env : Env) (s : State) (i : Nat)
    (ds : List pcie_rx_desc) (hs : List pcie_rx_hndl) (d : pcie_rx_desc) (h : pcie_rx_hndl)
    (slack dma : Nat)
    (hds : s.prx_ring = some ds) (hhs : s.rx_hndl = some hs)
    (hd : ds[i]? = some d) (hh : hs[i]? = some h)
    (ha : env.alloc s.nalloc = some slack) (hm : env.map s.nmap = some dma) :
    ring_init_slot cfg env s i = .ok
      ({ s with
          prx_ring := some (ds.set i
            { d with rx_control := cfg.EAGLE_RXD_CTRL_DRIVER_OWN,
                     status := cfg.EAGLE_RXD_STATUS_OK, qos_ctrl := 0, channel := 0, rssi := 0,
                     pkt_len := cfg.SYSADPT_MAX_AGGR_SIZE % 65536,
                     pphys_buff_data := dma % 4294967296,
                     pphys_next := (s.pphys_rx_ring % 4294967296 +
                        (i + 1) * cfg.sizeof_pcie_rx_desc) % 4294967296 }),
          rx_hndl := some (hs.set i
            { psk_buff := some (skb_reserve (dev_alloc_skb cfg s.nalloc s.rx_buf_size slack)
                                  cfg.PCIE_MIN_BYTES_HEADROOM),
              pdesc := some i,
              pnext := if i < cfg.PCIE_MAX_NUM_RX_DESC - 1 then some (i + 1) else h.pnext }),
          nalloc := s.nalloc + 1, nmap := s.nmap + 1,
          trace := s.trace ++ [.dev_alloc_skb (some s.nalloc), .pci_map_single s.nalloc (some dma)] },
        0) := by
  have hi : i < ds.length := by
    rcases List.getElem?_eq_some.mp hd with ⟨h1, _⟩; exact h1
  simp [ring_init_slot, rd_hndl, rd_desc, wr_hndl, wr_desc, emit, hds, hhs, hd, hh, ha, hm, hi,
    skb_reserve, dev_alloc_skb]
  split_ifs <;> simp

theorem ring_init_loop_ok (cfg : Config) (env : Env) (a0 m0 p0 : Nat)
    (halloc : ∀ k, k < cfg.PCIE_MAX_NUM_RX_DESC → (env.alloc (a0 + k)).isSome)
    (hmap : ∀ k, k < cfg.PCIE_MAX_NUM_RX_DESC → (env.map (m0 + k)).isSome) :
    ∀ (k i : Nat) (s : State), i + k = cfg.PCIE_MAX_NUM_RX_DESC →
      RingInit cfg env a0 m0 p0 i s →
      ∃ s1, ring_init_loop cfg env k i s = .ok (s1, 0) ∧
        RingInit cfg env a0 m0 p0 cfg.PCIE_MAX_NUM_RX_DESC s1 := by
  intro k
  induction k with
  | zero =>
    intro i s hik hinv
    refine ⟨s, rfl, ?_⟩
    have : i = cfg.PCIE_MAX_NUM_RX_DESC := by omega
    rw [← this]; exact hinv
  | succ k ih =>
    intro i s hik hinv
    obtain ⟨ds, hs, hds, hhs, hdl, hhl, hna, hnm, hbs, hpp, hsl⟩ := hinv
    have hi : i < cfg.PCIE_MAX_NUM_RX_DESC := by omega
    obtain ⟨slack, ha⟩ := Option.isSome_iff_exists.mp (halloc i hi)
    obtain ⟨dma, hm⟩ := Option.isSome_iff_exists.mp (hmap i hi)
    have hd : ds[i]? = some (ds[i]) := List.getElem?_eq_getElem (by omega)
    have hh : hs[i]? = some (hs[i]) := List.getElem?_eq_getElem (by omega)
    have hstep := ring_init_slot_ok cfg env s i ds hs _ _ slack dma hds hhs hd hh
      (by rw [hna]; exact ha) (by rw [hnm]; exact hm)
    rw [ring_init_loop, hstep]
    simp only [if_true]
    apply ih (i + 1) _ (by omega)
    refine ⟨_, _, rfl, rfl, by simp [hdl], by simp [hhl], by simp [hna]; omega,
      by simp [hnm]; omega, hbs, hpp, ?_⟩
    intro j hj
    by_cases hji : j = i
    · subst hji
      refine ⟨_, _, by simp [List.getElem?_set, hdl, hi]; rfl, by simp [List.getElem?_set, hhl, hi]; rfl, ?_⟩
      refine ⟨rfl, rfl, rfl, rfl, rfl, rfl, ⟨dma, hm, rfl⟩, fun _ => by simp [hpp],
        ⟨slack, ha, by simp [hna, hbs]⟩, rfl, fun h => by simp [h]⟩
    · obtain ⟨d, h, e1, e2, e3⟩ := hsl j (by omega)
      refine ⟨d, h, ?_, ?_, e3⟩
      · simp [List.getElem?_set, Ne.symm hji, e1]
      · simp [List.getElem?_set, Ne.symm hji, e2]

theorem walk_succ (s : State) (k : Nat) (p : Option Nat) :
    walk s (k + 1) p = fwd s (walk s k p) := by
  induction k generalizing p with
  | zero => rfl
  | succ k ih => rw [walk, ih]; rfl

/-- In a ring whose handle `i` points forward to handle `(i + 1) % N`, walking
`k` steps from handle 0 ends at handle `k % N`. -/
theorem walk_ring (s : State) (N : Nat) (hN : 1 ≤ N)
    (hnext : ∀ i, i < N → ∃ h, rd_hndl s i = .ok h ∧ h.pnext = some ((i + 1) % N)) (k : Nat) :
    walk s k (some 0) = some (k % N) := by
  induction k with
  | zero => simp [walk]
  | succ k ih =>
    rw [walk_succ, ih]
    obtain ⟨h, e1, e2⟩ := hnext (k % N) (Nat.mod_lt _ (by omega))
    simp [fwd, e1, e2]

/-- C1: on a ring of `N ≥ 1` allocated slots, with every buffer allocation
and every mapping succeeding, `pcie_rx_ring_init` returns 0; afterwards every
slot `i < N` has a descriptor that is driver-owned (available) with status OK,
queue tag 0, channel 0, rssi 0 and length equal to the buffer size, a handle
holding a fresh buffer with the headroom reserved that refers back to
descriptor `i` and forward to handle `(i + 1) mod N`; the cursor is handle 0;
and following the forward references from handle 0 comes back to handle 0
after exactly `N` steps and not earlier. -/
theorem pcie_rx_ring_init_ok (cfg : Config) (env : Env) (s : State)
    (ds : List pcie_rx_desc) (hs : List pcie_rx_hndl)
    (hN : 1 ≤ cfg.PCIE_MAX_NUM_RX_DESC)
    (hds : s.prx_ring = some ds) (hdl : ds.length = cfg.PCIE_MAX_NUM_RX_DESC)
    (hhs : s.rx_hndl = some hs) (hhl : hs.length = cfg.PCIE_MAX_NUM_RX_DESC)
    (hsz : cfg.SYSADPT_MAX_AGGR_SIZE < 65536)
    (halloc : ∀ k, k < cfg.PCIE_MAX_NUM_RX_DESC → (env.alloc (s.nalloc + k)).isSome)
    (hmap : ∀ k, k < cfg.PCIE_MAX_NUM_RX_DESC → (env.map (s.nmap + k)).isSome) :
    ∃ s1, pcie_rx_ring_init cfg env s = .ok (s1, 0) ∧
      s1.rx_buf_size = cfg.SYSADPT_MAX_AGGR_SIZE ∧
      s1.pnext_rx_hndl = some 0 ∧
      (∀ i, i < cfg.PCIE_MAX_NUM_RX_DESC → ∃ d h id slack,
        rd_desc s1 (some i) = .ok d ∧ rd_hndl s1 i = .ok h ∧
        d.rx_control = cfg.EAGLE_RXD_CTRL_DRIVER_OWN ∧
        d.status = cfg.EAGLE_RXD_STATUS_OK ∧
        d.qos_ctrl = 0 ∧ d.channel = 0 ∧ d.rssi = 0 ∧
        d.pkt_len = s1.rx_buf_size ∧
        h.psk_buff = some (skb_reserve (dev_alloc_skb cfg id s1.rx_buf_size slack)
                            cfg.PCIE_MIN_BYTES_HEADROOM) ∧
        h.pdesc = some i ∧
        h.pnext = some ((i + 1) % cfg.PCIE_MAX_NUM_RX_DESC)) ∧
      walk s1 cfg.PCIE_MAX_NUM_RX_DESC (some 0) = some 0 ∧
      (∀ k, 0 < k → k < cfg.PCIE_MAX_NUM_RX_DESC → walk s1 k (some 0) ≠ some 0) := by
  obtain ⟨s1, hloop, ds1, hs1, hds1, hhs1, hdl1, hhl1, -, -, hbs1, hpp1, hsl⟩ :=
    ring_init_loop_ok cfg env s.nalloc s.nmap s.pphys_rx_ring halloc hmap
      cfg.PCIE_MAX_NUM_RX_DESC 0 { s with rx_buf_size := cfg.SYSADPT_MAX_AGGR_SIZE }
      (by omega) ⟨ds, hs, hds, hhs, hdl, hhl, rfl, rfl, rfl, rfl, fun j hj => by omega⟩
  have hlast : cfg.PCIE_MAX_NUM_RX_DESC - 1 < cfg.PCIE_MAX_NUM_RX_DESC := by omega
  obtain ⟨dl, hl, hdlast, hhlast, hslast⟩ := hsl _ hlast
  let s2 : State :=
    { s1 with
        prx_ring := some (ds1.set (cfg.PCIE_MAX_NUM_RX_DESC - 1)
          { dl with pphys_next := s.pphys_rx_ring % 4294967296 }),
        rx_hndl := some (hs1.set (cfg.PCIE_MAX_NUM_RX_DESC - 1) { hl with pnext := some 0 }),
        pnext_rx_hndl := some 0 }
  have hrun : pcie_rx_ring_init cfg env s = .ok (s2, 0) := by
    have hloop1 := hloop
    simp only [hds, hhs] at hloop1
    simp [pcie_rx_ring_init, hds, hhs, hloop1, rd_desc, rd_hndl, wr_desc, wr_hndl, hds1, hhs1,
      hdlast, hhlast, hlast, hhl1, s2]
  have hslots : ∀ i, i < cfg.PCIE_MAX_NUM_RX_DESC → ∃ d h id slack,
        rd_desc s2 (some i) = .ok d ∧ rd_hndl s2 i = .ok h ∧
        d.rx_control = cfg.EAGLE_RXD_CTRL_DRIVER_OWN ∧
        d.status = cfg.EAGLE_RXD_STATUS_OK ∧
        d.qos_ctrl = 0 ∧ d.channel = 0 ∧ d.rssi = 0 ∧
        d.pkt_len = s2.rx_buf_size ∧
        h.psk_buff = some (skb_reserve (dev_alloc_skb cfg id s2.rx_buf_size slack)
                            cfg.PCIE_MIN_BYTES_HEADROOM) ∧
        h.pdesc = some i ∧
        h.pnext = some ((i + 1) % cfg.PCIE_MAX_NUM_RX_DESC) := by
    intro i hi
    have hbs2 : s2.rx_buf_size = cfg.SYSADPT_MAX_AGGR_SIZE := hbs1
    have hds2 : s2.prx_ring = some (ds1.set (cfg.PCIE_MAX_NUM_RX_DESC - 1)
        { dl with pphys_next := s.pphys_rx_ring % 4294967296 }) := rfl
    have hhs2 : s2.rx_hndl = some (hs1.set (cfg.PCIE_MAX_NUM_RX_DESC - 1)
        { hl with pnext := some 0 }) := rfl
    rw [hbs2]
    by_cases hil : i = cfg.PCIE_MAX_NUM_RX_DESC - 1
    · obtain ⟨c1, c2, c3, c4, c5, c6, -, -, ⟨slack, -, c9⟩, c10, -⟩ := hslast
      refine ⟨{ dl with pphys_next := s.pphys_rx_ring % 4294967296 }, { hl with pnext := some 0 },
        _, slack, ?_, ?_, c1, c2, c3, c4, c5, ?_, c9, ?_, ?_⟩
      · exact rd_desc_some hds2 (by simp [hil, List.getElem?_set, hdl1, hlast])
      · exact rd_hndl_some hhs2 (by simp [hil, List.getElem?_set, hhl1, hlast])
      · show dl.pkt_len = _
        rw [c6, Nat.mod_eq_of_lt hsz]
      · show hl.pdesc = _
        rw [c10, hil]
      · show some 0 = _
        have : i + 1 = cfg.PCIE_MAX_NUM_RX_DESC := by omega
        rw [this, Nat.mod_self]
    · obtain ⟨d, h, e1, e2, c1, c2, c3, c4, c5, c6, -, -, ⟨slack, -, c9⟩, c10, c11⟩ := hsl i hi
      refine ⟨d, h, _, slack, ?_, ?_, c1, c2, c3, c4, c5, ?_, c9, c10, ?_⟩
      · exact rd_desc_some hds2 (by simp [List.getElem?_set, Ne.symm hil, e1])
      · exact rd_hndl_some hhs2 (by simp [List.getElem?_set, Ne.symm hil, e2])
      · rw [c6, Nat.mod_eq_of_lt hsz]
      · rw [c11 (by omega), Nat.mod_eq_of_lt (by omega)]
  have hnext : ∀ i, i < cfg.PCIE_MAX_NUM_RX_DESC →
      ∃ h, rd_hndl s2 i = .ok h ∧ h.pnext = some ((i + 1) % cfg.PCIE_MAX_NUM_RX_DESC) := by
    intro i hi
    obtain ⟨_, h, _, _, _, e, _, _, _, _, _, _, _, _, e2⟩ := hslots i hi
    exact ⟨h, e, e2⟩
  refine ⟨s2, hrun, hbs1, rfl, hslots, ?_, ?_⟩
  · rw [walk_ring s2 _ hN hnext, Nat.mod_self]
  · intro k hk0 hkN
    rw [walk_ring s2 _ hN hnext, Nat.mod_eq_of_lt hkN]
    simp; omega

theorem rd_hndl_ok {s : State} {i : Nat} {h : pcie_rx_hndl} (e : rd_hndl s i = .ok h) :
    ∃ hs, s.rx_hndl = some hs ∧ hs[i]? = some h := by
  unfold rd_hndl at e
  cases hr : s.rx_hndl with
  | none => simp [hr] at e
  | some hs =>
    cases hi : hs[i]? with
    | none => simp [hr, hi] at e
    | some h1 =>
      simp [hr, hi] at e
      exact ⟨hs, rfl, by rw [← e]; exact hi⟩

theorem rd_desc_ok {s : State} {i : Nat} {d : pcie_rx_desc} (e : rd_desc s (some i) = .ok d) :
    ∃ ds, s.prx_ring = some ds ∧ ds[i]? = some d := by
  unfold rd_desc at e
  cases hr : s.prx_ring with
  | none => simp [hr] at e
  | some ds =>
    cases hi : ds[i]? with
    | none => simp [hr, hi] at e
    | some d1 =>
      simp [hr, hi] at e
      exact ⟨ds, rfl, by rw [← e]; exact hi⟩

/-- Outcome of `pcie_rx_refill` when the buffer allocation fails. -/
theorem pcie_rx_refill_nomem (cfg : Config) (env : Env) (s : State) (hi : Nat)
    (hs : List pcie_rx_hndl) (h : pcie_rx_hndl)
    (hhs : s.rx_hndl = some hs) (hh : hs[hi]? = some h)
    (ha : env.alloc s.nalloc = none) :
    pcie_rx_refill cfg env s hi = .ok
      ({ s with rx_hndl := some (hs.set hi { h with psk_buff := none }),
                nalloc := s.nalloc + 1,
                trace := s.trace ++ [.dev_alloc_skb none] }, -ENOMEM) := by
  simp [pcie_rx_refill, rd_hndl, wr_hndl, emit, hhs, hh, ha]

/-- Outcome of `pcie_rx_refill` when the allocation succeeds and the mapping
fails. -/
theorem pcie_rx_refill_maperr (cfg : Config) (env : Env) (s : State) (hi di : Nat)
    (hs : List pcie_rx_hndl) (h : pcie_rx_hndl) (ds : List pcie_rx_desc) (d : pcie_rx_desc)
    (slack : Nat)
    (hhs : s.rx_hndl = some hs) (hh : hs[hi]? = some h) (hp : h.pdesc = some di)
    (hds : s.prx_ring = some ds) (hd : ds[di]? = some d)
    (ha : env.alloc s.nalloc = some slack) (hm : env.map s.nmap = none) :
    pcie_rx_refill cfg env s hi = .ok
      ({ s with
          rx_hndl := some (hs.set hi
            { h with psk_buff := some (skb_reserve
                (dev_alloc_skb cfg s.nalloc s.rx_buf_size slack) cfg.PCIE_MIN_BYTES_HEADROOM) }),
          prx_ring := some (ds.set di
            { d with status := cfg.EAGLE_RXD_STATUS_OK, qos_ctrl := 0, channel := 0, rssi := 0,
                     pkt_len := s.rx_buf_size % 65536 }),
          nalloc := s.nalloc + 1, nmap := s.nmap + 1,
          trace := s.trace ++ [.dev_alloc_skb (some s.nalloc), .pci_map_single s.nalloc none,
                               .dev_kfree_skb_any s.nalloc] }, -ENOMEM) := by
  simp [pcie_rx_refill, rd_hndl, rd_desc, wr_hndl, wr_desc, emit, hhs, hh, hp, hds, hd, ha, hm,
    skb_reserve, dev_alloc_skb]

/-- Outcome of `pcie_rx_refill` when allocation and mapping succeed. -/
theorem pcie_rx_refill_success (cfg : Config) (env : Env) (s : State) (hi di : Nat)
    (hs : List pcie_rx_hndl) (h : pcie_rx_hndl) (ds : List pcie_rx_desc) (d : pcie_rx_desc)
    (slack dma : Nat)
    (hhs : s.rx_hndl = some hs) (hh : hs[hi]? = some h) (hp : h.pdesc = some di)
    (hds : s.prx_ring = some ds) (hd : ds[di]? = some d)
    (ha : env.alloc s.nalloc = some slack) (hm : env.map s.nmap = some dma) :
    pcie_rx_refill cfg env s hi = .ok
      ({ s with
          rx_hndl := some (hs.set hi
            { h with psk_buff := some (skb_reserve
                (dev_alloc_skb cfg s.nalloc s.rx_buf_size slack) cfg.PCIE_MIN_BYTES_HEADROOM) }),
          prx_ring := some (ds.set di
            { d with status := cfg.EAGLE_RXD_STATUS_OK, qos_ctrl := 0, channel := 0, rssi := 0,
                     pkt_len := s.rx_buf_size % 65536,
                     pphys_buff_data := dma % 4294967296 }),
          nalloc := s.nalloc + 1, nmap := s.nmap + 1,
          trace := s.trace ++ [.dev_alloc_skb (some s.nalloc),
                               .pci_map_single s.nalloc (some dma)] }, 0) := by
  have hi2 : di < ds.length := (List.getElem?_eq_some.mp hd).1
  simp [pcie_rx_refill, rd_hndl, rd_desc, wr_hndl, wr_desc, emit, hhs, hh, hp, hds, hd, ha, hm,
    skb_reserve, dev_alloc_skb, hi2]

/-- Witness for C1: the three-slot ring straight after allocation. -/
theorem pcie_rx_ring_init_ok_witness :
    ∃ s1, pcie_rx_ring_init cfg3 env_ok (pcie_rx_ring_alloc cfg3 env_ok {}).1 = .ok (s1, 0) ∧
      s1.pnext_rx_hndl = some 0 ∧ walk s1 3 (some 0) = some 0 := by
  obtain ⟨s1, h1, -, h2, -, h3, -⟩ :=
    pcie_rx_ring_init_ok cfg3 env_ok (pcie_rx_ring_alloc cfg3 env_ok {}).1
      (List.replicate 3 {}) (List.replicate 3 {}) (by decide) rfl rfl rfl rfl (by decide)
      (fun _ _ => rfl) (fun _ _ => rfl)
  exact ⟨s1, h1, h2, h3⟩

/-- C9, counterexample: the refill of slot 0 whose mapping fails returns
`-ENOMEM` after it has reset status, channel and length of the descriptor. -/
theorem pcie_rx_refill_maperr_resets_desc :
    ∃ s1, pcie_rx_refill cfg3 env_maperr ring3_plain 0 = .ok (s1, -ENOMEM) ∧
      (rd_desc ring3_plain (some 0)).map (fun d => (d.status, d.channel, d.pkt_len))
        = .ok (0, 6, 30) ∧
      (rd_desc s1 (some 0)).map (fun d => (d.status, d.channel, d.pkt_len))
        = .ok (1, 0, 48) :=
  ⟨_, rfl, rfl, rfl⟩

/-- C9, as the code has it: a failing `pcie_rx_refill` returns `-ENOMEM`; on
an allocation failure the descriptor array is untouched; on a mapping failure
the slot's descriptor keeps ownership, rate, buffer address, next address and
noise floor while status, queue tag, channel, rssi and length have been reset
to OK, 0, 0, 0 and the buffer size (as a 16-bit value), and every other
descriptor is untouched. -/
theorem pcie_rx_refill_fail_desc (cfg : Config) (env : Env) (s : State) (hi di : Nat)
    (h : pcie_rx_hndl) (d : pcie_rx_desc) (hsl : SlotAt s hi h di d) :
    (env.alloc s.nalloc = none →
      ∃ s1, pcie_rx_refill cfg env s hi = .ok (s1, -ENOMEM) ∧ s1.prx_ring = s.prx_ring) ∧
    (∀ slack, env.alloc s.nalloc = some slack → env.map s.nmap = none →
      ∃ s1, pcie_rx_refill cfg env s hi = .ok (s1, -ENOMEM) ∧
        rd_desc s1 (some di) = .ok
          { rx_control := d.rx_control, status := cfg.EAGLE_RXD_STATUS_OK, qos_ctrl := 0,
            channel := 0, rssi := 0, rate := d.rate, pkt_len := s.rx_buf_size % 65536,
            pphys_buff_data := d.pphys_buff_data, pphys_next := d.pphys_next,
            noise_floor := d.noise_floor } ∧
        ∀ j, j ≠ di → rd_desc s1 (some j) = rd_desc s (some j)) := by
  obtain ⟨e1, hp, e2⟩ := hsl
  obtain ⟨hs, hhs, hh⟩ := rd_hndl_ok e1
  obtain ⟨ds, hds, hd⟩ := rd_desc_ok e2
  constructor
  · intro ha
    exact ⟨_, pcie_rx_refill_nomem cfg env s hi hs h hhs hh ha, rfl⟩
  · intro slack ha hm
    refine ⟨_, pcie_rx_refill_maperr cfg env s hi di hs h ds d slack hhs hh hp hds hd ha hm, ?_, ?_⟩
    · have hlt : di < ds.length := (List.getElem?_eq_some.mp hd).1
      simp [rd_desc, List.getElem?_set, hlt]
    · intro j hj
      simp [rd_desc, List.getElem?_set, hds, Ne.symm hj]

/-- Witness for C9: slot 0 of the three-slot ring holding a deposited frame. -/
theorem pcie_rx_refill_fail_desc_witness :
    (∃ s1, pcie_rx_refill cfg3 env_nomem ring3_plain 0 = .ok (s1, -ENOMEM) ∧
        s1.prx_ring = ring3_plain.prx_ring) ∧
    (∃ s1, pcie_rx_refill cfg3 env_maperr ring3_plain 0 = .ok (s1, -ENOMEM) ∧
        (rd_desc s1 (some 0)).map (fun d => d.rx_control) = .ok 128) := by
  have hsl : SlotAt ring3_plain 0 _ 0 _ := ⟨rfl, rfl, rfl⟩
  have w := pcie_rx_refill_fail_desc cfg3 env_maperr ring3_plain 0 0 _ _ hsl
  have w2 := pcie_rx_refill_fail_desc cfg3 env_nomem ring3_plain 0 0 _ _ hsl
  obtain ⟨s1, r1, r2, -⟩ := w.2 0 rfl rfl
  exact ⟨w2.1 rfl, s1, r1, by rw [r2]; rfl⟩

/-- C10, the code at the failing input: after a refill of slot 0 whose mapping
fails, the handle still refers to the buffer that was just released (buffer 3);
the same holds when the refill runs inside the drain loop, and a later teardown
then releases that buffer a second time. -/
theorem pcie_rx_refill_maperr_keeps_freed_buffer :
    (∃ s1, pcie_rx_refill cfg3 env_maperr ring3_plain 0 = .ok (s1, -ENOMEM) ∧
      (rd_hndl s1 0).map (fun h => h.psk_buff.map (fun b => b.id)) = .ok (some 3) ∧
      released s1.trace = [3]) ∧
    (∃ s1, pcie_rx_recv cfg3 env_maperr ring3_plain = .ok s1 ∧
      (rd_hndl s1 0).map (fun h => h.psk_buff.map (fun b => b.id)) = .ok (some 3) ∧
      released s1.trace = [3] ∧
      (pcie_rx_deinit cfg3 s1).map (fun s2 => released s2.trace) = .ok [3, 3, 1, 2]) :=
  ⟨⟨_, rfl, rfl, rfl⟩, ⟨_, rfl, rfl, rfl, rfl⟩⟩

/-! ## The loop body up to the label `out` -/

theorem memset4_length (data : List Nat) (off : Nat) :
    (memset4 data off).length = data.length := by
  simp [memset4]

/-- The bytes after `memset4`: a byte of the data area at one of the four
offsets is zero, every other byte is as before. -/
theorem memset4_get (data : List Nat) (off j b : Nat) (hj : data[j]? = some b) :
    (memset4 data off)[j]? = some (if off ≤ j ∧ j < off + 4 then 0 else b) := by
  have hlt : j < data.length := (List.getElem?_eq_some.mp hj).1
  unfold memset4
  simp only [List.getElem?_set, List.length_set]
  by_cases h0 : off = j
  · subst h0; simp [hlt]
  · by_cases h1 : off + 1 = j
    · subst h1; simp [hlt]
    · by_cases h2 : off + 2 = j
      · subst h2; simp [hlt]
      · by_cases h3 : off + 3 = j
        · subst h3; simp [hlt]
        · have hn : ¬ (off ≤ j ∧ j < off + 4) := by omega
          simp [h0, h1, h2, h3, hn, hj]

theorem skb_put_ok (skb : sk_buff) (n : Nat) (h : (n : Int) ≤ skb_tailroom skb) :
    skb_put skb n = .ok { skb with len := skb.len + n } := by
  simp [skb_put, not_lt.mpr h]

theorem skb_put_over (skb : sk_buff) (n : Nat) (h : skb_tailroom skb < (n : Int)) :
    skb_put skb n = .error .skb_over := by
  simp [skb_put, h]

/-- `rx_fill` on the patch path, when the longer frame fits. -/
theorem rx_fill_patch (cfg : Config) (chip : Nat) (d : pcie_rx_desc) (skb : sk_buff)
    (hp : mmic_patch cfg chip d skb = true)
    (hfit : (d.pkt_len : Int) + 4 ≤ skb_tailroom skb) :
    ∃ skb1, rx_fill cfg chip d skb = .ok (skb1, d.pkt_len + 4) ∧
      skb1.id = skb.id ∧ skb1.len = skb.len + (d.pkt_len + 4) ∧
      skb1.data.length = skb.data.length ∧
      ∀ j b, skb.data[j]? = some b → skb1.data[j]? =
        some (if cfg.dma_data_off ≤ j ∧ j < cfg.dma_data_off + 4 then 0 else b) := by
  simp only [mmic_patch, Bool.and_eq_true, decide_eq_true_eq] at hp
  have hl := memset4_length skb.data cfg.dma_data_off
  unfold rx_fill
  simp only [hp.1, hp.2, if_true, ne_eq, not_false_eq_true]
  rw [skb_put_ok _ _ (by simp only [skb_tailroom, hl] at *; push_cast; omega)]
  exact ⟨_, rfl, rfl, rfl, hl, memset4_get skb.data cfg.dma_data_off⟩

/-- `rx_fill` on the patch path stops in `skb_put` when the longer frame does
not fit. -/
theorem rx_fill_patch_fault (cfg : Config) (chip : Nat) (d : pcie_rx_desc) (skb : sk_buff)
    (hp : mmic_patch cfg chip d skb = true)
    (hbad : skb_tailroom skb < (d.pkt_len : Int) + 4) :
    rx_fill cfg chip d skb = .error .skb_over := by
  simp only [mmic_patch, Bool.and_eq_true, decide_eq_true_eq] at hp
  have hl := memset4_length skb.data cfg.dma_data_off
  unfold rx_fill
  simp only [hp.1, hp.2, if_true, ne_eq, not_false_eq_true]
  rw [skb_put_over _ _ (by simp only [skb_tailroom, hl] at *; push_cast; omega)]

/-- `rx_fill` off the patch path: the descriptor length is appended and no
byte of the buffer changes. -/
theorem rx_fill_plain (cfg : Config) (chip : Nat) (d : pcie_rx_desc) (skb : sk_buff)
    (hp : mmic_patch cfg chip d skb = false)
    (hfit : (d.pkt_len : Int) ≤ skb_tailroom skb) :
    ∃ skb1, rx_fill cfg chip d skb = .ok (skb1, d.pkt_len) ∧
      skb1.id = skb.id ∧ skb1.len = skb.len + d.pkt_len ∧ skb1.data = skb.data := by
  unfold rx_fill
  by_cases hc : cfg.mwl_is_crypted skb.data = true
  · have hf : ¬ ((pcie_rx_status cfg chip d).flag &&& RX_FLAG_MMIC_ERROR ≠ 0) := by
      intro hf
      simp [mmic_patch, hc, hf] at hp
    simp only [hc, hf, if_true, if_false]
    rw [skb_put_ok _ _ (by simpa [skb_tailroom] using hfit)]
    exact ⟨_, rfl, rfl, rfl, rfl⟩
  · have hc1 : cfg.mwl_is_crypted skb.data = false := by simpa using hc
    simp only [hc1, Bool.false_eq_true, if_false]
    rw [skb_put_ok _ _ (by simpa [skb_tailroom] using hfit)]
    exact ⟨_, rfl, rfl, rfl, rfl⟩

theorem rx_frame_nobuf (cfg : Config) (s : State) (cur : Nat) (h : pcie_rx_hndl)
    (e : rd_hndl s cur = .ok h) (hb : h.psk_buff = none) :
    rx_frame cfg s cur = .ok s := by
  simp [rx_frame, e, hb]

theorem rx_frame_drop (cfg : Config) (s : State) (cur di : Nat) (h : pcie_rx_hndl)
    (d : pcie_rx_desc) (skb : sk_buff) (hsl : SlotAt s cur h di d) (hb : h.psk_buff = some skb)
    (hdrop : skb_tailroom skb < (d.pkt_len : Int) ∨ d.channel ≠ s.hw_value) :
    rx_frame cfg s cur = .ok
      { s with trace := s.trace ++ [.pci_unmap_single d.pphys_buff_data,
                                    .dev_kfree_skb_any skb.id] } := by
  obtain ⟨e1, hp, e2⟩ := hsl
  rw [← hp] at e2
  rcases hdrop with hl | hc
  · simp [rx_frame, e1, hb, e2, hl, emit]
  · by_cases hl : skb_tailroom skb < (d.pkt_len : Int)
    · simp [rx_frame, e1, hb, e2, hl, emit]
    · simp [rx_frame, e1, hb, e2, hl, hc, emit]

theorem rx_frame_rx (cfg : Config) (s : State) (cur di : Nat) (h : pcie_rx_hndl)
    (d : pcie_rx_desc) (skb skb1 : sk_buff) (n : Nat)
    (hsl : SlotAt s cur h di d) (hb : h.psk_buff = some skb)
    (hlen : (d.pkt_len : Int) ≤ skb_tailroom skb) (hch : d.channel = s.hw_value)
    (hf : rx_fill cfg s.chip_type d skb = .ok (skb1, n)) :
    rx_frame cfg s cur = .ok
      { s with noise := rx_noise cfg s.chip_type d,
               trace := s.trace ++ [.pci_unmap_single d.pphys_buff_data, .skb_put skb.id n,
                                    .ieee80211_rx (rx_strip cfg skb1 d.qos_ctrl)] } := by
  obtain ⟨e1, hp, e2⟩ := hsl
  rw [← hp] at e2
  simp [rx_frame, e1, hb, e2, not_lt.mpr hlen, hch, hf, emit, rx_strip]

theorem rx_frame_fault (cfg : Config) (s : State) (cur di : Nat) (h : pcie_rx_hndl)
    (d : pcie_rx_desc) (skb : sk_buff) (f : Fault)
    (hsl : SlotAt s cur h di d) (hb : h.psk_buff = some skb)
    (hlen : (d.pkt_len : Int) ≤ skb_tailroom skb) (hch : d.channel = s.hw_value)
    (hf : rx_fill cfg s.chip_type d skb = .error f) :
    rx_frame cfg s cur = .error f := by
  obtain ⟨e1, hp, e2⟩ := hsl
  rw [← hp] at e2
  simp [rx_frame, e1, hb, e2, not_lt.mpr hlen, hch, hf]

/-- C7: for a slot whose frame passes the length and channel checks, the
frame is delivered exactly when `skb_put` has room for the length it is given.
On the patch path (header marked encrypted and MMIC-error flag decoded) the
bytes of the buffer at the key-index offset right after the frame header, that
is at offsets `dma_data_off` to `dma_data_off + 3`, are zero afterwards, every
other byte of the buffer is as the device left it, and the length appended is
the descriptor length plus 4; when the buffer has no room for the descriptor
length plus 4 the body stops in `skb_put` without delivering.  Off the patch
path no byte of the buffer is modified and the length appended is the
descriptor length.  (The bytes are those of the buffer before
`pcie_rx_remove_dma_header` strips the device header.) -/
theorem rx_frame_patch_spec (cfg : Config) (s : State) (cur di : Nat) (h : pcie_rx_hndl)
    (d : pcie_rx_desc) (skb : sk_buff)
    (hsl : SlotAt s cur h di d) (hb : h.psk_buff = some skb)
    (hlen : (d.pkt_len : Int) ≤ skb_tailroom skb) (hch : d.channel = s.hw_value) :
    (mmic_patch cfg s.chip_type d skb = true →
      (d.pkt_len : Int) + 4 ≤ skb_tailroom skb →
      ∃ skb1, rx_frame cfg s cur = .ok
          { s with noise := rx_noise cfg s.chip_type d,
                   trace := s.trace ++ [.pci_unmap_single d.pphys_buff_data,
                                        .skb_put skb.id (d.pkt_len + 4),
                                        .ieee80211_rx (rx_strip cfg skb1 d.qos_ctrl)] } ∧
        skb1.id = skb.id ∧ skb1.len = skb.len + (d.pkt_len + 4) ∧
        skb1.data.length = skb.data.length ∧
        ∀ j b, skb.data[j]? = some b → skb1.data[j]? =
          some (if cfg.dma_data_off ≤ j ∧ j < cfg.dma_data_off + 4 then 0 else b)) ∧
    (mmic_patch cfg s.chip_type d skb = true →
      skb_tailroom skb < (d.pkt_len : Int) + 4 →
      rx_frame cfg s cur = .error .skb_over) ∧
    (mmic_patch cfg s.chip_type d skb = false →
      ∃ skb1, rx_frame cfg s cur = .ok
          { s with noise := rx_noise cfg s.chip_type d,
                   trace := s.trace ++ [.pci_unmap_single d.pphys_buff_data,
                                        .skb_put skb.id d.pkt_len,
                                        .ieee80211_rx (rx_strip cfg skb1 d.qos_ctrl)] } ∧
        skb1.id = skb.id ∧ skb1.len = skb.len + d.pkt_len ∧ skb1.data = skb.data) := by
  refine ⟨?_, ?_, ?_⟩
  · intro hp hfit
    obtain ⟨skb1, hf, r1, r2, r3, r4⟩ := rx_fill_patch cfg s.chip_type d skb hp hfit
    exact ⟨skb1, rx_frame_rx cfg s cur di h d skb skb1 _ hsl hb hlen hch hf, r1, r2, r3, r4⟩
  · intro hp hbad
    exact rx_frame_fault cfg s cur di h d skb _ hsl hb hlen hch
      (rx_fill_patch_fault cfg s.chip_type d skb hp hbad)
  · intro hp
    obtain ⟨skb1, hf, r1, r2, r3⟩ := rx_fill_plain cfg s.chip_type d skb hp hlen
    exact ⟨skb1, rx_frame_rx cfg s cur di h d skb skb1 _ hsl hb hlen hch hf, r1, r2, r3⟩

/-! ## One pass of the drain loop -/

theorem list_set_same {α : Type} (l : List α) (i : Nat) (a : α) (h : l[i]? = some a) :
    l.set i a = l := by
  apply List.ext_getElem?
  intro j
  by_cases hj : i = j
  · subst hj
    have hlt : i < l.length := (List.getElem?_eq_some.mp h).1
    simp [List.getElem?_set, hlt, h]
  · simp [List.getElem?_set, hj]

/-- `pcie_rx_refill` in one equation. -/
theorem pcie_rx_refill_eq (cfg : Config) (env : Env) (s : State) (hi di : Nat)
    (hs : List pcie_rx_hndl) (h : pcie_rx_hndl) (ds : List pcie_rx_desc) (d : pcie_rx_desc)
    (hhs : s.rx_hndl = some hs) (hh : hs[hi]? = some h) (hp : h.pdesc = some di)
    (hds : s.prx_ring = some ds) (hd : ds[di]? = some d) :
    pcie_rx_refill cfg env s hi = .ok
      ({ s with rx_hndl := some (hs.set hi { h with psk_buff := (refill_outcome cfg env s d).buf }),
                prx_ring := some (ds.set di (refill_outcome cfg env s d).desc),
                nalloc := s.nalloc + 1,
                nmap := (refill_outcome cfg env s d).nmap,
                trace := s.trace ++ (refill_outcome cfg env s d).events },
        (refill_outcome cfg env s d).rc) := by
  cases ha : env.alloc s.nalloc with
  | none =>
    rw [pcie_rx_refill_nomem cfg env s hi hs h hhs hh ha]
    simp [refill_outcome, ha, list_set_same ds di d hd, hds]
  | some slack =>
    cases hm : env.map s.nmap with
    | none =>
      rw [pcie_rx_refill_maperr cfg env s hi di hs h ds d slack hhs hh hp hds hd ha hm]
      simp [refill_outcome, ha, hm]
    | some dma =>
      rw [pcie_rx_refill_success cfg env s hi di hs h ds d slack dma hhs hh hp hds hd ha hm]
      simp [refill_outcome, ha, hm]

/-- One pass of the loop body in one equation, given what the part before the
label `out` produced. -/
theorem rx_iter_eq (cfg : Config) (env : Env) (s s1 : State) (cur di : Nat)
    (hs : List pcie_rx_hndl) (h : pcie_rx_hndl) (ds : List pcie_rx_desc) (d : pcie_rx_desc)
    (hf : rx_frame cfg s cur = .ok s1)
    (hhs : s1.rx_hndl = some hs) (hh : hs[cur]? = some h) (hp : h.pdesc = some di)
    (hds : s1.prx_ring = some ds) (hd : ds[di]? = some d) :
    rx_iter cfg env s cur = .ok
      ({ s1 with
          rx_hndl := some (hs.set cur { h with psk_buff := (refill_outcome cfg env s1 d).buf }),
          prx_ring := some (ds.set di
            { (refill_outcome cfg env s1 d).desc with
                rx_control := cfg.EAGLE_RXD_CTRL_DRIVER_OWN, qos_ctrl := 0 }),
          nalloc := s1.nalloc + 1,
          nmap := (refill_outcome cfg env s1 d).nmap,
          trace := s1.trace ++ (refill_outcome cfg env s1 d).events },
        h.pnext) := by
  have hlt : cur < hs.length := (List.getElem?_eq_some.mp hh).1
  have hlt2 : di < ds.length := (List.getElem?_eq_some.mp hd).1
  unfold rx_iter
  rw [hf]
  simp only []
  rw [pcie_rx_refill_eq cfg env s1 cur di hs h ds d hhs hh hp hds hd]
  simp [rd_hndl, rd_desc, wr_desc, List.getElem?_set, hlt, hlt2, hp]

theorem delivered_append (a b : List Event) : delivered (a ++ b) = delivered a ++ delivered b := by
  induction a with
  | nil => rfl
  | cons e a ih => cases e <;> simp [delivered, ih]

theorem delivered_refill (cfg : Config) (env : Env) (s : State) (d : pcie_rx_desc) :
    delivered (refill_outcome cfg env s d).events = [] := by
  unfold refill_outcome
  cases env.alloc s.nalloc with
  | none => rfl
  | some slack =>
    cases env.map s.nmap with
    | none => rfl
    | some dma => rfl

theorem rx_cond_eq (cfg : Config) (s : State) (c di : Nat) (h : pcie_rx_hndl) (d : pcie_rx_desc)
    (hsl : SlotAt s c h di d) :
    rx_cond cfg s (some c) = .ok (decide (d.rx_control = cfg.EAGLE_RXD_CTRL_DMA_OWN)) := by
  obtain ⟨e1, hp, e2⟩ := hsl
  rw [← hp] at e2
  simp [rx_cond, e1, e2]

/-- The loop ends at a slot that is not filled. -/
theorem rx_loop_stop (cfg : Config) (env : Env) (fuel : Nat) (s : State) (c di : Nat)
    (h : pcie_rx_hndl) (d : pcie_rx_desc) (hsl : SlotAt s c h di d)
    (hne : d.rx_control ≠ cfg.EAGLE_RXD_CTRL_DMA_OWN) :
    rx_loop cfg env fuel s (some c) = .ok (s, some c) := by
  cases fuel with
  | zero => rw [rx_loop, rx_cond_eq cfg s c di h d hsl]; simp [hne]
  | succ n => rw [rx_loop, rx_cond_eq cfg s c di h d hsl]; simp [hne]

/-- At a filled slot the loop runs the body and goes on with the next handle. -/
theorem rx_loop_step (cfg : Config) (env : Env) (fuel : Nat) (s s1 : State) (c di : Nat)
    (h : pcie_rx_hndl) (d : pcie_rx_desc) (nxt : Option Nat) (hsl : SlotAt s c h di d)
    (hf : d.rx_control = cfg.EAGLE_RXD_CTRL_DMA_OWN)
    (hi : rx_iter cfg env s c = .ok (s1, nxt)) :
    rx_loop cfg env (fuel + 1) s (some c) = rx_loop cfg env fuel s1 nxt := by
  rw [rx_loop, rx_cond_eq cfg s c di h d hsl]
  simp [hf, hi]

/-- C3: when the slot at the cursor is not filled, `pcie_rx_recv` changes
nothing but the interrupt enable (set) and the drain-scheduled flag (cleared):
cursor, descriptors, handles, buffers and the trace of deliveries stay as they
were; and running it again in the resulting state gives that state again. -/
theorem pcie_rx_recv_idle (cfg : Config) (env : Env) (s : State) (c di : Nat)
    (h : pcie_rx_hndl) (d : pcie_rx_desc)
    (hc : s.pnext_rx_hndl = some c) (hsl : SlotAt s c h di d)
    (hne : d.rx_control ≠ cfg.EAGLE_RXD_CTRL_DMA_OWN) :
    pcie_rx_recv cfg env s = .ok { s with rx_rdy_enabled := true, is_rx_schedule := false } ∧
    pcie_rx_recv cfg env { s with rx_rdy_enabled := true, is_rx_schedule := false }
      = .ok { s with rx_rdy_enabled := true, is_rx_schedule := false } := by
  have key : ∀ s : State, s.pnext_rx_hndl = some c → SlotAt s c h di d →
      pcie_rx_recv cfg env s = .ok { s with rx_rdy_enabled := true, is_rx_schedule := false } := by
    intro s hc hsl
    unfold pcie_rx_recv
    rw [hc]
    simp only []
    rw [rx_loop_stop cfg env _ s c di h d hsl hne]
    simp [pcie_mask_int_rx_rdy, hc]
  refine ⟨key s hc hsl, ?_⟩
  exact key _ hc hsl

/-- The part of the body before `out` only adds to the trace and sets the
noise level. -/
theorem rx_frame_ok (cfg : Config) (s : State) (cur di : Nat) (h : pcie_rx_hndl)
    (d : pcie_rx_desc) (hsl : SlotAt s cur h di d) (hsafe : frame_safe cfg s h d) :
    ∃ nz t, rx_frame cfg s cur = .ok { s with noise := nz, trace := s.trace ++ t } := by
  cases hb : h.psk_buff with
  | none =>
    refine ⟨s.noise, [], ?_⟩
    rw [rx_frame_nobuf cfg s cur h hsl.1 hb]
    simp
  | some skb =>
    by_cases hdrop : skb_tailroom skb < (d.pkt_len : Int) ∨ d.channel ≠ s.hw_value
    · exact ⟨s.noise, _, rx_frame_drop cfg s cur di h d skb hsl hb hdrop⟩
    · have hlen : (d.pkt_len : Int) ≤ skb_tailroom skb := by
        by_contra hc; exact hdrop (Or.inl (not_le.mp hc))
      have hch : d.channel = s.hw_value := by
        by_contra hc; exact hdrop (Or.inr hc)
      cases hp : mmic_patch cfg s.chip_type d skb with
      | true =>
        have hfit := hsafe skb hb hlen hch hp
        obtain ⟨skb1, hf, -⟩ := rx_fill_patch cfg s.chip_type d skb hp hfit
        exact ⟨_, _, rx_frame_rx cfg s cur di h d skb skb1 _ hsl hb hlen hch hf⟩
      | false =>
        obtain ⟨skb1, hf, -⟩ := rx_fill_plain cfg s.chip_type d skb hp hlen
        exact ⟨_, _, rx_frame_rx cfg s cur di h d skb skb1 _ hsl hb hlen hch hf⟩

theorem skb_put_id {skb skb1 : sk_buff} {n : Nat} (e : skb_put skb n = .ok skb1) :
    skb1.id = skb.id := by
  unfold skb_put at e
  split_ifs at e
  simp at e
  rw [← e]

/-- The buffer `rx_fill` returns is the buffer it was given. -/
theorem rx_fill_id (cfg : Config) (chip : Nat) (d : pcie_rx_desc) (skb skb1 : sk_buff) (n : Nat)
    (e : rx_fill cfg chip d skb = .ok (skb1, n)) : skb1.id = skb.id := by
  unfold rx_fill at e
  by_cases hc : cfg.mwl_is_crypted skb.data = true
  · by_cases hm : (pcie_rx_status cfg chip d).flag &&& RX_FLAG_MMIC_ERROR ≠ 0
    · simp only [hc, hm, if_true, ne_eq, not_false_eq_true] at e
      generalize hput : skb_put _ _ = r at e
      cases r with
      | error f => cases e
      | ok skb2 =>
        simp only [Except.ok.injEq, Prod.mk.injEq] at e
        rw [← e.1]
        have h2 := skb_put_id hput
        exact h2
    · simp only [hc, hm, if_true, if_false] at e
      generalize hput : skb_put _ _ = r at e
      cases r with
      | error f => cases e
      | ok skb2 =>
        simp only [Except.ok.injEq, Prod.mk.injEq] at e
        rw [← e.1]
        have h2 := skb_put_id hput
        exact h2
  · have hc1 : cfg.mwl_is_crypted skb.data = false := by simpa using hc
    simp only [hc1, Bool.false_eq_true, if_false] at e
    generalize hput : skb_put _ _ = r at e
    cases r with
    | error f => cases e
    | ok skb2 =>
      simp only [Except.ok.injEq, Prod.mk.injEq] at e
      rw [← e.1]
      have h2 := skb_put_id hput
      exact h2

/-- When the body reaches the label `out` for a frame that passed the length
and channel checks, the frame has been handed to the sink. -/
theorem rx_frame_ok_delivers (cfg : Config) (s s1 : State) (cur di : Nat) (h : pcie_rx_hndl)
    (d : pcie_rx_desc) (skb : sk_buff) (hsl : SlotAt s cur h di d) (hb : h.psk_buff = some skb)
    (hlen : (d.pkt_len : Int) ≤ skb_tailroom skb) (hch : d.channel = s.hw_value)
    (hfr : rx_frame cfg s cur = .ok s1) :
    ∃ skb2 n, skb2.id = skb.id ∧
      s1 = { s with noise := rx_noise cfg s.chip_type d,
                    trace := s.trace ++ [.pci_unmap_single d.pphys_buff_data, .skb_put skb.id n,
                                         .ieee80211_rx skb2] } := by
  cases hf : rx_fill cfg s.chip_type d skb with
  | error f =>
    rw [rx_frame_fault cfg s cur di h d skb f hsl hb hlen hch hf] at hfr
    cases hfr
  | ok r =>
    obtain ⟨skb1, n⟩ := r
    rw [rx_frame_rx cfg s cur di h d skb skb1 n hsl hb hlen hch hf] at hfr
    refine ⟨rx_strip cfg skb1 d.qos_ctrl, n, rx_fill_id cfg _ d skb skb1 n hf, ?_⟩
    injection hfr with hfr
    exact hfr.symm

/-- The part of the body before `out` leaves the ring arrays and counters as
they are. -/
theorem rx_frame_keeps (cfg : Config) (s s1 : State) (cur : Nat)
    (hfr : rx_frame cfg s cur = .ok s1) :
    s1.rx_hndl = s.rx_hndl ∧ s1.prx_ring = s.prx_ring ∧ s1.nalloc = s.nalloc ∧
      s1.nmap = s.nmap ∧ s1.rx_buf_size = s.rx_buf_size := by
  unfold rx_frame at hfr
  split at hfr
  · cases hfr
  · split at hfr
    · injection hfr with hfr
      rw [← hfr]
      exact ⟨rfl, rfl, rfl, rfl, rfl⟩
    · split at hfr
      · cases hfr
      · split_ifs at hfr
        · injection hfr with hfr
          rw [← hfr]
          exact ⟨rfl, rfl, rfl, rfl, rfl⟩
        · injection hfr with hfr
          rw [← hfr]
          exact ⟨rfl, rfl, rfl, rfl, rfl⟩
        · split at hfr
          · cases hfr
          · injection hfr with hfr
            rw [← hfr]
            exact ⟨rfl, rfl, rfl, rfl, rfl⟩

/-- C8: when the buffer allocation of the refill fails for a filled slot whose
body has reached the label `out`, the pass still completes: a frame that
passed the length and channel checks is already in the trace as delivered,
followed by the failed allocation; `pcie_rx_refill` returns `-ENOMEM`; the slot
ends driver-owned (available) with a handle holding no buffer; the loop steps
to the next handle and goes on from there. -/
theorem rx_iter_refill_nomem (cfg : Config) (env : Env) (s s1 : State) (cur di : Nat)
    (h : pcie_rx_hndl) (d : pcie_rx_desc) (hsl : SlotAt s cur h di d)
    (hfill : d.rx_control = cfg.EAGLE_RXD_CTRL_DMA_OWN)
    (hfr : rx_frame cfg s cur = .ok s1)
    (ha : env.alloc s.nalloc = none) :
    ∃ sr s2 h2 d2,
      (∀ skb, h.psk_buff = some skb → (d.pkt_len : Int) ≤ skb_tailroom skb →
        d.channel = s.hw_value →
        ∃ skb2 n, skb2.id = skb.id ∧
          s1.trace = s.trace ++ [.pci_unmap_single d.pphys_buff_data, .skb_put skb.id n,
                                 .ieee80211_rx skb2]) ∧
      pcie_rx_refill cfg env s1 cur = .ok (sr, -ENOMEM) ∧
      rx_iter cfg env s cur = .ok (s2, h.pnext) ∧
      s2.trace = s1.trace ++ [.dev_alloc_skb none] ∧
      rd_hndl s2 cur = .ok h2 ∧ h2.psk_buff = none ∧
      rd_desc s2 (some di) = .ok d2 ∧ d2.rx_control = cfg.EAGLE_RXD_CTRL_DRIVER_OWN ∧
      ∀ fuel, rx_loop cfg env (fuel + 1) s (some cur) = rx_loop cfg env fuel s2 h.pnext := by
  obtain ⟨hs, hhs, hh⟩ := rd_hndl_ok hsl.1
  obtain ⟨ds, hds, hd⟩ := rd_desc_ok hsl.2.2
  have hlt : di < ds.length := (List.getElem?_eq_some.mp hd).1
  have hlt2 : cur < hs.length := (List.getElem?_eq_some.mp hh).1
  obtain ⟨k1, k2, k3, k4, k5⟩ := rx_frame_keeps cfg s s1 cur hfr
  have hhs1 : s1.rx_hndl = some hs := by rw [k1, hhs]
  have hds1 : s1.prx_ring = some ds := by rw [k2, hds]
  have ha1 : env.alloc s1.nalloc = none := by rw [k3, ha]
  have hrf := pcie_rx_refill_nomem cfg env s1 cur hs h hhs1 hh ha1
  have hit := rx_iter_eq cfg env s s1 cur di hs h ds d hfr hhs1 hh hsl.2.1 hds1 hd
  have ho : refill_outcome cfg env s1 d =
      { buf := none, desc := d, nmap := s1.nmap, events := [.dev_alloc_skb none],
        rc := -ENOMEM } := by
    simp [refill_outcome, ha1]
  rw [ho] at hit
  refine ⟨_, _, { h with psk_buff := none },
    { d with rx_control := cfg.EAGLE_RXD_CTRL_DRIVER_OWN, qos_ctrl := 0 },
    ?_, hrf, hit, rfl, ?_, rfl, ?_, rfl, ?_⟩
  · intro skb hb hlen hch
    obtain ⟨skb2, n, e1, e2⟩ := rx_frame_ok_delivers cfg s s1 cur di h d skb hsl hb hlen hch hfr
    exact ⟨skb2, n, e1, by rw [e2]⟩
  · simp [rd_hndl, List.getElem?_set, hlt2]
  · simp [rd_desc, List.getElem?_set, hlt]
  · intro fuel
    exact rx_loop_step cfg env fuel s _ cur di h d h.pnext hsl hfill hit

/-- C4, as the code has it: a filled slot at the cursor holding a bound buffer
(allocated earlier, empty, with at least buffer size minus headroom bytes of
room), whose channel is the operating channel and whose length `L` is at most
buffer size minus headroom, and whose frame, if it takes the patch path, fits
with its four extra bytes: the buffer is handed to the sink exactly once, with
`L` bytes appended (`L + 4` on the patch path); afterwards the descriptor is
driver-owned (available); when the refill's allocation and mapping succeed the
handle holds the freshly bound buffer, which is not the delivered one, and the
descriptor carries its bus address; when the allocation fails the handle holds
no buffer. -/
theorem rx_iter_deliver (cfg : Config) (env : Env) (s : State) (cur di : Nat)
    (h : pcie_rx_hndl) (d : pcie_rx_desc) (skb : sk_buff) (hsl : SlotAt s cur h di d)
    (hfill : d.rx_control = cfg.EAGLE_RXD_CTRL_DMA_OWN)
    (hb : h.psk_buff = some skb) (hempty : skb.len = 0) (hid : skb.id < s.nalloc)
    (hroom : s.rx_buf_size - cfg.PCIE_MIN_BYTES_HEADROOM ≤ skb.data.length)
    (hch : d.channel = s.hw_value)
    (hL : d.pkt_len ≤ s.rx_buf_size - cfg.PCIE_MIN_BYTES_HEADROOM)
    (hsafe : mmic_patch cfg s.chip_type d skb = true → d.pkt_len + 4 ≤ skb.data.length) :
    ∃ s2 skb2 d2 h2,
      rx_iter cfg env s cur = .ok (s2, h.pnext) ∧
      skb2.id = skb.id ∧
      s2.trace = s.trace ++
        [.pci_unmap_single d.pphys_buff_data,
         .skb_put skb.id (if mmic_patch cfg s.chip_type d skb then d.pkt_len + 4 else d.pkt_len),
         .ieee80211_rx skb2] ++ (refill_outcome cfg env s d).events ∧
      delivered s2.trace = delivered s.trace ++ [skb2] ∧
      rd_desc s2 (some di) = .ok d2 ∧ d2.rx_control = cfg.EAGLE_RXD_CTRL_DRIVER_OWN ∧
      rd_hndl s2 cur = .ok h2 ∧
      (∀ slack dma, env.alloc s.nalloc = some slack → env.map s.nmap = some dma →
        ∃ new, h2.psk_buff = some new ∧
          new = skb_reserve (dev_alloc_skb cfg s.nalloc s.rx_buf_size slack)
                  cfg.PCIE_MIN_BYTES_HEADROOM ∧
          new.id ≠ skb.id ∧ d2.pphys_buff_data = dma % 4294967296) ∧
      (env.alloc s.nalloc = none → h2.psk_buff = none) ∧
      ∀ fuel, rx_loop cfg env (fuel + 1) s (some cur) = rx_loop cfg env fuel s2 h.pnext := by
  obtain ⟨hs, hhs, hh⟩ := rd_hndl_ok hsl.1
  obtain ⟨ds, hds, hd⟩ := rd_desc_ok hsl.2.2
  have hlt : di < ds.length := (List.getElem?_eq_some.mp hd).1
  have hlt2 : cur < hs.length := (List.getElem?_eq_some.mp hh).1
  have hlen : (d.pkt_len : Int) ≤ skb_tailroom skb := by
    simp only [skb_tailroom, hempty]
    push_cast
    omega
  obtain ⟨skb1, hf, hid1⟩ : ∃ skb1, rx_fill cfg s.chip_type d skb = .ok
      (skb1, if mmic_patch cfg s.chip_type d skb then d.pkt_len + 4 else d.pkt_len) ∧
      skb1.id = skb.id := by
    cases hp : mmic_patch cfg s.chip_type d skb with
    | true =>
      have q1 := hsafe hp
      obtain ⟨skb1, hf, r1, -⟩ := rx_fill_patch cfg s.chip_type d skb hp
        (by simp only [skb_tailroom, hempty]; push_cast; omega)
      exact ⟨skb1, by simpa using hf, r1⟩
    | false =>
      obtain ⟨skb1, hf, r1, -⟩ := rx_fill_plain cfg s.chip_type d skb hp hlen
      exact ⟨skb1, by simpa using hf, r1⟩
  have hfr := rx_frame_rx cfg s cur di h d skb skb1 _ hsl hb hlen hch hf
  have hit := rx_iter_eq cfg env s _ cur di hs h ds d hfr hhs hh hsl.2.1 hds hd
  have ho : ∀ (nz : Int) (t : List Event),
      refill_outcome cfg env { s with noise := nz, trace := t } d = refill_outcome cfg env s d :=
    fun _ _ => rfl
  rw [ho] at hit
  refine ⟨_, rx_strip cfg skb1 d.qos_ctrl,
    { (refill_outcome cfg env s d).desc with
        rx_control := cfg.EAGLE_RXD_CTRL_DRIVER_OWN, qos_ctrl := 0 },
    { h with psk_buff := (refill_outcome cfg env s d).buf },
    hit, hid1, ?_, ?_, ?_, rfl, ?_, ?_, ?_, ?_⟩
  · simp
  · simp [delivered_append, delivered_refill, delivered]
  · simp [rd_desc, List.getElem?_set, hlt]
  · simp [rd_hndl, List.getElem?_set, hlt2]
  · intro slack dma ha hm
    refine ⟨_, ?_, rfl, ?_, ?_⟩
    · simp [refill_outcome, ha, hm]
    · simp only [skb_reserve, dev_alloc_skb]
      omega
    · simp [refill_outcome, ha, hm]
  · intro ha
    simp [refill_outcome, ha]
  · intro fuel
    exact rx_loop_step cfg env fuel s _ cur di h d h.pnext hsl hfill hit

/-! ## The drain loop over a run of filled slots -/

theorem ring_step_ne (N c m : Nat) (hc : c < N) (h0 : 0 < m) (hm : m < N) : (c + m) % N ≠ c := by
  by_cases h : c + m < N
  · rw [Nat.mod_eq_of_lt h]; omega
  · rw [Nat.mod_eq_sub_mod (by omega), Nat.mod_eq_of_lt (by omega)]; omega

theorem ring_step_shift (N c j : Nat) : ((c + 1) % N + j) % N = (c + (j + 1)) % N := by
  rw [Nat.mod_add_mod]
  congr 1
  omega

/-- One pass over a filled slot whose frame fits: only this slot's handle and
descriptor change, the descriptor ends driver-owned, one allocation has been
attempted. -/
theorem rx_iter_slot (cfg : Config) (env : Env) (s : State) (c di : Nat) (h : pcie_rx_hndl)
    (d : pcie_rx_desc) (hs : List pcie_rx_hndl) (ds : List pcie_rx_desc)
    (hhs : s.rx_hndl = some hs) (hh : hs[c]? = some h) (hp : h.pdesc = some di)
    (hds : s.prx_ring = some ds) (hd : ds[di]? = some d) (hsf : frame_safe cfg s h d) :
    ∃ s2 b d2, rx_iter cfg env s c = .ok (s2, h.pnext) ∧
      s2.prx_ring = some (ds.set di d2) ∧ d2.rx_control = cfg.EAGLE_RXD_CTRL_DRIVER_OWN ∧
      s2.rx_hndl = some (hs.set c { h with psk_buff := b }) ∧
      s2.nalloc = s.nalloc + 1 ∧ s2.hw_value = s.hw_value ∧ s2.chip_type = s.chip_type ∧
      s2.pnext_rx_hndl = s.pnext_rx_hndl := by
  have hsl : SlotAt s c h di d := ⟨rd_hndl_some hhs hh, hp, rd_desc_some hds hd⟩
  obtain ⟨nz, t, hfr⟩ := rx_frame_ok cfg s c di h d hsl hsf
  have hit := rx_iter_eq cfg env s _ c di hs h ds d hfr hhs hh hp hds hd
  exact ⟨_, _, _, hit, rfl, rfl, rfl, rfl, rfl, rfl, rfl⟩

/-- The drain loop started at handle `c` of a well-formed ring, with a run of
`k` filled slots ahead whose frames fit their buffers and that ends at a slot
that is not filled (or covers the whole ring), makes `k` passes and stops `k`
handles further on. -/
theorem rx_loop_run (cfg : Config) (env : Env) (N : Nat)
    (hown : cfg.EAGLE_RXD_CTRL_DRIVER_OWN ≠ cfg.EAGLE_RXD_CTRL_DMA_OWN) :
    ∀ (k fuel : Nat) (s : State) (c : Nat), k ≤ fuel → k ≤ N → c < N → RingWF s N →
      (∀ j, j < k → slot_filled cfg s ((c + j) % N)) →
      (∀ j, j < k → slot_safe cfg s ((c + j) % N)) →
      (k = N ∨ ¬ slot_filled cfg s ((c + k) % N)) →
      ∃ s1, rx_loop cfg env fuel s (some c) = .ok (s1, some ((c + k) % N)) ∧
        RingWF s1 N ∧ s1.nalloc = s.nalloc + k ∧
        (∀ j, j < k → ∃ d, rd_desc s1 (some ((c + j) % N)) = .ok d ∧
          d.rx_control = cfg.EAGLE_RXD_CTRL_DRIVER_OWN) ∧
        (∀ i, (∀ j, j < k → i ≠ (c + j) % N) →
          rd_desc s1 (some i) = rd_desc s (some i) ∧ rd_hndl s1 i = rd_hndl s i) ∧
        s1.hw_value = s.hw_value ∧ s1.chip_type = s.chip_type := by
  intro k
  induction k with
  | zero =>
    intro fuel s c _ _ hc hwf _ _ hstop
    obtain ⟨ds, hs, hds, hhs, hdl, hhl, htop⟩ := hwf
    obtain ⟨h, hh, hp, -⟩ := htop c hc
    have hd : ds[c]? = some ds[c] := List.getElem?_eq_getElem (by omega)
    have hsl : SlotAt s c h c ds[c] := ⟨rd_hndl_some hhs hh, hp, rd_desc_some hds hd⟩
    have hne : ds[c].rx_control ≠ cfg.EAGLE_RXD_CTRL_DMA_OWN := by
      rcases hstop with h0 | h1
      · omega
      · intro hf
        apply h1
        rw [Nat.add_zero, Nat.mod_eq_of_lt hc]
        exact ⟨_, hsl.2.2, hf⟩
    refine ⟨s, ?_, ⟨ds, hs, hds, hhs, hdl, hhl, htop⟩, rfl, ?_, ?_, rfl, rfl⟩
    · rw [rx_loop_stop cfg env fuel s c c h _ hsl hne, Nat.add_zero, Nat.mod_eq_of_lt hc]
    · intro j hj; omega
    · intro i _; exact ⟨rfl, rfl⟩
  | succ k ih =>
    intro fuel s c hfuel hkN hc hwf hrun hsafe hstop
    obtain ⟨ds, hs, hds, hhs, hdl, hhl, htop⟩ := hwf
    obtain ⟨h, hh, hp, hn⟩ := htop c hc
    obtain ⟨fuel1, rfl⟩ : ∃ f, fuel = f + 1 := ⟨fuel - 1, by omega⟩
    have hc0 : (c + 0) % N = c := by rw [Nat.add_zero, Nat.mod_eq_of_lt hc]
    obtain ⟨d, hd0, hfill⟩ := hrun 0 (by omega)
    rw [hc0] at hd0
    have hsl : SlotAt s c h c d := ⟨rd_hndl_some hhs hh, hp, hd0⟩
    obtain ⟨ds0, hds0, hd⟩ := rd_desc_ok hd0
    have hdd : ds0 = ds := by rw [hds] at hds0; injection hds0 with e; exact e.symm
    subst hdd
    have hsf : frame_safe cfg s h d := by
      have := hsafe 0 (by omega)
      rw [hc0] at this
      exact this h d hsl.1 hd0
    obtain ⟨s2, b, d2, hit, e_ring, e_drv, e_hndl, e_na, e_hw, e_ct, -⟩ :=
      rx_iter_slot cfg env s c c h d hs ds0 hhs hh hp hds hd hsf
    rw [hn] at hit
    have hloop := rx_loop_step cfg env fuel1 s _ c c h d _ hsl hfill hit
    rw [hloop]
    have hdesc_ne : ∀ i, i ≠ c → rd_desc s2 (some i) = rd_desc s (some i) := by
      intro i hi
      simp [rd_desc, e_ring, hds, List.getElem?_set, Ne.symm hi]
    have hhndl_ne : ∀ i, i ≠ c → rd_hndl s2 i = rd_hndl s i := by
      intro i hi
      simp [rd_hndl, e_hndl, hhs, List.getElem?_set, Ne.symm hi]
    have hdesc_c : ∃ d2, rd_desc s2 (some c) = .ok d2 ∧
        d2.rx_control = cfg.EAGLE_RXD_CTRL_DRIVER_OWN := by
      refine ⟨d2, rd_desc_some e_ring (by
        rw [List.getElem?_set]
        simp [hdl, hc]), e_drv⟩
    have hwf2 : RingWF s2 N := by
      refine ⟨_, _, e_ring, e_hndl, by simp [hdl], by simp [hhl], ?_⟩
      intro i hi
      by_cases hic : i = c
      · subst hic
        exact ⟨{ h with psk_buff := b }, by rw [List.getElem?_set]; simp [hhl, hi], hp, hn⟩
      · obtain ⟨hx, e1, e2, e3⟩ := htop i hi
        exact ⟨hx, by simp [List.getElem?_set, Ne.symm hic, e1], e2, e3⟩
    have hne_c : ∀ j, j < k → ((c + 1) % N + j) % N ≠ c := by
      intro j hj
      rw [ring_step_shift]
      exact ring_step_ne N c (j + 1) hc (by omega) (by omega)
    have hfilled_iff : ∀ i, i ≠ c → (slot_filled cfg s2 i ↔ slot_filled cfg s i) := by
      intro i hi
      simp only [slot_filled, hdesc_ne i hi]
    obtain ⟨s3, r1, r2, r3, r4, r5, r6, r7⟩ := ih fuel1 s2 ((c + 1) % N) (by omega) (by omega)
      (Nat.mod_lt _ (by omega)) hwf2
      (by
        intro j hj
        rw [hfilled_iff _ (hne_c j hj), ring_step_shift]
        exact hrun (j + 1) (by omega))
      (by
        intro j hj hx dx e1 e2
        rw [hhndl_ne _ (hne_c j hj)] at e1
        rw [hdesc_ne _ (hne_c j hj)] at e2
        rw [ring_step_shift] at e1 e2
        have := hsafe (j + 1) (by omega) hx dx e1 e2
        intro skb q1 q2 q3 q4
        rw [e_hw] at q3
        rw [e_ct] at q4
        exact this skb q1 q2 q3 q4)
      (by
        right
        rw [ring_step_shift]
        by_cases hkN2 : k + 1 = N
        · rw [hkN2, Nat.add_mod_right, Nat.mod_eq_of_lt hc]
          rintro ⟨dx, e1, e2⟩
          obtain ⟨d2, e3, e4⟩ := hdesc_c
          rw [e3] at e1
          injection e1 with e1
          rw [← e1, e4] at e2
          exact hown e2
        · rcases hstop with h0 | h1
          · omega
          · rw [hfilled_iff _ (ring_step_ne N c (k + 1) hc (by omega) (by omega))]
            exact h1)
    refine ⟨s3, ?_, r2, ?_, ?_, ?_, ?_, ?_⟩
    · rw [r1, ring_step_shift]
    · rw [r3, e_na]; omega
    · intro j hj
      cases j with
      | zero =>
        rw [hc0]
        rw [(r5 c (fun j hj => (hne_c j hj).symm)).1]
        exact hdesc_c
      | succ j =>
        have := r4 j (by omega)
        rw [ring_step_shift] at this
        exact this
    · intro i hi
      have hic : i ≠ c := by
        have := hi 0 (by omega)
        rw [hc0] at this
        exact this
      have hi2 : ∀ j, j < k → i ≠ ((c + 1) % N + j) % N := by
        intro j hj
        rw [ring_step_shift]
        exact hi (j + 1) (by omega)
      obtain ⟨q1, q2⟩ := r5 i hi2
      exact ⟨by rw [q1, hdesc_ne i hic], by rw [q2, hhndl_ne i hic]⟩
    · rw [r6, e_hw]
    · rw [r7, e_ct]

/-- On a well-formed ring whose cursor has a maximal run of `k` filled slots
ahead, none of whose frames overruns its buffer, `pcie_rx_recv` makes exactly
`k` passes (one allocation attempt each), leaves every slot of the run
driver-owned (available), leaves descriptor and handle of every other slot as
they were, and moves the cursor `k` handles forward. -/
theorem pcie_rx_recv_drains_run (cfg : Config) (env : Env) (s : State) (N c k : Nat)
    (hown : cfg.EAGLE_RXD_CTRL_DRIVER_OWN ≠ cfg.EAGLE_RXD_CTRL_DMA_OWN)
    (hwf : RingWF s N) (hcur : s.pnext_rx_hndl = some c) (hc : c < N) (hk : k ≤ N)
    (hrun : ∀ j, j < k → slot_filled cfg s ((c + j) % N))
    (hsafe : ∀ j, j < k → slot_safe cfg s ((c + j) % N))
    (hstop : k = N ∨ ¬ slot_filled cfg s ((c + k) % N)) :
    ∃ s1, pcie_rx_recv cfg env s = .ok s1 ∧
      s1.pnext_rx_hndl = some ((c + k) % N) ∧
      s1.nalloc = s.nalloc + k ∧
      (∀ j, j < k → ∃ d, rd_desc s1 (some ((c + j) % N)) = .ok d ∧
        d.rx_control = cfg.EAGLE_RXD_CTRL_DRIVER_OWN) ∧
      (∀ i, (∀ j, j < k → i ≠ (c + j) % N) →
        rd_desc s1 (some i) = rd_desc s (some i) ∧ rd_hndl s1 i = rd_hndl s i) ∧
      s1.rx_rdy_enabled = true ∧ s1.is_rx_schedule = false := by
  have hfuel : rx_fuel s = N := by
    obtain ⟨ds, hs, hds, -, hdl, -⟩ := hwf
    simp [rx_fuel, hds, hdl]
  obtain ⟨s1, r1, -, r3, r4, r5, -⟩ :=
    rx_loop_run cfg env N hown k (rx_fuel s) s c (by omega) hk hc hwf hrun hsafe hstop
  refine ⟨{ pcie_mask_int_rx_rdy { s1 with pnext_rx_hndl := some ((c + k) % N) } with
      is_rx_schedule := false }, ?_, rfl, r3, r4, r5, rfl, rfl⟩
  unfold pcie_rx_recv
  rw [hcur]
  simp only []
  rw [r1]

/-- C2, the code at the failing input: slot 0 of the three-slot ring is filled
with an encrypted frame flagged with a MIC failure whose length (40) equals the
buffer's tailroom; the length check passes, four bytes are added, `skb_put`
overruns the buffer and the drain loop stops inside its first pass: the slot
is not handed back and the cursor does not move. -/
theorem pcie_rx_recv_mmic_overrun :
    (rd_desc ring3_mmic_full (some 0)).map
        (fun d => (d.rx_control, d.status, d.channel, d.pkt_len)) = .ok (128, 0x82, 6, 40) ∧
    (rd_hndl ring3_mmic_full 0).map (fun h => h.psk_buff.map skb_tailroom) = .ok (some 40) ∧
    ring3_mmic_full.pnext_rx_hndl = some 0 ∧
    pcie_rx_recv cfg3 env_ok ring3_mmic_full = .error .skb_over :=
  ⟨rfl, rfl, rfl, rfl⟩

/-- Witness for C3: the freshly initialised three-slot ring. -/
theorem pcie_rx_recv_idle_witness :
    pcie_rx_recv cfg3 env_ok ring3
      = .ok { ring3 with rx_rdy_enabled := true, is_rx_schedule := false } :=
  (pcie_rx_recv_idle cfg3 env_ok ring3 0 0 _ _ rfl ⟨rfl, rfl, rfl⟩ (by decide)).1

set_option maxRecDepth 4000 in
/-- Witness for C7: the 36-byte encrypted frame flagged with a MIC failure.
The device left 0xAA in bytes 31 to 35 of the buffer; the frame handed to the
sink has 40 bytes, byte 31 is still 0xAA and bytes 32 to 35 are zero. -/
theorem rx_frame_patch_spec_witness :
    ∃ (skb skb1 : sk_buff) (s1 : State),
      (rd_hndl ring3_mmic36 0).map (fun h => h.psk_buff) = .ok (some skb) ∧
      skb.data.drop 31 = [0xAA, 0xAA, 0xAA, 0xAA, 0xAA, 0, 0, 0, 0] ∧
      rx_frame cfg3 ring3_mmic36 0 = .ok s1 ∧
      s1.trace = ring3_mmic36.trace ++ [.pci_unmap_single 4096, .skb_put 0 40,
                                        .ieee80211_rx (rx_strip cfg3 skb1 0)] ∧
      skb1.id = 0 ∧ skb1.len = 40 ∧
      skb1.data[31]? = some 0xAA ∧ skb1.data[32]? = some 0 ∧ skb1.data[33]? = some 0 ∧
      skb1.data[34]? = some 0 ∧ skb1.data[35]? = some 0 := by
  obtain ⟨skb1, r0, r1, r2, -, r4⟩ :=
    (rx_frame_patch_spec cfg3 ring3_mmic36 0 0 _ _ _ ⟨rfl, rfl, rfl⟩ rfl (by decide) rfl).1
      rfl (by decide)
  exact ⟨_, skb1, _, rfl, rfl, r0, rfl, r1, r2, r4 31 0xAA rfl, r4 32 0xAA rfl, r4 33 0xAA rfl,
    r4 34 0xAA rfl, r4 35 0xAA rfl⟩

/-- Witness for C8: the plain frame in slot 0, with every allocation failing. -/
theorem rx_iter_refill_nomem_witness :
    ∃ s2 h2, rx_iter cfg3 env_nomem ring3_plain 0 = .ok (s2, some 1) ∧
      rd_hndl s2 0 = .ok h2 ∧ h2.psk_buff = none := by
  obtain ⟨_, s2, h2, _, -, -, r1, -, r2, r3, -⟩ :=
    rx_iter_refill_nomem cfg3 env_nomem ring3_plain _ 0 0 _ _ ⟨rfl, rfl, rfl⟩ rfl rfl rfl
  exact ⟨s2, h2, r1, r2, r3⟩

/-- C4, counterexample: with the plain frame in slot 0 and the refill's
allocation failing, the frame is delivered and the slot is handed back, yet the
handle holds no buffer afterwards; and the encrypted frame flagged with a MIC
failure whose length equals buffer size minus headroom is not delivered at
all. -/
theorem pcie_rx_recv_deliver_cex :
    (∃ s1, pcie_rx_recv cfg3 env_nomem ring3_plain = .ok s1 ∧
      (delivered s1.trace).map (fun b => b.id) = [0] ∧
      (rd_desc s1 (some 0)).map (fun d => d.rx_control) = .ok 0 ∧
      (rd_hndl s1 0).map (fun h => h.psk_buff) = .ok none) ∧
    pcie_rx_recv cfg3 env_ok ring3_mmic_full = .error .skb_over :=
  ⟨⟨_, rfl, rfl, rfl, rfl⟩, rfl⟩

/-- Witness for C4: the 20-byte encrypted frame flagged with a MIC failure in
slot 0 of the ring of 40-byte buffers (32 bytes of room, `L + 4 = 24`), with
allocation and mapping succeeding: the buffer is handed to the sink once with
24 bytes appended. -/
theorem rx_iter_deliver_witness :
    ∃ s2 skb2, rx_iter cfg40 env_ok ring40_mmic 0 = .ok (s2, some 1) ∧ skb2.id = 0 ∧
      s2.trace = ring40_mmic.trace ++
        [.pci_unmap_single 4096, .skb_put 0 24, .ieee80211_rx skb2,
         .dev_alloc_skb (some 3), .pci_map_single 3 (some 4288)] ∧
      delivered s2.trace = delivered ring40_mmic.trace ++ [skb2] := by
  obtain ⟨s2, skb2, _, _, r1, r2, r3, r4, -⟩ :=
    rx_iter_deliver cfg40 env_ok ring40_mmic 0 0 _ _ _ ⟨rfl, rfl, rfl⟩ rfl rfl rfl (by decide)
      (by decide) rfl (by decide) (by decide)
  exact ⟨s2, skb2, r1, r2, r3, r4⟩

/-- The run theorem applies to the three-slot ring with the plain frame in
slot 0: one pass, cursor at handle 1. -/
theorem pcie_rx_recv_drains_run_witness :
    ∃ s1, pcie_rx_recv cfg3 env_ok ring3_plain = .ok s1 ∧ s1.pnext_rx_hndl = some 1 ∧
      s1.nalloc = ring3_plain.nalloc + 1 := by
  have hwf : RingWF ring3_plain 3 := by
    refine ⟨_, _, rfl, rfl, rfl, rfl, ?_⟩
    intro i hi
    interval_cases i <;> exact ⟨_, rfl, rfl, rfl⟩
  obtain ⟨s1, r1, r2, r3, -⟩ :=
    pcie_rx_recv_drains_run cfg3 env_ok ring3_plain 3 0 1 (by decide) hwf rfl (by decide)
      (by decide)
      (by
        intro j hj
        interval_cases j
        exact ⟨_, rfl, rfl⟩)
      (by
        intro j hj
        interval_cases j
        intro h d e1 e2 skb hb _ _ hp
        injection e1 with e1
        injection e2 with e2
        subst e1 e2
        injection hb with hb
        subst hb
        exact absurd hp (by decide))
      (by
        right
        rintro ⟨d, e, hd⟩
        injection e with e
        subst e
        exact absurd hd (by decide))
  exact ⟨s1, r1, r2, r3⟩

/-! ## The 0xFF tests of the decoder -/

theorem land_low_byte (s m : Nat) (hm : m < 256) : s &&& m = (s % 256) &&& m := by
  have h1 : m &&& (2 ^ 8 - 1) = m := Nat.and_pow_two_sub_one_of_lt_two_pow (by simpa using hm)
  have h2 : s &&& (2 ^ 8 - 1) = s % 2 ^ 8 := Nat.and_pow_two_sub_one_eq_mod s 8
  calc s &&& m = s &&& (m &&& (2 ^ 8 - 1)) := by rw [h1]
    _ = (s &&& (2 ^ 8 - 1)) &&& m := by
        rw [Nat.and_comm m, Nat.and_assoc]
    _ = (s % 256) &&& m := by rw [h2]; rfl

set_option maxRecDepth 100000 in
theorem byte_mask_test : ∀ t, t < 256 →
    (t &&& 0x8E = 0x82 ↔ (t &&& 0x80 ≠ 0 ∧ t &&& 0x02 ≠ 0 ∧ t &&& 0x04 = 0 ∧ t &&& 0x08 = 0)) := by
  decide

/-- For every status value the mask test `(s & 0x8E) == 0x82` says: error bit
and MIC bit set, both ICV bits clear. -/
theorem mask_test_bits (s : Nat) :
    s &&& 0x8E = 0x82 ↔ (s &&& 0x80 ≠ 0 ∧ s &&& 0x02 ≠ 0 ∧ s &&& 0x04 = 0 ∧ s &&& 0x08 = 0) := by
  rw [land_low_byte s 0x8E (by decide), land_low_byte s 0x80 (by decide),
    land_low_byte s 0x02 (by decide), land_low_byte s 0x04 (by decide),
    land_low_byte s 0x08 (by decide)]
  exact byte_mask_test (s % 256) (Nat.mod_lt _ (by decide))

/-- C20: the two comparisons against 0xFF in `pcie_rx_status` are redundant:
for every status value the decoder as written computes the same receive status
as the decoder with both comparisons removed, and it sets the MMIC-error flag
exactly when `(s & 0x8E) == 0x82`. -/
theorem pcie_rx_status_ff_redundant (cfg : Config) (chip : Nat) (d : pcie_rx_desc) :
    pcie_rx_status cfg chip d = pcie_rx_status_without_ff cfg chip d ∧
    ((pcie_rx_status cfg chip d).flag &&& RX_FLAG_MMIC_ERROR ≠ 0 ↔
      mmic_mask_test d.status = true) := by
  constructor
  · unfold pcie_rx_status pcie_rx_status_without_ff
    by_cases h1 : d.status = GENERAL_DECRYPT_ERR
    · have e1 : d.status &&& DECRYPT_ERR_MASK ≠ 0 := by rw [h1]; decide
      have e2 : d.status &&& (WEP_DECRYPT_ICV_ERR ||| TKIP_DECRYPT_ICV_ERR) ≠ 0 := by
        rw [h1]; decide
      simp only [h1, e1, e2, ne_eq, not_true_eq_false, not_false_eq_true, true_or, if_true,
        if_false, and_false]
      rw [h1] at e1 e2
      simp only [ne_eq] at e1 e2
      simp only [e1, e2, not_false_eq_true, not_true_eq_false, and_false, if_true, if_false]
    · simp only [h1, ne_eq, not_false_eq_true, false_or, if_true]
  · rw [pcie_rx_status_flag]
    have hm := mask_test_bits d.status
    simp only [mmic_mask_test, beq_iff_eq]
    rw [hm]
    constructor
    · intro h
      split_ifs at h with hc
      · exact ⟨hc.2.1, hc.2.2.1, hc.2.2.2.1, hc.2.2.2.2⟩
      · simp at h
    · rintro ⟨a, b, c, e⟩
      have hne : d.status ≠ 0xFF := by
        intro h
        rw [h] at c
        exact absurd c (by decide)
      rw [if_pos ⟨hne, a, b, c, e⟩]
      decide

/-! ## Signal strength -/

set_option maxRecDepth 8000 in
theorem pcie_rx_status_signal_eq (cfg : Config) (chip : Nat) (d : pcie_rx_desc) :
    (pcie_rx_status cfg chip d).signal =
      if chip = cfg.MWL8997 then to_s8 d.rssi
      else to_s8 (-((d.rssi : Int) + W836X_RSSI_OFFSET)) := by
  unfold pcie_rx_status pcie_rx_prepare_status
  split_ifs <;> rfl

/-- C17, counterexample: on a chip other than the 8997 a raw rssi of 121 gives
the signal 127, neither `-(121 + 8)` nor negative. -/
theorem pcie_rx_status_signal_wraps :
    cfg3.MWL8997 ≠ 0 ∧ (pcie_rx_status cfg3 0 { rssi := 121 }).signal = 127 := by
  constructor
  · decide
  · rfl

/-- C17, as the code has it: for every raw rssi byte `r` the stored signal is,
on the 8997, `r` read as a signed 8-bit value; on every other chip `-(r + 8)`
converted to the signed 8-bit signal field, which is exactly `-(r + 8)` (and
negative) for `r ≤ 120` and the wrapped value `248 - r` for `r ≥ 121`. -/
theorem pcie_rx_status_signal (cfg : Config) (chip : Nat) (d : pcie_rx_desc)
    (hr : d.rssi < 256) :
    (chip = cfg.MWL8997 →
      (pcie_rx_status cfg chip d).signal =
        if d.rssi < 128 then (d.rssi : Int) else (d.rssi : Int) - 256) ∧
    (chip ≠ cfg.MWL8997 →
      (d.rssi ≤ 120 →
        (pcie_rx_status cfg chip d).signal = -((d.rssi : Int) + 8) ∧
        (pcie_rx_status cfg chip d).signal < 0) ∧
      (121 ≤ d.rssi → (pcie_rx_status cfg chip d).signal = 248 - (d.rssi : Int))) := by
  rw [pcie_rx_status_signal_eq]
  have hw : ((W836X_RSSI_OFFSET : Nat) : Int) = 8 := rfl
  refine ⟨?_, ?_⟩
  · intro hc
    rw [if_pos hc]
    simp only [to_s8]
    split_ifs <;> omega
  · intro hc
    rw [if_neg hc, hw]
    refine ⟨?_, ?_⟩
    · intro h120
      simp only [to_s8]
      split_ifs <;> omega
    · intro h121
      simp only [to_s8]
      split_ifs <;> omega

/-- Witness for C17: rssi 40 on a chip other than the 8997. -/
theorem pcie_rx_status_signal_witness :
    (pcie_rx_status cfg3 0 { rssi := 40 }).signal = -48 := by
  have h := (pcie_rx_status_signal cfg3 0 { rssi := 40 } (by decide)).2 (by decide)
  have h2 := (h.1 (by decide)).1
  rw [h2]
  rfl

/-! ## Buffer binding and ring topology after set-up -/

/-- C11: when `pcie_rx_refill` succeeds for a slot it returns 0; the handle
then holds the freshly allocated buffer with the headroom reserved and keeps
its back and forward references; the descriptor has status OK, queue tag 0,
channel 0, rssi 0, the buffer size as length and the mapped address as buffer
address (as stored in the 16-bit and 32-bit fields: the values themselves when
they fit), and keeps ownership, rate, noise floor and next address. -/
theorem pcie_rx_refill_success_spec (cfg : Config) (env : Env) (s : State) (hi di : Nat)
    (h : pcie_rx_hndl) (d : pcie_rx_desc) (slack dma : Nat) (hsl : SlotAt s hi h di d)
    (ha : env.alloc s.nalloc = some slack) (hm : env.map s.nmap = some dma) :
    ∃ s1 h1 d1, pcie_rx_refill cfg env s hi = .ok (s1, 0) ∧
      rd_hndl s1 hi = .ok h1 ∧ rd_desc s1 (some di) = .ok d1 ∧
      h1.psk_buff = some (skb_reserve (dev_alloc_skb cfg s.nalloc s.rx_buf_size slack)
                            cfg.PCIE_MIN_BYTES_HEADROOM) ∧
      h1.pdesc = h.pdesc ∧ h1.pnext = h.pnext ∧
      d1.status = cfg.EAGLE_RXD_STATUS_OK ∧ d1.qos_ctrl = 0 ∧ d1.channel = 0 ∧ d1.rssi = 0 ∧
      d1.pkt_len = s.rx_buf_size % 65536 ∧
      (s.rx_buf_size < 65536 → d1.pkt_len = s.rx_buf_size) ∧
      d1.pphys_buff_data = dma % 4294967296 ∧
      (dma < 4294967296 → d1.pphys_buff_data = dma) ∧
      d1.rx_control = d.rx_control ∧ d1.rate = d.rate ∧ d1.noise_floor = d.noise_floor ∧
      d1.pphys_next = d.pphys_next := by
  obtain ⟨e1, hp, e2⟩ := hsl
  obtain ⟨hs, hhs, hh⟩ := rd_hndl_ok e1
  obtain ⟨ds, hds, hd⟩ := rd_desc_ok e2
  have hlt : di < ds.length := (List.getElem?_eq_some.mp hd).1
  have hlt2 : hi < hs.length := (List.getElem?_eq_some.mp hh).1
  refine ⟨_,
    { h with psk_buff := some (skb_reserve (dev_alloc_skb cfg s.nalloc s.rx_buf_size slack)
        cfg.PCIE_MIN_BYTES_HEADROOM) },
    { d with status := cfg.EAGLE_RXD_STATUS_OK, qos_ctrl := 0, channel := 0, rssi := 0,
             pkt_len := s.rx_buf_size % 65536, pphys_buff_data := dma % 4294967296 },
    pcie_rx_refill_success cfg env s hi di hs h ds d slack dma hhs hh hp hds hd ha hm,
    rd_hndl_some rfl (by rw [List.getElem?_set]; simp [hlt2]),
    rd_desc_some rfl (by rw [List.getElem?_set]; simp [hlt]),
    rfl, rfl, rfl, rfl, rfl, rfl, rfl, rfl, ?_, rfl, ?_, rfl, rfl, rfl, rfl⟩
  · intro hb
    exact Nat.mod_eq_of_lt hb
  · intro hb
    exact Nat.mod_eq_of_lt hb

/-- Witness for C11: slot 0 of the three-slot ring. -/
theorem pcie_rx_refill_success_spec_witness :
    ∃ s1, pcie_rx_refill cfg3 env_ok ring3 0 = .ok (s1, 0) := by
  obtain ⟨s1, _, _, r, -⟩ :=
    pcie_rx_refill_success_spec cfg3 env_ok ring3 0 0 _ _ 0 4288 ⟨rfl, rfl, rfl⟩ rfl rfl
  exact ⟨s1, r⟩

/-- The state `pcie_rx_ring_init` returns on an allocated ring when every
allocation and mapping succeeds: the state `s1` after the slot loop with the
last descriptor's next address and the last handle's forward reference closed
to slot 0 and the cursor at handle 0. -/
theorem pcie_rx_ring_init_result (cfg : Config) (env : Env) (s : State)
    (ds : List pcie_rx_desc) (hs : List pcie_rx_hndl)
    (hN : 1 ≤ cfg.PCIE_MAX_NUM_RX_DESC)
    (hds : s.prx_ring = some ds) (hdl : ds.length = cfg.PCIE_MAX_NUM_RX_DESC)
    (hhs : s.rx_hndl = some hs) (hhl : hs.length = cfg.PCIE_MAX_NUM_RX_DESC)
    (halloc : ∀ k, k < cfg.PCIE_MAX_NUM_RX_DESC → (env.alloc (s.nalloc + k)).isSome)
    (hmap : ∀ k, k < cfg.PCIE_MAX_NUM_RX_DESC → (env.map (s.nmap + k)).isSome) :
    ∃ s1 ds1 hs1 dl hl,
      RingInit cfg env s.nalloc s.nmap s.pphys_rx_ring cfg.PCIE_MAX_NUM_RX_DESC s1 ∧
      s1.prx_ring = some ds1 ∧ s1.rx_hndl = some hs1 ∧
      ds1[cfg.PCIE_MAX_NUM_RX_DESC - 1]? = some dl ∧
      hs1[cfg.PCIE_MAX_NUM_RX_DESC - 1]? = some hl ∧
      pcie_rx_ring_init cfg env s = .ok
        ({ s1 with
            prx_ring := some (ds1.set (cfg.PCIE_MAX_NUM_RX_DESC - 1)
              { dl with pphys_next := s.pphys_rx_ring % 4294967296 }),
            rx_hndl := some (hs1.set (cfg.PCIE_MAX_NUM_RX_DESC - 1) { hl with pnext := some 0 }),
            pnext_rx_hndl := some 0 }, 0) := by
  obtain ⟨s1, hloop, hinit⟩ :=
    ring_init_loop_ok cfg env s.nalloc s.nmap s.pphys_rx_ring halloc hmap
      cfg.PCIE_MAX_NUM_RX_DESC 0 { s with rx_buf_size := cfg.SYSADPT_MAX_AGGR_SIZE }
      (by omega) ⟨ds, hs, hds, hhs, hdl, hhl, rfl, rfl, rfl, rfl, fun j hj => by omega⟩
  obtain ⟨ds1, hs1, hds1, hhs1, hdl1, hhl1, q1, q2, q3, q4, hsl⟩ := hinit
  have hlast : cfg.PCIE_MAX_NUM_RX_DESC - 1 < cfg.PCIE_MAX_NUM_RX_DESC := by omega
  obtain ⟨dl, hl, hdlast, hhlast, -⟩ := hsl _ hlast
  refine ⟨s1, ds1, hs1, dl, hl, ⟨ds1, hs1, hds1, hhs1, hdl1, hhl1, q1, q2, q3, q4, hsl⟩,
    hds1, hhs1, hdlast, hhlast, ?_⟩
  have hloop1 := hloop
  simp only [hds, hhs] at hloop1
  simp [pcie_rx_ring_init, hds, hhs, hloop1, rd_desc, rd_hndl, wr_desc, wr_hndl, hds1, hhs1,
    hdlast, hhlast, hlast, hhl1]

/-- C14: after a successful `pcie_rx_ring_init` the next address of every
descriptor `i < N` is the bus address of descriptor `(i + 1) mod N`, that is
`base + ((i + 1) mod N) * sizeof(descriptor)` taken modulo 2^32; the last
descriptor points back to `base`. -/
theorem pcie_rx_ring_init_next (cfg : Config) (env : Env) (s : State)
    (ds : List pcie_rx_desc) (hs : List pcie_rx_hndl)
    (hN : 1 ≤ cfg.PCIE_MAX_NUM_RX_DESC)
    (hds : s.prx_ring = some ds) (hdl : ds.length = cfg.PCIE_MAX_NUM_RX_DESC)
    (hhs : s.rx_hndl = some hs) (hhl : hs.length = cfg.PCIE_MAX_NUM_RX_DESC)
    (halloc : ∀ k, k < cfg.PCIE_MAX_NUM_RX_DESC → (env.alloc (s.nalloc + k)).isSome)
    (hmap : ∀ k, k < cfg.PCIE_MAX_NUM_RX_DESC → (env.map (s.nmap + k)).isSome) :
    ∃ s2, pcie_rx_ring_init cfg env s = .ok (s2, 0) ∧
      s2.pphys_rx_ring = s.pphys_rx_ring ∧
      (∀ i, i < cfg.PCIE_MAX_NUM_RX_DESC → ∃ d, rd_desc s2 (some i) = .ok d ∧
        d.pphys_next = (s.pphys_rx_ring +
          ((i + 1) % cfg.PCIE_MAX_NUM_RX_DESC) * cfg.sizeof_pcie_rx_desc) % 4294967296) ∧
      (∃ d, rd_desc s2 (some (cfg.PCIE_MAX_NUM_RX_DESC - 1)) = .ok d ∧
        d.pphys_next = s.pphys_rx_ring % 4294967296) := by
  obtain ⟨s1, ds1, hs1, dl, hl, hinit, hds1, hhs1, hdlast, hhlast, hrun⟩ :=
    pcie_rx_ring_init_result cfg env s ds hs hN hds hdl hhs hhl halloc hmap
  obtain ⟨ds1a, hs1a, hds1a, -, hdl1, -, -, -, -, hpp, hsl⟩ := hinit
  have hdd : ds1a = ds1 := by rw [hds1] at hds1a; injection hds1a with e; exact e.symm
  subst hdd
  have hlast : cfg.PCIE_MAX_NUM_RX_DESC - 1 < cfg.PCIE_MAX_NUM_RX_DESC := by omega
  refine ⟨_, hrun, hpp, ?_, ?_⟩
  · intro i hi
    by_cases hil : i = cfg.PCIE_MAX_NUM_RX_DESC - 1
    · refine ⟨{ dl with pphys_next := s.pphys_rx_ring % 4294967296 },
        rd_desc_some rfl (by rw [List.getElem?_set]; simp [hil, hdl1, hlast]), ?_⟩
      have : i + 1 = cfg.PCIE_MAX_NUM_RX_DESC := by omega
      rw [this, Nat.mod_self]
      simp
    · obtain ⟨d, h, e1, -, -, -, -, -, -, -, -, c8, -⟩ := hsl i hi
      refine ⟨d, rd_desc_some rfl (by simp [List.getElem?_set, Ne.symm hil, e1]), ?_⟩
      rw [c8 (by omega), Nat.mod_eq_of_lt (by omega : i + 1 < cfg.PCIE_MAX_NUM_RX_DESC)]
      exact Nat.mod_add_mod _ _ _
  · exact ⟨{ dl with pphys_next := s.pphys_rx_ring % 4294967296 },
      rd_desc_some rfl (by rw [List.getElem?_set]; simp [hdl1, hlast]), rfl⟩

/-- Witness for C14: the three-slot ring straight after allocation. -/
theorem pcie_rx_ring_init_next_witness :
    ∃ s2, pcie_rx_ring_init cfg3 env_ok (pcie_rx_ring_alloc cfg3 env_ok {}).1 = .ok (s2, 0) ∧
      (rd_desc s2 (some 2)).map (fun d => d.pphys_next) = .ok 1024 := by
  obtain ⟨s2, r1, -, -, d, r2, r3⟩ :=
    pcie_rx_ring_init_next cfg3 env_ok (pcie_rx_ring_alloc cfg3 env_ok {}).1
      (List.replicate 3 {}) (List.replicate 3 {}) (by decide) rfl rfl rfl rfl
      (fun _ _ => rfl) (fun _ _ => rfl)
  refine ⟨s2, r1, ?_⟩
  have e : cfg3.PCIE_MAX_NUM_RX_DESC - 1 = 2 := rfl
  rw [e] at r2
  rw [r2]
  simp only [Except.map]
  rw [r3]
  rfl

/-! ## Descriptor after one pass, and the length check -/

/-- C16, counterexample: the encrypted frame flagged with a MIC failure in
slot 0 is delivered, the refill's allocation fails, and the descriptor ends
driver-owned with queue tag 0 but with the status the device wrote (0x82),
not OK (1). -/
theorem rx_iter_nomem_keeps_status :
    ∃ s2, rx_iter cfg3 env_nomem ring3_mmic 0 = .ok (s2, some 1) ∧
      (rd_desc s2 (some 0)).map (fun d => (d.rx_control, d.qos_ctrl, d.status))
        = .ok (0, 0, 0x82) ∧
      cfg3.EAGLE_RXD_STATUS_OK = 1 :=
  ⟨_, rfl, rfl, rfl⟩

/-- C16, as the code has it: after a pass of the loop body that has reached
the label `out`, whether the frame was delivered or dropped and whatever the
refill did, the slot's descriptor is driver-owned (available) with queue tag 0;
its status is OK when the refill's buffer allocation succeeded (also when the
mapping then failed) and is the status it had before the pass when the
allocation failed. -/
theorem rx_iter_desc_after (cfg : Config) (env : Env) (s s1 : State) (cur di : Nat)
    (h : pcie_rx_hndl) (d : pcie_rx_desc) (hsl : SlotAt s cur h di d)
    (hfill : d.rx_control = cfg.EAGLE_RXD_CTRL_DMA_OWN)
    (hfr : rx_frame cfg s cur = .ok s1) :
    ∃ s2 d2, rx_iter cfg env s cur = .ok (s2, h.pnext) ∧
      rd_desc s2 (some di) = .ok d2 ∧
      d2.rx_control = cfg.EAGLE_RXD_CTRL_DRIVER_OWN ∧ d2.qos_ctrl = 0 ∧
      (env.alloc s.nalloc ≠ none → d2.status = cfg.EAGLE_RXD_STATUS_OK) ∧
      (env.alloc s.nalloc = none → d2.status = d.status) ∧
      ∀ fuel, rx_loop cfg env (fuel + 1) s (some cur) = rx_loop cfg env fuel s2 h.pnext := by
  obtain ⟨hs, hhs, hh⟩ := rd_hndl_ok hsl.1
  obtain ⟨ds, hds, hd⟩ := rd_desc_ok hsl.2.2
  have hlt : di < ds.length := (List.getElem?_eq_some.mp hd).1
  obtain ⟨k1, k2, k3, k4, k5⟩ := rx_frame_keeps cfg s s1 cur hfr
  have hhs1 : s1.rx_hndl = some hs := by rw [k1, hhs]
  have hds1 : s1.prx_ring = some ds := by rw [k2, hds]
  have hit := rx_iter_eq cfg env s s1 cur di hs h ds d hfr hhs1 hh hsl.2.1 hds1 hd
  refine ⟨_, { (refill_outcome cfg env s1 d).desc with
      rx_control := cfg.EAGLE_RXD_CTRL_DRIVER_OWN, qos_ctrl := 0 }, hit, ?_, rfl, rfl, ?_, ?_, ?_⟩
  · exact rd_desc_some rfl (by rw [List.getElem?_set]; simp [hlt])
  · intro ha
    rw [← k3] at ha
    cases hal : env.alloc s1.nalloc with
    | none => exact absurd hal ha
    | some slack =>
      cases hm : env.map s1.nmap with
      | none => simp [refill_outcome, hal, hm]
      | some dma => simp [refill_outcome, hal, hm]
  · intro ha
    rw [← k3] at ha
    simp [refill_outcome, ha]
  · intro fuel
    exact rx_loop_step cfg env fuel s _ cur di h d h.pnext hsl hfill hit

/-- Witness for C16: the plain frame in slot 0 with every allocation succeeding. -/
theorem rx_iter_desc_after_witness :
    ∃ s2 d2, rx_iter cfg3 env_ok ring3_plain 0 = .ok (s2, some 1) ∧
      rd_desc s2 (some 0) = .ok d2 ∧ d2.status = 1 := by
  obtain ⟨s2, d2, r1, r2, -, -, r3, -⟩ :=
    rx_iter_desc_after cfg3 env_ok ring3_plain _ 0 0 _ _ ⟨rfl, rfl, rfl⟩ rfl rfl
  exact ⟨s2, d2, r1, r2, r3 (by decide)⟩

/-- C18, the code at the failing input: for the encrypted frame flagged with a
MIC failure whose length (40) equals the tailroom of its buffer (40), the
length check of the loop body passes, the frame takes the patch path, and the
length handed to `skb_put` is 44: more than the tailroom, so `skb_put` stops
with an overrun. -/
theorem rx_frame_put_exceeds_tailroom :
    ∃ h d skb, rd_hndl ring3_mmic_full 0 = .ok h ∧ h.psk_buff = some skb ∧
      rd_desc ring3_mmic_full h.pdesc = .ok d ∧
      d.pkt_len = 40 ∧ skb_tailroom skb = 40 ∧
      ¬ (skb_tailroom skb < (d.pkt_len : Int)) ∧
      d.channel = ring3_mmic_full.hw_value ∧
      mmic_patch cfg3 ring3_mmic_full.chip_type d skb = true ∧
      skb_put skb (d.pkt_len + 4) = .error .skb_over ∧
      rx_fill cfg3 ring3_mmic_full.chip_type d skb = .error .skb_over ∧
      rx_frame cfg3 ring3_mmic_full 0 = .error .skb_over :=
  ⟨_, _, _, rfl, rfl, rfl, rfl, rfl, by decide, rfl, rfl, rfl, rfl, rfl⟩

/-! ## Set-up failures and tear-down -/

/-- What `pcie_rx_ring_alloc` does in each of its three cases: both
allocations succeed (zeroed arrays, 0); the descriptor block cannot be
allocated (`-ENOMEM`, block reference `NULL`); the handle array cannot be
allocated (`-ENOMEM`, handle reference `NULL`, the block is released and its
reference is left as it was set). -/
theorem pcie_rx_ring_alloc_cases (cfg : Config) (env : Env) (s : State) :
    (∀ a, env.dma_alloc = some a → env.kzalloc = true →
      pcie_rx_ring_alloc cfg env s =
        ({ s with prx_ring := some (List.replicate cfg.PCIE_MAX_NUM_RX_DESC {}),
                  pphys_rx_ring := a,
                  rx_hndl := some (List.replicate cfg.PCIE_MAX_NUM_RX_DESC {}),
                  trace := s.trace ++ [.dma_alloc_coherent (some a), .kzalloc true] }, 0)) ∧
    (env.dma_alloc = none →
      pcie_rx_ring_alloc cfg env s =
        ({ s with prx_ring := none, trace := s.trace ++ [.dma_alloc_coherent none] },
          -ENOMEM)) ∧
    (∀ a, env.dma_alloc = some a → env.kzalloc = false →
      pcie_rx_ring_alloc cfg env s =
        ({ s with prx_ring := some (List.replicate cfg.PCIE_MAX_NUM_RX_DESC {}),
                  pphys_rx_ring := a,
                  rx_hndl := none,
                  trace := s.trace ++ [.dma_alloc_coherent (some a), .kzalloc false,
                                       .dma_free_coherent a] }, -ENOMEM)) := by
  refine ⟨?_, ?_, ?_⟩
  · intro a h1 h2
    simp [pcie_rx_ring_alloc, h1, h2, emit]
  · intro h1
    simp [pcie_rx_ring_alloc, h1, emit]
  · intro a h1 h2
    simp [pcie_rx_ring_alloc, h1, h2, emit]

/-- C12, the code at the failing input: when the descriptor block is allocated
and the handle array is not, `pcie_rx_ring_alloc` releases the block and
returns `-ENOMEM`, but the state still refers to the released block
(`prx_ring` is not `NULL`) while `rx_hndl` is `NULL`; tear-down, which tests
`prx_ring`, then works on the partial ring and dereferences the `NULL` handle
array. -/
theorem pcie_rx_ring_alloc_keeps_freed_block :
    (pcie_rx_ring_alloc cfg3 env_nohndl {}).2 = -ENOMEM ∧
    (pcie_rx_ring_alloc cfg3 env_nohndl {}).1.trace =
      [.dma_alloc_coherent (some 1024), .kzalloc false, .dma_free_coherent 1024] ∧
    (pcie_rx_ring_alloc cfg3 env_nohndl {}).1.prx_ring = some (List.replicate 3 {}) ∧
    (pcie_rx_ring_alloc cfg3 env_nohndl {}).1.rx_hndl = none ∧
    pcie_rx_ring_cleanup cfg3 (pcie_rx_ring_alloc cfg3 env_nohndl {}).1 = .error .null_deref ∧
    pcie_rx_deinit cfg3 (pcie_rx_ring_alloc cfg3 env_nohndl {}).1 = .error .null_deref :=
  ⟨rfl, rfl, rfl, rfl, rfl, rfl⟩

/-- C13, the code at the failing input: when the mapping of slot 1's buffer
fails during slot initialisation, `pcie_rx_ring_init` returns `-ENOMEM` with
the handle of slot 1 holding its buffer and no descriptor reference; the
roll-back in `pcie_rx_init` then stops with a `NULL` dereference instead of
returning an error.  (With the allocation of slot 1 failing instead, the
roll-back completes: `-ENOMEM`, buffer 0 unmapped and released once, no handle
holds a buffer, block reference and cursor unset.) -/
theorem pcie_rx_init_maperr_rollback_faults :
    pcie_rx_init cfg3 env_maperr_slot1 {} = .error .null_deref ∧
    (∃ s1, pcie_rx_init cfg3 env_nomem_slot1 {} = .ok (s1, -ENOMEM) ∧
      released s1.trace = [0] ∧ unmapped s1.trace = [4096] ∧
      s1.rx_hndl.map (fun hs => hs.map (fun h => h.psk_buff)) = some [none, none, none] ∧
      s1.prx_ring = none ∧ s1.pnext_rx_hndl = none) :=
  ⟨rfl, _, rfl, rfl, rfl, rfl, rfl, rfl⟩

/-- The tear-down after a mapping failure: after slot initialisation failed at
the mapping of slot 1's buffer, the handle of slot 1 still holds that buffer,
which was never mapped, and refers to no descriptor.  `pcie_rx_ring_cleanup`
unmaps and releases slot 0; for slot 1 it does not skip the slot but goes on to
read the unmap address through the `NULL` descriptor reference and stops
there, before any unmap is issued for the slot. -/
theorem pcie_rx_ring_cleanup_unmapped_slot :
    ∃ s1, pcie_rx_ring_init cfg3 env_maperr_slot1 (pcie_rx_ring_alloc cfg3 env_maperr_slot1 {}).1
        = .ok (s1, -ENOMEM) ∧
      s1.trace = [.dma_alloc_coherent (some 1024), .kzalloc true,
                  .dev_alloc_skb (some 0), .pci_map_single 0 (some 4096),
                  .dev_alloc_skb (some 1), .pci_map_single 1 none] ∧
      (rd_hndl s1 1).map (fun h => (h.psk_buff.map (fun b => b.id), h.pdesc))
        = .ok (some 1, none) ∧
      (ring_cleanup_slot s1 0).map (fun s2 => s2.trace.drop 6)
        = .ok [.pci_unmap_single 4096, .dev_kfree_skb_any 0] ∧
      ring_cleanup_slot s1 1 = .error .null_deref ∧
      pcie_rx_ring_cleanup cfg3 s1 = .error .null_deref :=
  ⟨_, rfl, rfl, rfl, rfl, rfl, rfl⟩

/-! ## Ownership is only ever handed back -/

theorem OwnKept.refl (cfg : Config) (s : State) : OwnKept cfg s s :=
  fun _ d e => ⟨d, e, Or.inl rfl⟩

theorem OwnKept.trans {cfg : Config} {s s1 s2 : State} (h1 : OwnKept cfg s s1)
    (h2 : OwnKept cfg s1 s2) : OwnKept cfg s s2 := by
  intro i d e
  obtain ⟨d1, e1, r1⟩ := h1 i d e
  obtain ⟨d2, e2, r2⟩ := h2 i d1 e1
  refine ⟨d2, e2, ?_⟩
  rcases r2 with r2 | r2
  · rcases r1 with r1 | r1
    · exact Or.inl (r2.trans r1)
    · exact Or.inr (r2.trans r1)
  · exact Or.inr r2

theorem OwnKept.of_ring_eq (cfg : Config) {s s1 : State} (h : s1.prx_ring = s.prx_ring) :
    OwnKept cfg s s1 := by
  intro i d e
  refine ⟨d, ?_, Or.inl rfl⟩
  unfold rd_desc at e ⊢
  rw [h]
  exact e

theorem OwnKept.wr_desc (cfg : Config) (s : State) (i : Nat) (d1 : pcie_rx_desc)
    (h : ∀ d0, rd_desc s (some i) = .ok d0 →
      d1.rx_control = d0.rx_control ∨ d1.rx_control = cfg.EAGLE_RXD_CTRL_DRIVER_OWN) :
    OwnKept cfg s (wr_desc s i d1) := by
  intro j d e
  obtain ⟨ds, hds, hd⟩ := rd_desc_ok e
  have hlt : j < ds.length := (List.getElem?_eq_some.mp hd).1
  by_cases hij : i = j
  · subst hij
    exact ⟨d1, by simp [rd_desc, Mwlwifi.wr_desc, hds, List.getElem?_set, hlt], h d e⟩
  · exact ⟨d, by simp [rd_desc, Mwlwifi.wr_desc, hds, List.getElem?_set, hij, hd], Or.inl rfl⟩

theorem pcie_rx_refill_own (cfg : Config) (env : Env) (s s1 : State) (hi : Nat) (rc : Int)
    (e : pcie_rx_refill cfg env s hi = .ok (s1, rc)) : OwnKept cfg s s1 := by
  cases e1 : rd_hndl s hi with
  | error f => simp [pcie_rx_refill, e1] at e
  | ok h =>
    obtain ⟨hs, hhs, hh⟩ := rd_hndl_ok e1
    cases ha : env.alloc s.nalloc with
    | none =>
      rw [pcie_rx_refill_nomem cfg env s hi hs h hhs hh ha] at e
      injection e with e
      injection e with e _
      rw [← e]
      exact OwnKept.of_ring_eq cfg rfl
    | some slack =>
      cases hp : h.pdesc with
      | none => simp [pcie_rx_refill, e1, ha, hp, rd_desc] at e
      | some di =>
        cases hr : s.prx_ring with
        | none => simp [pcie_rx_refill, e1, ha, hp, rd_desc, emit, wr_hndl, hr] at e
        | some ds =>
          cases hd : ds[di]? with
          | none => simp [pcie_rx_refill, e1, ha, hp, rd_desc, emit, wr_hndl, hr, hd] at e
          | some d =>
            rw [pcie_rx_refill_eq cfg env s hi di hs h ds d hhs hh hp hr hd] at e
            injection e with e
            injection e with e _
            rw [← e]
            have hw := OwnKept.wr_desc cfg s di (refill_outcome cfg env s d).desc (by
              intro d0 e0
              have : d0 = d := by
                simp [rd_desc, hr, hd] at e0
                exact e0.symm
              subst this
              left
              unfold refill_outcome
              rw [ha]
              cases env.map s.nmap <;> rfl)
            refine OwnKept.trans hw (OwnKept.of_ring_eq cfg ?_)
            simp [Mwlwifi.wr_desc, hr]

/-- One pass of the receive loop writes only driver ownership. -/
theorem rx_iter_own (cfg : Config) (env : Env) (s s3 : State) (cur : Nat) (nxt : Option Nat)
    (e : rx_iter cfg env s cur = .ok (s3, nxt)) : OwnKept cfg s s3 := by
  unfold rx_iter at e
  cases hf : rx_frame cfg s cur with
  | error f => simp [hf] at e
  | ok s1 =>
    have k := (rx_frame_keeps cfg s s1 cur hf).2.1
    cases hr : pcie_rx_refill cfg env s1 cur with
    | error f => simp [hf, hr] at e
    | ok r =>
      obtain ⟨s2, rc⟩ := r
      have o12 := pcie_rx_refill_own cfg env s1 s2 cur rc hr
      cases hh : rd_hndl s2 cur with
      | error f => simp [hf, hr, hh] at e
      | ok h =>
        cases hp : h.pdesc with
        | none =>
          cases hd : rd_desc s2 none with
          | error f => simp [hf, hr, hh, hp, hd] at e
          | ok d => simp [hf, hr, hh, hp, hd] at e
        | some di =>
          cases hd : rd_desc s2 (some di) with
          | error f => simp [hf, hr, hh, hp, hd] at e
          | ok d =>
            simp only [hf, hr, hh, hp, hd, Except.ok.injEq, Prod.mk.injEq] at e
            rw [← e.1]
            exact OwnKept.trans (OwnKept.of_ring_eq cfg k)
              (OwnKept.trans o12 (OwnKept.wr_desc cfg s2 di _ (fun _ _ => Or.inr rfl)))

/-- The loop with no fuel left, unfolded once. -/
theorem rx_loop_zero_eq (cfg : Config) (env : Env) (s : State) (cur : Option Nat) :
    rx_loop cfg env 0 s cur =
      (match rx_cond cfg s cur with
       | .error f => .error f
       | .ok false => .ok (s, cur)
       | .ok true => .error .fuel) := rfl

/-- The loop with fuel left, unfolded once. -/
theorem rx_loop_succ_eq (cfg : Config) (env : Env) (fuel : Nat) (s : State) (cur : Option Nat) :
    rx_loop cfg env (fuel + 1) s cur =
      (match rx_cond cfg s cur with
       | .error f => .error f
       | .ok false => .ok (s, cur)
       | .ok true =>
         match cur with
         | none => .error .null_deref
         | some c =>
           match rx_iter cfg env s c with
           | .error f => .error f
           | .ok (s1, nxt) => rx_loop cfg env fuel s1 nxt) := rfl

/-- The receive loop writes only driver ownership. -/
theorem rx_loop_own (cfg : Config) (env : Env) :
    ∀ (fuel : Nat) (s s1 : State) (cur nxt : Option Nat),
      rx_loop cfg env fuel s cur = .ok (s1, nxt) → OwnKept cfg s s1 := by
  intro fuel
  induction fuel with
  | zero =>
    intro s s1 cur nxt e
    rw [rx_loop_zero_eq] at e
    cases hc : rx_cond cfg s cur with
    | error f => simp [hc] at e
    | ok b =>
      cases b with
      | false =>
        simp only [hc, Except.ok.injEq, Prod.mk.injEq] at e
        rw [← e.1]
        exact OwnKept.refl cfg s
      | true => simp [hc] at e
  | succ n ih =>
    intro s s1 cur nxt e
    rw [rx_loop_succ_eq] at e
    cases hc : rx_cond cfg s cur with
    | error f => simp [hc] at e
    | ok b =>
      cases b with
      | false =>
        simp only [hc, Except.ok.injEq, Prod.mk.injEq] at e
        rw [← e.1]
        exact OwnKept.refl cfg s
      | true =>
        cases cur with
        | none => simp [hc] at e
        | some c =>
          cases hi : rx_iter cfg env s c with
          | error f => simp [hc, hi] at e
          | ok r =>
            obtain ⟨s2, n2⟩ := r
            simp only [hc, hi] at e
            exact OwnKept.trans (rx_iter_own cfg env s s2 c n2 hi) (ih s2 s1 n2 nxt e)

/-- The receive routine writes only driver ownership. -/
theorem pcie_rx_recv_own (cfg : Config) (env : Env) (s s1 : State)
    (e : pcie_rx_recv cfg env s = .ok s1) : OwnKept cfg s s1 := by
  unfold pcie_rx_recv at e
  cases hc : s.pnext_rx_hndl with
  | none =>
    simp only [hc, Except.ok.injEq] at e
    rw [← e]
    exact OwnKept.of_ring_eq cfg rfl
  | some c =>
    cases hl : rx_loop cfg env (rx_fuel s) s (some c) with
    | error f => simp [hc, hl] at e
    | ok r =>
      obtain ⟨s2, cur⟩ := r
      simp only [hc, hl, Except.ok.injEq] at e
      rw [← e]
      exact OwnKept.trans (rx_loop_own cfg env _ s s2 _ cur hl) (OwnKept.of_ring_eq cfg rfl)

/-- Tear-down of one slot writes no descriptor. -/
theorem ring_cleanup_slot_own (cfg : Config) (s s1 : State) (i : Nat)
    (e : ring_cleanup_slot s i = .ok s1) : OwnKept cfg s s1 := by
  unfold ring_cleanup_slot at e
  cases hh : rd_hndl s i with
  | error f => simp [hh] at e
  | ok h =>
    cases hb : h.psk_buff with
    | none =>
      simp only [hh, hb, Except.ok.injEq] at e
      rw [← e]
      exact OwnKept.refl cfg s
    | some skb =>
      cases hd : rd_desc s h.pdesc with
      | error f => simp [hh, hb, hd] at e
      | ok d =>
        simp only [hh, hb, hd, Except.ok.injEq] at e
        rw [← e]
        exact OwnKept.of_ring_eq cfg rfl

/-- The tear-down loop writes no descriptor. -/
theorem ring_cleanup_loop_own (cfg : Config) :
    ∀ (k i : Nat) (s s1 : State), ring_cleanup_loop k i s = .ok s1 → OwnKept cfg s s1 := by
  intro k
  induction k with
  | zero =>
    intro i s s1 e
    rw [ring_cleanup_loop] at e
    injection e with e
    rw [← e]
    exact OwnKept.refl cfg s
  | succ k ih =>
    intro i s s1 e
    rw [ring_cleanup_loop] at e
    cases hs : ring_cleanup_slot s i with
    | error f => simp [hs] at e
    | ok s2 =>
      simp only [hs] at e
      exact OwnKept.trans (ring_cleanup_slot_own cfg s s2 i hs) (ih (i + 1) s2 s1 e)

/-- The tear-down routine writes no descriptor. -/
theorem pcie_rx_ring_cleanup_own (cfg : Config) (s s1 : State)
    (e : pcie_rx_ring_cleanup cfg s = .ok s1) : OwnKept cfg s s1 := by
  unfold pcie_rx_ring_cleanup at e
  cases hr : s.prx_ring with
  | none =>
    simp only [hr, Except.ok.injEq] at e
    rw [← e]
    exact OwnKept.refl cfg s
  | some ds =>
    simp only [hr] at e
    exact ring_cleanup_loop_own cfg _ _ s s1 e

/-- Setting up one slot writes only driver ownership. -/
theorem ring_init_slot_own (cfg : Config) (env : Env) (s s1 : State) (i : Nat) (rc : Int)
    (e : ring_init_slot cfg env s i = .ok (s1, rc)) : OwnKept cfg s s1 := by
  unfold ring_init_slot at e
  cases hh : rd_hndl s i with
  | error f => simp [hh] at e
  | ok h =>
    cases ha : env.alloc s.nalloc with
    | none =>
      simp only [hh, ha, Except.ok.injEq, Prod.mk.injEq] at e
      rw [← e.1]
      exact OwnKept.of_ring_eq cfg rfl
    | some slack =>
      simp only [hh, ha] at e
      cases hd : rd_desc (emit { wr_hndl s i { h with psk_buff := some (skb_reserve
          (dev_alloc_skb cfg s.nalloc s.rx_buf_size slack) cfg.PCIE_MIN_BYTES_HEADROOM) } with
          nalloc := s.nalloc + 1 } [.dev_alloc_skb (some (skb_reserve
          (dev_alloc_skb cfg s.nalloc s.rx_buf_size slack) cfg.PCIE_MIN_BYTES_HEADROOM).id)])
          (some i) with
      | error f => simp [hd] at e
      | ok d =>
        simp only [hd] at e
        cases hm : env.map s.nmap with
        | none =>
          simp only [hm, Except.ok.injEq, Prod.mk.injEq] at e
          rw [← e.1]
          exact OwnKept.trans (OwnKept.of_ring_eq cfg rfl)
            (OwnKept.trans (OwnKept.wr_desc cfg _ i _ (fun _ _ => Or.inr rfl))
              (OwnKept.of_ring_eq cfg rfl))
        | some dma =>
          simp only [hm, Except.ok.injEq, Prod.mk.injEq] at e
          rw [← e.1]
          exact OwnKept.trans (OwnKept.of_ring_eq cfg rfl)
            (OwnKept.trans (OwnKept.wr_desc cfg _ i _ (fun _ _ => Or.inr rfl))
              (OwnKept.trans (OwnKept.wr_desc cfg _ i _ (fun _ _ => Or.inr rfl))
                (OwnKept.of_ring_eq cfg rfl)))

/-- The set-up loop writes only driver ownership. -/
theorem ring_init_loop_own (cfg : Config) (env : Env) :
    ∀ (k i : Nat) (s s1 : State) (rc : Int),
      ring_init_loop cfg env k i s = .ok (s1, rc) → OwnKept cfg s s1 := by
  intro k
  induction k with
  | zero =>
    intro i s s1 rc e
    rw [ring_init_loop] at e
    simp only [Except.ok.injEq, Prod.mk.injEq] at e
    rw [← e.1]
    exact OwnKept.refl cfg s
  | succ k ih =>
    intro i s s1 rc e
    rw [ring_init_loop] at e
    cases hs : ring_init_slot cfg env s i with
    | error f => simp [hs] at e
    | ok r =>
      obtain ⟨s2, rc2⟩ := r
      simp only [hs] at e
      have o1 := ring_init_slot_own cfg env s s2 i rc2 hs
      by_cases hz : rc2 = 0
      · simp only [hz, if_true] at e
        exact OwnKept.trans o1 (ih (i + 1) s2 s1 rc e)
      · simp only [hz, if_false, Except.ok.injEq, Prod.mk.injEq] at e
        rw [← e.1]
        exact o1

/-- The set-up routine writes only driver ownership. -/
theorem pcie_rx_ring_init_own (cfg : Config) (env : Env) (s s1 : State) (rc : Int)
    (e : pcie_rx_ring_init cfg env s = .ok (s1, rc)) : OwnKept cfg s s1 := by
  unfold pcie_rx_ring_init at e
  split at e
  · simp only [Except.ok.injEq, Prod.mk.injEq] at e
    rw [← e.1]
    exact OwnKept.refl cfg s
  · have o0 : OwnKept cfg s { s with rx_buf_size := cfg.SYSADPT_MAX_AGGR_SIZE } :=
      OwnKept.of_ring_eq cfg rfl
    simp only [] at e
    split at e
    · exact absurd e (by simp)
    · rename_i s2 rc2 hl
      have o1 := OwnKept.trans o0 (ring_init_loop_own cfg env _ _ _ s2 rc2 hl)
      by_cases hz : rc2 = 0
      · simp only [hz, if_true] at e
        cases hd : rd_desc s2 (some (cfg.PCIE_MAX_NUM_RX_DESC - 1)) with
        | error f => simp [hd] at e
        | ok d =>
          simp only [hd] at e
          cases hh : rd_hndl (wr_desc s2 (cfg.PCIE_MAX_NUM_RX_DESC - 1)
              { d with pphys_next := s.pphys_rx_ring % 4294967296 })
              (cfg.PCIE_MAX_NUM_RX_DESC - 1) with
          | error f => simp [hh] at e
          | ok h =>
            simp only [hh, Except.ok.injEq, Prod.mk.injEq] at e
            rw [← e.1]
            refine OwnKept.trans o1 (OwnKept.trans (OwnKept.wr_desc cfg s2 _ _ ?_)
              (OwnKept.of_ring_eq cfg rfl))
            intro d0 hd0
            rw [hd] at hd0
            injection hd0 with hd0
            rw [← hd0]
            exact Or.inl rfl
      · simp only [hz, if_false, Except.ok.injEq, Prod.mk.injEq] at e
        rw [← e.1]
        exact o1

/-- C15: software never turns an available descriptor into a filled one and
writes no ownership value other than driver ownership. For each of
`pcie_rx_ring_init`, `pcie_rx_refill`, `pcie_rx_recv` and
`pcie_rx_ring_cleanup`, when the call returns, every descriptor of the ring is
still there and its ownership field either is what it was before the call or
is `EAGLE_RXD_CTRL_DRIVER_OWN`; so a descriptor that was driver-owned before
the call is driver-owned after it. -/
theorem software_writes_driver_own_only (cfg : Config) (env : Env) (s s1 : State)
    (hi : Nat) (rc : Int)
    (hcall : pcie_rx_ring_init cfg env s = .ok (s1, rc) ∨
      pcie_rx_refill cfg env s hi = .ok (s1, rc) ∨
      pcie_rx_recv cfg env s = .ok s1 ∨
      pcie_rx_ring_cleanup cfg s = .ok s1) :
    ∀ i d, rd_desc s (some i) = .ok d →
      ∃ d1, rd_desc s1 (some i) = .ok d1 ∧
        (d1.rx_control = d.rx_control ∨ d1.rx_control = cfg.EAGLE_RXD_CTRL_DRIVER_OWN) ∧
        (d.rx_control = cfg.EAGLE_RXD_CTRL_DRIVER_OWN →
          d1.rx_control = cfg.EAGLE_RXD_CTRL_DRIVER_OWN) := by
  have key : OwnKept cfg s s1 := by
    rcases hcall with h | h | h | h
    · exact pcie_rx_ring_init_own cfg env s s1 rc h
    · exact pcie_rx_refill_own cfg env s s1 hi rc h
    · exact pcie_rx_recv_own cfg env s s1 h
    · exact pcie_rx_ring_cleanup_own cfg s s1 h
  intro i d e
  obtain ⟨d1, e1, r⟩ := key i d e
  refine ⟨d1, e1, r, fun hd => ?_⟩
  rcases r with r | r
  · exact r.trans hd
  · exact r

/-- Witness for C15: `pcie_rx_recv` on the ring with a plain frame in slot 0
returns; slot 1, driver-owned before the call, is driver-owned after it. -/
theorem software_writes_driver_own_only_witness :
    ∃ s1 d d1, pcie_rx_recv cfg3 env_ok ring3_plain = .ok s1 ∧
      rd_desc ring3_plain (some 1) = .ok d ∧ d.rx_control = cfg3.EAGLE_RXD_CTRL_DRIVER_OWN ∧
      rd_desc s1 (some 1) = .ok d1 ∧ d1.rx_control = cfg3.EAGLE_RXD_CTRL_DRIVER_OWN := by
  obtain ⟨d1, e1, -, r⟩ :=
    software_writes_driver_own_only cfg3 env_ok ring3_plain _ 0 0
      (Or.inr (Or.inr (Or.inl rfl))) 1 _ rfl
  exact ⟨_, _, d1, rfl, rfl, rfl, e1, r rfl⟩

/-! ## Tear-down unmaps what set-up mapped -/

theorem unmapPaired_append {tr es : List Event} (h1 : UnmapPaired tr) (h2 : UnmapPaired es) :
    UnmapPaired (tr ++ es) := by
  intro pre a post e
  rcases List.append_eq_append_iff.mp e with ⟨a1, -, hes⟩ | ⟨c1, htr, hc⟩
  · exact h2 a1 a post hes
  · cases c1 with
    | nil =>
      simp only [List.nil_append] at hc
      exact h2 [] a post (by rw [← hc]; rfl)
    | cons x c2 =>
      simp only [List.cons_append, List.cons.injEq] at hc
      obtain ⟨hx, hp⟩ := hc
      subst hx
      obtain ⟨id, p2, hp2⟩ := h1 pre a c2 htr
      exact ⟨id, p2 ++ es, by rw [hp, hp2]; rfl⟩

theorem unmapPaired_of_no_unmap {es : List Event}
    (h : ∀ a, Event.pci_unmap_single a ∉ es) : UnmapPaired es := by
  intro pre a post e
  exact absurd (by rw [e]; simp) (h a)

theorem unmapPaired_pair (a id : Nat) :
    UnmapPaired [Event.pci_unmap_single a, Event.dev_kfree_skb_any id] := by
  intro pre b post e
  cases pre with
  | nil =>
    simp only [List.nil_append, List.cons.injEq] at e
    exact ⟨id, [], e.2.symm⟩
  | cons x pre1 =>
    cases pre1 with
    | nil => simp at e
    | cons y pre2 => simp at e

theorem TraceInv.step {n n1 : Nat} {tr es : List Event} (hT : TraceInv n tr) (hn : n ≤ n1)
    (hk : ∀ id, Event.dev_kfree_skb_any id ∈ es → id < n1)
    (hm : ∀ id r, Event.pci_map_single id r ∈ es → id < n1)
    (hp : UnmapPaired es) : TraceInv n1 (tr ++ es) := by
  obtain ⟨t1, t2, t3⟩ := hT
  refine ⟨?_, ?_, unmapPaired_append t3 hp⟩
  · intro id hid
    rcases List.mem_append.mp hid with h | h
    · exact lt_of_lt_of_le (t1 id h) hn
    · exact hk id h
  · intro id r hid
    rcases List.mem_append.mp hid with h | h
    · exact lt_of_lt_of_le (t2 id r h) hn
    · exact hm id r h

/-- The invariant of the held buffers survives a step that replaces the handle
of slot `i` (by one holding no buffer or a buffer allocated in the step) and
the descriptor of slot `i`, and adds events that concern only buffers of this
slot. -/
theorem HeldInv.update {ds : List pcie_rx_desc} {hl : List pcie_rx_hndl} {n : Nat}
    {tr : List Event} (hI : HeldInv ds hl n tr) (hT : TraceInv n tr)
    (i : Nat) (h1 : pcie_rx_hndl) (ds1 : List pcie_rx_desc) (n1 : Nat) (es : List Event)
    (hn : n ≤ n1) (hlen : ds1.length = ds.length)
    (hds : ∀ j, j ≠ i → ds1[j]? = ds[j]?)
    (hk : ∀ id, Event.dev_kfree_skb_any id ∈ es →
      ∀ (j : Nat) (h : pcie_rx_hndl) (skb : sk_buff), j ≠ i → hl[j]? = some h →
        h.psk_buff = some skb → skb.id ≠ id)
    (hm : ∀ id r, Event.pci_map_single id r ∈ es → n ≤ id)
    (hnew : ∀ skb, h1.psk_buff = some skb →
      n ≤ skb.id ∧ skb.id < n1 ∧ Event.dev_kfree_skb_any skb.id ∉ es ∧
      (∀ (di : Nat) (d : pcie_rx_desc), h1.pdesc = some di → ds1[di]? = some d →
        di = i ∧ ∃ dma, Event.pci_map_single skb.id (some dma) ∈ es ∧
          (∀ r, Event.pci_map_single skb.id r ∈ es → r = some dma) ∧
          d.pphys_buff_data = dma % 4294967296)) :
    HeldInv ds1 (hl.set i h1) n1 (tr ++ es) := by
  obtain ⟨t1, t2, -⟩ := hT
  intro j h skb hj hb
  rw [List.getElem?_set] at hj
  by_cases hij : i = j
  · subst hij
    rw [if_pos rfl] at hj
    split_ifs at hj with hlt
    injection hj with hj
    subst hj
    obtain ⟨q1, q2, q3, q4⟩ := hnew skb hb
    refine ⟨q2, ?_, ?_, ?_⟩
    · intro hmem
      rcases List.mem_append.mp hmem with hmem | hmem
      · exact absurd (t1 _ hmem) (by omega)
      · exact q3 hmem
    · intro j h2 skb2 hj2 hb2 hid
      by_contra hne
      rw [List.getElem?_set, if_neg (fun e => hne e.symm)] at hj2
      have := (hI j h2 skb2 hj2 hb2).1
      omega
    · intro di d hp hd
      obtain ⟨r1, dma, r2, r3, r4⟩ := q4 di d hp hd
      refine ⟨r1, dma, List.mem_append.mpr (Or.inr r2), ?_, r4⟩
      intro r hr
      rcases List.mem_append.mp hr with hr | hr
      · exact absurd (t2 _ _ hr) (by omega)
      · exact r3 r hr
  · rw [if_neg hij] at hj
    obtain ⟨q1, q2, q3, q4⟩ := hI j h skb hj hb
    refine ⟨by omega, ?_, ?_, ?_⟩
    · intro hmem
      rcases List.mem_append.mp hmem with hmem | hmem
      · exact q2 hmem
      · exact hk _ hmem j h skb (fun e => hij e.symm) hj hb rfl
    · intro j2 h2 skb2 hj2 hb2 hid
      rw [List.getElem?_set] at hj2
      by_cases hij2 : i = j2
      · subst hij2
        rw [if_pos rfl] at hj2
        split_ifs at hj2 with hlt
        injection hj2 with hj2
        subst hj2
        have := (hnew skb2 hb2).1
        omega
      · rw [if_neg hij2] at hj2
        exact q3 j2 h2 skb2 hj2 hb2 hid
    · intro di d hp hd
      have hdi : di < ds.length := by
        rw [← hlen]
        exact (List.getElem?_eq_some.mp hd).1
      obtain ⟨d0, hd0⟩ : ∃ d0, ds[di]? = some d0 := ⟨ds[di], List.getElem?_eq_getElem hdi⟩
      obtain ⟨r1, -⟩ := q4 di d0 hp hd0
      have hne : di ≠ i := by rw [r1]; exact fun e => hij e.symm
      rw [hds di hne] at hd
      obtain ⟨-, dma, r2, r3, r4⟩ := q4 di d hp hd
      refine ⟨r1, dma, List.mem_append.mpr (Or.inl r2), ?_, r4⟩
      intro r hr
      rcases List.mem_append.mp hr with hr | hr
      · exact r3 r hr
      · exact absurd (hm _ _ hr) (by omega)

/-- The invariant of the held buffers survives a step that leaves every
handle's buffer and descriptor reference and every descriptor's buffer address
as they are. -/
theorem HeldInv.congr {ds ds1 : List pcie_rx_desc} {hl hl1 : List pcie_rx_hndl} {n : Nat}
    {tr : List Event} (hI : HeldInv ds hl n tr)
    (hh : ∀ (j : Nat) (h1 : pcie_rx_hndl), hl1[j]? = some h1 →
      ∃ h, hl[j]? = some h ∧ h.psk_buff = h1.psk_buff ∧ h.pdesc = h1.pdesc)
    (hd : ∀ (j : Nat) (d1 : pcie_rx_desc), ds1[j]? = some d1 →
      ∃ d, ds[j]? = some d ∧ d.pphys_buff_data = d1.pphys_buff_data) :
    HeldInv ds1 hl1 n tr := by
  intro j h1 skb hj hb
  obtain ⟨h, hj0, e1, e2⟩ := hh j h1 hj
  obtain ⟨q1, q2, q3, q4⟩ := hI j h skb hj0 (by rw [e1, hb])
  refine ⟨q1, q2, ?_, ?_⟩
  · intro j2 h2 skb2 hj2 hb2 hid
    obtain ⟨h20, hj20, e3, -⟩ := hh j2 h2 hj2
    exact q3 j2 h20 skb2 hj20 (by rw [e3, hb2]) hid
  · intro di d1 hp hd1
    obtain ⟨d, hd0, e3⟩ := hd di d1 hd1
    obtain ⟨r1, dma, r2, r3, r4⟩ := q4 di d (by rw [e2, hp]) hd0
    exact ⟨r1, dma, r2, r3, by rw [← e3, r4]⟩

/-- One pass of the tear-down loop from a state with the invariant: a handle
without a buffer is skipped; otherwise the buffer of the handle was mapped
once, successfully, has not been released, the pass unmaps the address of that
mapping (as the 32-bit descriptor field holds it) and releases the buffer; the
invariant holds again afterwards. -/
theorem ring_cleanup_slot_inv (s s1 : State) (i : Nat) (hI : CleanInv s)
    (e : ring_cleanup_slot s i = .ok s1) :
    CleanInv s1 ∧ ∃ h, rd_hndl s i = .ok h ∧
      (h.psk_buff = none → s1 = s) ∧
      (∀ skb, h.psk_buff = some skb → ∃ dma,
        Event.pci_map_single skb.id (some dma) ∈ s.trace ∧
        (∀ r, Event.pci_map_single skb.id r ∈ s.trace → r = some dma) ∧
        Event.dev_kfree_skb_any skb.id ∉ s.trace ∧
        s1 = emit (wr_hndl s i { h with psk_buff := none })
          [.pci_unmap_single (dma % 4294967296), .dev_kfree_skb_any skb.id]) := by
  unfold ring_cleanup_slot at e
  cases hh : rd_hndl s i with
  | error f => simp [hh] at e
  | ok h =>
    obtain ⟨hl, hhl, hhi⟩ := rd_hndl_ok hh
    cases hb : h.psk_buff with
    | none =>
      simp only [hh, hb, Except.ok.injEq] at e
      subst e
      exact ⟨hI, h, rfl, fun _ => rfl, fun skb hc => absurd (hb.symm.trans hc) (by simp)⟩
    | some skb =>
      cases hp : h.pdesc with
      | none => simp [hh, hb, hp, rd_desc] at e
      | some di =>
        cases hd0 : rd_desc s h.pdesc with
        | error f => simp [hh, hb, hd0] at e
        | ok d =>
          have hd : rd_desc s (some di) = .ok d := by rw [← hp]; exact hd0
          obtain ⟨ds, hds, hdi⟩ := rd_desc_ok hd
          simp only [hh, hb, hd0, Except.ok.injEq] at e
          obtain ⟨hT, hH⟩ := hI
          have hHeld := hH ds hl hds hhl
          obtain ⟨q1, q2, q3, q4⟩ := hHeld i h skb hhi hb
          obtain ⟨r1, dma, r2, r3, r4⟩ := q4 di d hp hdi
          have es : s1 = emit (wr_hndl s i { h with psk_buff := none })
              [.pci_unmap_single (dma % 4294967296), .dev_kfree_skb_any skb.id] := by
            rw [← e, r4]
          refine ⟨?_, h, rfl, fun hc => absurd (hb.symm.trans hc) (by simp), ?_⟩
          · rw [es]
            constructor
            · refine TraceInv.step hT (le_refl _) ?_ ?_ (unmapPaired_pair _ _)
              · intro id hid
                have hid2 : id = skb.id := by simpa using hid
                rw [hid2]
                exact q1
              · intro id r hid
                simp at hid
            · intro ds1 hl1 e1 e2
              have e1b : ds1 = ds := by
                have : s.prx_ring = some ds1 := e1
                rw [hds] at this
                injection this with this
                exact this.symm
              have e2b : hl1 = hl.set i { h with psk_buff := none } := by
                have : s.rx_hndl.map (fun hs => hs.set i { h with psk_buff := none })
                    = some hl1 := e2
                rw [hhl] at this
                injection this with this
                exact this.symm
              rw [e1b, e2b]
              refine HeldInv.update hHeld hT i _ ds s.nalloc _ (le_refl _) rfl (fun _ _ => rfl)
                ?_ ?_ ?_
              · intro id hid j h2 skb2 hne hj2 hb2 hid2
                have hid3 : id = skb.id := by simpa using hid
                exact hne (q3 j h2 skb2 hj2 hb2 (by rw [hid2, hid3]))
              · intro id r hid
                simp at hid
              · intro skb2 hc
                cases hc
          · intro skb2 hb2
            have hsk : skb2 = skb := by
              rw [hb] at hb2
              injection hb2 with hb2
              exact hb2.symm
            subst hsk
            exact ⟨dma, r2, r3, q2, es⟩

/-- The outcomes of one pass of slot initialisation that returns: the buffer
allocation fails; the mapping fails; both succeed. -/
theorem ring_init_slot_cases (cfg : Config) (env : Env) (s s1 : State) (i : Nat) (rc : Int)
    (e : ring_init_slot cfg env s i = .ok (s1, rc)) :
    ∃ hl h, s.rx_hndl = some hl ∧ hl[i]? = some h ∧
      ((env.alloc s.nalloc = none ∧ rc = -ENOMEM ∧
        s1 = { s with rx_hndl := some (hl.set i { h with psk_buff := none }),
                      nalloc := s.nalloc + 1,
                      trace := s.trace ++ [.dev_alloc_skb none] }) ∨
       ∃ slack ds d, env.alloc s.nalloc = some slack ∧ s.prx_ring = some ds ∧
        ds[i]? = some d ∧
        ((env.map s.nmap = none ∧ rc = -ENOMEM ∧
          s1 = { s with
            prx_ring := some (ds.set i
              { d with rx_control := cfg.EAGLE_RXD_CTRL_DRIVER_OWN,
                       status := cfg.EAGLE_RXD_STATUS_OK, qos_ctrl := 0, channel := 0,
                       rssi := 0, pkt_len := cfg.SYSADPT_MAX_AGGR_SIZE % 65536 }),
            rx_hndl := some (hl.set i
              { h with psk_buff := some (skb_reserve
                  (dev_alloc_skb cfg s.nalloc s.rx_buf_size slack) cfg.PCIE_MIN_BYTES_HEADROOM) }),
            nalloc := s.nalloc + 1, nmap := s.nmap + 1,
            trace := s.trace ++ [.dev_alloc_skb (some s.nalloc),
                                 .pci_map_single s.nalloc none] }) ∨
         ∃ dma, env.map s.nmap = some dma ∧ rc = 0 ∧
          s1 = { s with
            prx_ring := some (ds.set i
              { d with rx_control := cfg.EAGLE_RXD_CTRL_DRIVER_OWN,
                       status := cfg.EAGLE_RXD_STATUS_OK, qos_ctrl := 0, channel := 0,
                       rssi := 0, pkt_len := cfg.SYSADPT_MAX_AGGR_SIZE % 65536,
                       pphys_buff_data := dma % 4294967296,
                       pphys_next := (s.pphys_rx_ring % 4294967296 +
                          (i + 1) * cfg.sizeof_pcie_rx_desc) % 4294967296 }),
            rx_hndl := some (hl.set i
              { psk_buff := some (skb_reserve
                  (dev_alloc_skb cfg s.nalloc s.rx_buf_size slack) cfg.PCIE_MIN_BYTES_HEADROOM),
                pdesc := some i,
                pnext := if i < cfg.PCIE_MAX_NUM_RX_DESC - 1 then some (i + 1) else h.pnext }),
            nalloc := s.nalloc + 1, nmap := s.nmap + 1,
            trace := s.trace ++ [.dev_alloc_skb (some s.nalloc),
                                 .pci_map_single s.nalloc (some dma)] })) := by
  cases hh : rd_hndl s i with
  | error f => simp [ring_init_slot, hh] at e
  | ok h =>
    obtain ⟨hl, hhl, hhi⟩ := rd_hndl_ok hh
    refine ⟨hl, h, hhl, hhi, ?_⟩
    cases ha : env.alloc s.nalloc with
    | none =>
      left
      simp only [ring_init_slot, hh, ha, Except.ok.injEq, Prod.mk.injEq] at e
      refine ⟨rfl, e.2.symm, ?_⟩
      rw [← e.1]
      simp [emit, wr_hndl, hhl]
    | some slack =>
      right
      cases hr : s.prx_ring with
      | none => simp [ring_init_slot, hh, ha, rd_desc, emit, wr_hndl, hr] at e
      | some ds =>
        cases hd : ds[i]? with
        | none => simp [ring_init_slot, hh, ha, rd_desc, emit, wr_hndl, hr, hd] at e
        | some d =>
          refine ⟨slack, ds, d, rfl, rfl, hd, ?_⟩
          have hi : i < ds.length := (List.getElem?_eq_some.mp hd).1
          cases hm : env.map s.nmap with
          | none =>
            left
            simp only [ring_init_slot, hh, ha, rd_desc, emit, wr_hndl, wr_desc, hr, hd, hm,
              Except.ok.injEq, Prod.mk.injEq] at e
            refine ⟨rfl, e.2.symm, ?_⟩
            rw [← e.1]
            simp [hhl, skb_reserve, dev_alloc_skb]
          | some dma =>
            right
            rw [ring_init_slot_ok cfg env s i ds hl d h slack dma hr hhl hd hhi ha hm] at e
            simp only [Except.ok.injEq, Prod.mk.injEq] at e
            exact ⟨dma, rfl, e.2.symm, e.1.symm⟩

theorem TraceInv.neutral {n n1 : Nat} {tr es : List Event} (hT : TraceInv n tr) (hn : n ≤ n1)
    (hk : ∀ id, Event.dev_kfree_skb_any id ∉ es)
    (hm : ∀ id r, Event.pci_map_single id r ∉ es)
    (hu : ∀ a, Event.pci_unmap_single a ∉ es) : TraceInv n1 (tr ++ es) :=
  TraceInv.step hT hn (fun id h => absurd h (hk id)) (fun id r h => absurd h (hm id r))
    (unmapPaired_of_no_unmap hu)

theorem CleanInv.of_no_ring {s : State} (hT : TraceInv s.nalloc s.trace)
    (hr : s.prx_ring = none) : CleanInv s :=
  ⟨hT, fun ds _ e => by rw [hr] at e; cases e⟩

theorem CleanInv.of_no_hndl {s : State} (hT : TraceInv s.nalloc s.trace)
    (hr : s.rx_hndl = none) : CleanInv s :=
  ⟨hT, fun _ hs _ e => by rw [hr] at e; cases e⟩

theorem mem_alloc_map {id a : Nat} {r q x : Option Nat}
    (h : Event.pci_map_single id r ∈ [Event.dev_alloc_skb x, Event.pci_map_single a q]) :
    id = a ∧ r = q := by
  simpa using h

/-- One pass of slot initialisation for a slot whose handle refers to no
descriptor yet keeps the invariant; when it succeeds the later handles still
refer to no descriptor. -/
theorem ring_init_slot_inv (cfg : Config) (env : Env) (s s1 : State) (i : Nat) (rc : Int)
    (hI : CleanInv s) (hF : FreshFrom s i)
    (e : ring_init_slot cfg env s i = .ok (s1, rc)) :
    CleanInv s1 ∧ FreshFrom s1 (i + 1) := by
  obtain ⟨hT, hH⟩ := hI
  obtain ⟨hl, h, hhl, hhi, hc⟩ := ring_init_slot_cases cfg env s s1 i rc e
  have hpd : h.pdesc = none := hF hl i h hhl (le_refl _) hhi
  have hfresh : ∀ (h1 : pcie_rx_hndl) (s2 : State), s2.rx_hndl = some (hl.set i h1) →
      FreshFrom s2 (i + 1) := by
    intro h1 s2 e2 hl2 j h2 e3 hj hj2
    rw [e2] at e3
    injection e3 with e3
    rw [← e3, List.getElem?_set, if_neg (by omega)] at hj2
    exact hF hl j h2 hhl (by omega) hj2
  rcases hc with ⟨-, -, es⟩ | ⟨slack, ds, d, -, hds, hd, hc⟩
  · refine ⟨?_, hfresh _ s1 (by rw [es])⟩
    rw [es]
    constructor
    · exact TraceInv.neutral hT (Nat.le_succ _) (by simp) (by simp) (by simp)
    · intro ds1 hl1 e1 e2
      have e1b : s.prx_ring = some ds1 := e1
      have e2b : hl1 = hl.set i { h with psk_buff := none } := by
        injection e2 with e2
        exact e2.symm
      rw [e2b]
      refine HeldInv.update (hH ds1 hl e1b hhl) hT i _ ds1 (s.nalloc + 1) _ (Nat.le_succ _) rfl
        (fun _ _ => rfl) (by simp) (by simp) ?_
      intro skb hc
      cases hc
  · have hlen : ∀ d1, (ds.set i d1).length = ds.length := fun d1 => List.length_set _ _ _
    have hget : ∀ d1 j, j ≠ i → (ds.set i d1)[j]? = ds[j]? := by
      intro d1 j hj
      rw [List.getElem?_set, if_neg (fun e => hj e.symm)]
    rcases hc with ⟨-, -, es⟩ | ⟨dma, -, -, es⟩
    · refine ⟨?_, hfresh _ s1 (by rw [es])⟩
      rw [es]
      constructor
      · refine TraceInv.step hT (Nat.le_succ _) (by simp) ?_ (unmapPaired_of_no_unmap (by simp))
        intro id r hid
        have : id = s.nalloc := (mem_alloc_map hid).1
        show id < s.nalloc + 1
        omega
      · intro ds1 hl1 e1 e2
        injection e1 with e1
        injection e2 with e2
        rw [← e1, ← e2]
        refine HeldInv.update (hH ds hl hds hhl) hT i _ _ (s.nalloc + 1) _ (Nat.le_succ _)
          (hlen _) (hget _) (by simp) ?_ ?_
        · intro id r hid
          exact le_of_eq (mem_alloc_map hid).1.symm
        · intro skb hb
          injection hb with hb
          rw [← hb]
          refine ⟨le_refl _, Nat.lt_succ_self _, by simp, ?_⟩
          intro di d1 hp
          rw [hpd] at hp
          cases hp
    · refine ⟨?_, hfresh _ s1 (by rw [es])⟩
      rw [es]
      constructor
      · refine TraceInv.step hT (Nat.le_succ _) (by simp) ?_ (unmapPaired_of_no_unmap (by simp))
        intro id r hid
        have : id = s.nalloc := (mem_alloc_map hid).1
        show id < s.nalloc + 1
        omega
      · intro ds1 hl1 e1 e2
        injection e1 with e1
        injection e2 with e2
        rw [← e1, ← e2]
        refine HeldInv.update (hH ds hl hds hhl) hT i _ _ (s.nalloc + 1) _ (Nat.le_succ _)
          (hlen _) (hget _) (by simp) ?_ ?_
        · intro id r hid
          exact le_of_eq (mem_alloc_map hid).1.symm
        · intro skb hb
          injection hb with hb
          rw [← hb]
          refine ⟨le_refl _, Nat.lt_succ_self _, by simp, ?_⟩
          intro di d1 hp hd1
          injection hp with hp
          have hi : i < ds.length := (List.getElem?_eq_some.mp hd).1
          rw [← hp, List.getElem?_set, if_pos rfl, if_pos hi] at hd1
          injection hd1 with hd1
          refine ⟨hp.symm, dma, by simp [skb_reserve, dev_alloc_skb], ?_, by rw [← hd1]⟩
          intro r hr
          exact (mem_alloc_map hr).2

/-- The slot loop of set-up keeps the invariant, whether it runs to its end or
leaves early. -/
theorem ring_init_loop_inv (cfg : Config) (env : Env) :
    ∀ (k i : Nat) (s s1 : State) (rc : Int), CleanInv s → FreshFrom s i →
      ring_init_loop cfg env k i s = .ok (s1, rc) → CleanInv s1 := by
  intro k
  induction k with
  | zero =>
    intro i s s1 rc hI _ e
    rw [ring_init_loop] at e
    simp only [Except.ok.injEq, Prod.mk.injEq] at e
    rw [← e.1]
    exact hI
  | succ k ih =>
    intro i s s1 rc hI hF e
    rw [ring_init_loop] at e
    cases hs : ring_init_slot cfg env s i with
    | error f => simp [hs] at e
    | ok r =>
      obtain ⟨s2, rc2⟩ := r
      simp only [hs] at e
      obtain ⟨hI2, hF2⟩ := ring_init_slot_inv cfg env s s2 i rc2 hI hF hs
      by_cases hz : rc2 = 0
      · simp only [hz, if_true] at e
        exact ih (i + 1) s2 s1 rc hI2 hF2 e
      · simp only [hz, if_false, Except.ok.injEq, Prod.mk.injEq] at e
        rw [← e.1]
        exact hI2

/-- `pcie_rx_ring_init` on a ring whose handles refer to no descriptor yet
keeps the invariant, on success and on either failure. -/
theorem pcie_rx_ring_init_inv (cfg : Config) (env : Env) (s s1 : State) (rc : Int)
    (hI : CleanInv s) (hF : FreshFrom s 0)
    (e : pcie_rx_ring_init cfg env s = .ok (s1, rc)) : CleanInv s1 := by
  unfold pcie_rx_ring_init at e
  split at e
  · simp only [Except.ok.injEq, Prod.mk.injEq] at e
    rw [← e.1]
    exact hI
  · have hI0 : CleanInv { s with rx_buf_size := cfg.SYSADPT_MAX_AGGR_SIZE } := hI
    have hF0 : FreshFrom { s with rx_buf_size := cfg.SYSADPT_MAX_AGGR_SIZE } 0 := hF
    simp only [] at e
    split at e
    · exact absurd e (by simp)
    · rename_i s2 rc2 hl
      have hI2 := ring_init_loop_inv cfg env _ _ _ s2 rc2 hI0 hF0 hl
      by_cases hz : rc2 = 0
      · simp only [hz, if_true] at e
        cases hd : rd_desc s2 (some (cfg.PCIE_MAX_NUM_RX_DESC - 1)) with
        | error f => simp [hd] at e
        | ok d =>
          simp only [hd] at e
          cases hh : rd_hndl (wr_desc s2 (cfg.PCIE_MAX_NUM_RX_DESC - 1)
              { d with pphys_next := s.pphys_rx_ring % 4294967296 })
              (cfg.PCIE_MAX_NUM_RX_DESC - 1) with
          | error f => simp [hh] at e
          | ok h =>
            simp only [hh, Except.ok.injEq, Prod.mk.injEq] at e
            obtain ⟨ds2, hds2, hdl⟩ := rd_desc_ok hd
            obtain ⟨hl2, hhl2, hhl⟩ := rd_hndl_ok hh
            have hhl2b : s2.rx_hndl = some hl2 := hhl2
            rw [← e.1]
            refine ⟨hI2.1, ?_⟩
            intro ds1 hl1 e1 e2
            have e1b : ds1 = ds2.set (cfg.PCIE_MAX_NUM_RX_DESC - 1)
                { d with pphys_next := s.pphys_rx_ring % 4294967296 } := by
              have : s2.prx_ring.map (fun ds => ds.set (cfg.PCIE_MAX_NUM_RX_DESC - 1)
                  { d with pphys_next := s.pphys_rx_ring % 4294967296 }) = some ds1 := e1
              rw [hds2] at this
              injection this with this
              exact this.symm
            have e2b : hl1 = hl2.set (cfg.PCIE_MAX_NUM_RX_DESC - 1) { h with pnext := some 0 } := by
              have : s2.rx_hndl.map (fun hs => hs.set (cfg.PCIE_MAX_NUM_RX_DESC - 1)
                  { h with pnext := some 0 }) = some hl1 := e2
              rw [hhl2b] at this
              injection this with this
              exact this.symm
            rw [e1b, e2b]
            refine HeldInv.congr (hI2.2 ds2 hl2 hds2 hhl2b) ?_ ?_
            · intro j h1 hj
              rw [List.getElem?_set] at hj
              by_cases hjl : cfg.PCIE_MAX_NUM_RX_DESC - 1 = j
              · rw [if_pos hjl] at hj
                split_ifs at hj
                injection hj with hj
                rw [← hjl, ← hj]
                exact ⟨h, hhl, rfl, rfl⟩
              · rw [if_neg hjl] at hj
                exact ⟨h1, hj, rfl, rfl⟩
            · intro j d1 hj
              rw [List.getElem?_set] at hj
              by_cases hjl : cfg.PCIE_MAX_NUM_RX_DESC - 1 = j
              · rw [if_pos hjl] at hj
                split_ifs at hj
                injection hj with hj
                rw [← hjl, ← hj]
                exact ⟨d, hdl, rfl⟩
              · rw [if_neg hjl] at hj
                exact ⟨d1, hj, rfl⟩
      · simp only [hz, if_false, Except.ok.injEq, Prod.mk.injEq] at e
        rw [← e.1]
        exact hI2

/-- `pcie_rx_ring_alloc` keeps the invariant; when it succeeds the handles of
the new ring refer to no descriptor. -/
theorem pcie_rx_ring_alloc_inv (cfg : Config) (env : Env) (s : State) (hI : CleanInv s) :
    CleanInv (pcie_rx_ring_alloc cfg env s).1 ∧
    ((pcie_rx_ring_alloc cfg env s).2 = 0 → FreshFrom (pcie_rx_ring_alloc cfg env s).1 0) := by
  obtain ⟨hT, -⟩ := hI
  unfold pcie_rx_ring_alloc
  cases hd : env.dma_alloc with
  | none =>
    refine ⟨CleanInv.of_no_ring ?_ rfl, ?_⟩
    · exact TraceInv.neutral hT (le_refl _) (by simp) (by simp) (by simp)
    · intro hc
      simp [ENOMEM] at hc
  | some dma =>
    cases hk : env.kzalloc with
    | false =>
      refine ⟨CleanInv.of_no_hndl ?_ rfl, ?_⟩
      · have h1 : TraceInv s.nalloc (s.trace ++
            [.dma_alloc_coherent (some dma), .kzalloc false, .dma_free_coherent dma]) :=
          TraceInv.neutral hT (le_refl _) (by simp) (by simp) (by simp)
        simpa [emit] using h1
      · intro hc
        simp [ENOMEM] at hc
    | true =>
      simp only [if_true]
      have hrep : ∀ (j : Nat) (h : pcie_rx_hndl),
          (List.replicate cfg.PCIE_MAX_NUM_RX_DESC ({} : pcie_rx_hndl))[j]? = some h →
            h = {} := by
        intro j h hj
        obtain ⟨_, e⟩ := List.getElem?_eq_some.mp hj
        rw [← e]
        simp
      refine ⟨⟨?_, ?_⟩, ?_⟩
      · have h1 : TraceInv s.nalloc (s.trace ++
            [.dma_alloc_coherent (some dma), .kzalloc true]) :=
          TraceInv.neutral hT (le_refl _) (by simp) (by simp) (by simp)
        simpa [emit] using h1
      · intro ds1 hl1 _ e2
        have e2b : hl1 = List.replicate cfg.PCIE_MAX_NUM_RX_DESC {} := by
          injection e2 with e2
          exact e2.symm
        intro j h skb hj hb
        rw [e2b] at hj
        rw [hrep j h hj] at hb
        cases hb
      · intro _ hl1 j h e2 _ hj
        have e2b : hl1 = List.replicate cfg.PCIE_MAX_NUM_RX_DESC {} := by
          injection e2 with e2
          exact e2.symm
        rw [e2b] at hj
        rw [hrep j h hj]

/-- The tear-down loop keeps the invariant. -/
theorem ring_cleanup_loop_inv :
    ∀ (k i : Nat) (s s1 : State), CleanInv s → ring_cleanup_loop k i s = .ok s1 →
      CleanInv s1 := by
  intro k
  induction k with
  | zero =>
    intro i s s1 hI e
    rw [ring_cleanup_loop] at e
    injection e with e
    rw [← e]
    exact hI
  | succ k ih =>
    intro i s s1 hI e
    rw [ring_cleanup_loop] at e
    cases hs : ring_cleanup_slot s i with
    | error f => simp [hs] at e
    | ok s2 =>
      simp only [hs] at e
      exact ih (i + 1) s2 s1 (ring_cleanup_slot_inv s s2 i hI hs).1 e

/-- `pcie_rx_ring_cleanup` keeps the invariant. -/
theorem pcie_rx_ring_cleanup_inv (cfg : Config) (s s1 : State) (hI : CleanInv s)
    (e : pcie_rx_ring_cleanup cfg s = .ok s1) : CleanInv s1 := by
  unfold pcie_rx_ring_cleanup at e
  split at e
  · injection e with e
    rw [← e]
    exact hI
  · exact ring_cleanup_loop_inv _ _ s s1 hI e

/-- `pcie_rx_ring_free` keeps the invariant. -/
theorem pcie_rx_ring_free_inv (cfg : Config) (s s1 : State) (hI : CleanInv s)
    (e : pcie_rx_ring_free cfg s = .ok s1) : CleanInv s1 := by
  unfold pcie_rx_ring_free at e
  split at e
  · rename_i hr
    injection e with e
    rw [← e]
    exact CleanInv.of_no_ring
      (TraceInv.neutral hI.1 (le_refl _) (by simp) (by simp) (by simp)) hr
  · cases hc : pcie_rx_ring_cleanup cfg s with
    | error f => simp [hc] at e
    | ok s2 =>
      simp only [hc, Except.ok.injEq] at e
      have hI2 := pcie_rx_ring_cleanup_inv cfg s s2 hI hc
      rw [← e]
      exact CleanInv.of_no_ring
        (TraceInv.neutral hI2.1 (le_refl _) (by simp) (by simp) (by simp)) rfl

/-- `pcie_rx_init` keeps the invariant, on success and on every failure path
that returns. -/
theorem pcie_rx_init_inv (cfg : Config) (env : Env) (s s1 : State) (rc : Int)
    (hI : CleanInv s) (e : pcie_rx_init cfg env s = .ok (s1, rc)) : CleanInv s1 := by
  obtain ⟨hIa, hFa⟩ := pcie_rx_ring_alloc_inv cfg env s hI
  unfold pcie_rx_init at e
  simp only [] at e
  by_cases hz : (pcie_rx_ring_alloc cfg env s).2 = 0
  · simp only [hz, ne_eq, not_true_eq_false, if_false] at e
    cases hi : pcie_rx_ring_init cfg env (pcie_rx_ring_alloc cfg env s).1 with
    | error f => simp [hi] at e
    | ok r =>
      obtain ⟨s2, rc2⟩ := r
      have hI2 := pcie_rx_ring_init_inv cfg env _ s2 rc2 hIa (hFa hz) hi
      simp only [hi] at e
      by_cases hz2 : rc2 = 0
      · simp only [hz2, ne_eq, not_true_eq_false, if_false, Except.ok.injEq,
          Prod.mk.injEq] at e
        rw [← e.1]
        exact hI2
      · simp only [hz2, ne_eq, not_false_eq_true, if_true] at e
        cases hf : pcie_rx_ring_free cfg s2 with
        | error f => simp [hf] at e
        | ok s3 =>
          simp only [hf, Except.ok.injEq, Prod.mk.injEq] at e
          rw [← e.1]
          exact pcie_rx_ring_free_inv cfg s2 s3 hI2 hf
  · simp only [hz, ne_eq, not_false_eq_true, if_true, Except.ok.injEq, Prod.mk.injEq] at e
    rw [← e.1]
    exact hIa

/-- `pcie_rx_deinit` keeps the invariant. -/
theorem pcie_rx_deinit_inv (cfg : Config) (s s1 : State) (hI : CleanInv s)
    (e : pcie_rx_deinit cfg s = .ok s1) : CleanInv s1 := by
  unfold pcie_rx_deinit at e
  cases hc : pcie_rx_ring_cleanup cfg s with
  | error f => simp [hc] at e
  | ok s2 =>
    simp only [hc] at e
    exact pcie_rx_ring_free_inv cfg s2 s1 (pcie_rx_ring_cleanup_inv cfg s s2 hI hc) e

/-- Every state the ring is in under set-up and tear-down has the invariant. -/
theorem Reach.inv {cfg : Config} {s : State} (hr : Reach cfg s) : CleanInv s := by
  induction hr with
  | boot s h1 h2 =>
    refine CleanInv.of_no_ring ?_ h1
    rw [h2]
    exact ⟨by simp, by simp, unmapPaired_of_no_unmap (by simp)⟩
  | init env s s1 rc _ e ih => exact pcie_rx_init_inv cfg env s s1 rc ih e
  | init_failed env s s1 rc _ hz e _ ih =>
    obtain ⟨hIa, hFa⟩ := pcie_rx_ring_alloc_inv cfg env s ih
    exact pcie_rx_ring_init_inv cfg env _ s1 rc hIa (hFa hz) e
  | deinit s s1 _ e ih => exact pcie_rx_deinit_inv cfg s s1 ih e
  | pass s s1 i _ e ih => exact (ring_cleanup_slot_inv s s1 i ih e).1

/-- The states between the passes of a tear-down started in a reachable state
are reachable. -/
theorem Reach.cleanup_loop {cfg : Config} :
    ∀ (k i : Nat) (s s1 : State), Reach cfg s → ring_cleanup_loop k i s = .ok s1 →
      Reach cfg s1 := by
  intro k
  induction k with
  | zero =>
    intro i s s1 hr e
    rw [ring_cleanup_loop] at e
    injection e with e
    rw [← e]
    exact hr
  | succ k ih =>
    intro i s s1 hr e
    rw [ring_cleanup_loop] at e
    cases hs : ring_cleanup_slot s i with
    | error f => simp [hs] at e
    | ok s2 =>
      simp only [hs] at e
      exact ih (i + 1) s2 s1 (Reach.pass s s2 i hr hs) e

/-- C19: in every state reachable by running `pcie_rx_init` (its failure paths
included) and `pcie_rx_deinit`, the tear-down loop of `pcie_rx_ring_cleanup`
unmaps only what was mapped.  Without a descriptor block the call does nothing,
otherwise it is the loop over the slots from slot 0; the state before each pass
of the loop is again reachable, and for a pass over slot `i`: a handle without
a buffer is skipped;
when the pass issues an unmap, the buffer the handle holds was mapped, the
mapping succeeded and is the only mapping of that buffer, no unmap issued so
far was for that buffer (each was followed by the release of another buffer),
the address unmapped is the address that mapping returned, as the 32-bit
descriptor field holds it (the address itself when it fits 32 bits), the
buffer is released and the handle holds no buffer afterwards; and for a buffer
whose mapping failed the pass issues no unmap: it stops before. -/
theorem pcie_rx_ring_cleanup_unmaps_mapped (cfg : Config) (s : State) (hr : Reach cfg s) :
    (s.prx_ring = none → pcie_rx_ring_cleanup cfg s = .ok s) ∧
    (s.prx_ring ≠ none →
      pcie_rx_ring_cleanup cfg s = ring_cleanup_loop cfg.PCIE_MAX_NUM_RX_DESC 0 s) ∧
    (∀ k s1, ring_cleanup_loop k 0 s = .ok s1 → Reach cfg s1) ∧
    ∀ i h, rd_hndl s i = .ok h →
      (h.psk_buff = none → ring_cleanup_slot s i = .ok s) ∧
      ∀ skb, h.psk_buff = some skb →
        (∀ s1, ring_cleanup_slot s i = .ok s1 →
          ∃ dma, Event.pci_map_single skb.id (some dma) ∈ s.trace ∧
            (∀ r, Event.pci_map_single skb.id r ∈ s.trace → r = some dma) ∧
            (∀ pre a post, s.trace = pre ++ Event.pci_unmap_single a :: post →
              ∃ id post2, post = Event.dev_kfree_skb_any id :: post2 ∧ id ≠ skb.id) ∧
            s1.trace = s.trace ++
              [.pci_unmap_single (dma % 4294967296), .dev_kfree_skb_any skb.id] ∧
            (dma < 4294967296 → s1.trace = s.trace ++
              [.pci_unmap_single dma, .dev_kfree_skb_any skb.id]) ∧
            (rd_hndl s1 i).map (fun h1 => h1.psk_buff) = .ok none ∧
            Reach cfg s1) ∧
        (Event.pci_map_single skb.id none ∈ s.trace →
          ∃ f, ring_cleanup_slot s i = .error f) := by
  have hI := Reach.inv hr
  refine ⟨fun hn => by simp [pcie_rx_ring_cleanup, hn], ?_,
    fun k s1 e => Reach.cleanup_loop k 0 s s1 hr e, ?_⟩
  · intro hn
    cases hp : s.prx_ring with
    | none => exact absurd hp hn
    | some ds => simp [pcie_rx_ring_cleanup, hp]
  intro i h hh
  have key : ∀ skb, h.psk_buff = some skb → ∀ s1, ring_cleanup_slot s i = .ok s1 →
      ∃ dma, Event.pci_map_single skb.id (some dma) ∈ s.trace ∧
        (∀ r, Event.pci_map_single skb.id r ∈ s.trace → r = some dma) ∧
        Event.dev_kfree_skb_any skb.id ∉ s.trace ∧
        s1 = emit (wr_hndl s i { h with psk_buff := none })
          [.pci_unmap_single (dma % 4294967296), .dev_kfree_skb_any skb.id] := by
    intro skb hb s1 e
    obtain ⟨-, h2, hh2, -, q⟩ := ring_cleanup_slot_inv s s1 i hI e
    rw [hh] at hh2
    injection hh2 with hh2
    subst hh2
    exact q skb hb
  constructor
  · intro hb
    simp [ring_cleanup_slot, hh, hb]
  · intro skb hb
    constructor
    · intro s1 e
      obtain ⟨dma, r1, r2, r3, r4⟩ := key skb hb s1 e
      obtain ⟨hl, hhl, hhi⟩ := rd_hndl_ok hh
      have hlt : i < hl.length := (List.getElem?_eq_some.mp hhi).1
      have htr : s1.trace = s.trace ++
          [.pci_unmap_single (dma % 4294967296), .dev_kfree_skb_any skb.id] := by
        rw [r4]
        rfl
      refine ⟨dma, r1, r2, ?_, htr, ?_, ?_, Reach.pass s s1 i hr e⟩
      · intro pre a post hs
        obtain ⟨id, post2, hp⟩ := hI.1.2.2 pre a post hs
        refine ⟨id, post2, hp, ?_⟩
        intro hid
        apply r3
        rw [hs, hp, hid]
        simp
      · intro hlt2
        rw [htr, Nat.mod_eq_of_lt hlt2]
      · rw [r4]
        simp [rd_hndl, emit, wr_hndl, hhl, List.getElem?_set, hlt, Except.map]
    · intro hnone
      cases e : ring_cleanup_slot s i with
      | error f => exact ⟨f, rfl⟩
      | ok s1 =>
        obtain ⟨dma, -, r2, -⟩ := key skb hb s1 e
        exact absurd (r2 none hnone) (by simp)

set_option maxRecDepth 4000 in
/-- Witness for C19: the three-slot ring after slot initialisation failed at
the mapping of slot 1's buffer.  The pass over slot 0 unmaps the address its
mapping returned (4096) and releases buffer 0; the pass over slot 1, whose
buffer was never mapped, issues no unmap. -/
theorem pcie_rx_ring_cleanup_unmaps_mapped_witness :
    pcie_rx_ring_init cfg3 env_maperr_slot1 (pcie_rx_ring_alloc cfg3 env_maperr_slot1 {}).1
      = .ok (ring3_maperr, -ENOMEM) ∧
    ring3_maperr.trace = [.dma_alloc_coherent (some 1024), .kzalloc true,
      .dev_alloc_skb (some 0), .pci_map_single 0 (some 4096),
      .dev_alloc_skb (some 1), .pci_map_single 1 none] ∧
    ∃ s2, ring_cleanup_slot ring3_maperr 0 = .ok s2 ∧
      s2.trace = ring3_maperr.trace ++ [.pci_unmap_single 4096, .dev_kfree_skb_any 0] ∧
      (rd_hndl s2 1).map (fun h => h.psk_buff.map (fun b => b.id)) = .ok (some 1) ∧
      ∃ f, ring_cleanup_slot s2 1 = .error f := by
  have hr : Reach cfg3 ring3_maperr :=
    Reach.init_failed env_maperr_slot1 {} ring3_maperr (-ENOMEM) (Reach.boot {} rfl rfl) rfl rfl
      (by decide)
  refine ⟨rfl, rfl, ?_⟩
  obtain ⟨dma, -, q2, -, -, q5, -, q7⟩ :=
    (((pcie_rx_ring_cleanup_unmaps_mapped cfg3 ring3_maperr hr).2.2.2 0 _ rfl).2 _ rfl).1 _ rfl
  have hdma : dma = 4096 := by
    have := q2 (some 4096) (by decide)
    injection this with this
    exact this.symm
  subst hdma
  refine ⟨_, rfl, q5 (by decide), rfl, ?_⟩
  exact (((pcie_rx_ring_cleanup_unmaps_mapped cfg3 _ q7).2.2.2 1 _ rfl).2 _ rfl).2 (by decide)

end Mwlwifi
